import Mathlib

/-!
# Code generator of the assert-vm compiler backend

A shallow embedding of `src/backend/compiler.cpp` (with the accessors of
`src/frontend/tree.cpp`) and theorems about it.

Conventions of the embedding.

* A pointer `ast_node *` is a value of `ast_node`; the null pointer is
  `ast_node.nullptr`.  The field `addr` of a node is its address: it is what
  `id()` prints with `%lx`.
* Identifier strings are compared by pointer in the source
  (`funcs[i].ident == ident`); identifiers are taken to be interned, so that
  pointer equality is equality of names.
* Number payloads are `double` in the source; the embedding covers the
  integer-valued ones.  Frame offsets (`ptrdiff_t`) are unbounded integers.
* The output file is the list of the lines written to it, oldest first.
  Indentation is not recorded, and neither is what goes to `stderr` or `logs`.
* A failed `assert` and a dereferenced null pointer end the run; they are the
  `fault` results.
-/

namespace AssertVM

/-! ## Data model -/

/-- Modelled from the spec: the keyword tags of `ast/keyword.h` (that header is
not among the sources), from §3 of the specification.  Every tag is non-zero;
the value `0` returned by `keyword` for a non-keyword node is `none`. -/
inductive Keyword
  | AST_STMT | AST_PARAM | AST_DEFINE | AST_FUNC | AST_ASSIGN | AST_IF | AST_DECISION
  | AST_WHILE | AST_RETURN | AST_SHOW | AST_OUT | AST_CALL
  | AST_ADD | AST_SUB | AST_MUL | AST_DIV | AST_POW | AST_EQUAL | AST_NEQUAL
  | AST_GREAT | AST_LOW | AST_GEQUAL | AST_LEQUAL | AST_NOT | AST_AND | AST_OR
  | AST_SIN | AST_COS | AST_INT | AST_IN
  deriving DecidableEq, Repr

export Keyword (AST_STMT AST_PARAM AST_DEFINE AST_FUNC AST_ASSIGN AST_IF AST_DECISION
  AST_WHILE AST_RETURN AST_SHOW AST_OUT AST_CALL AST_ADD AST_SUB AST_MUL AST_DIV AST_POW
  AST_EQUAL AST_NEQUAL AST_GREAT AST_LOW AST_GEQUAL AST_LEQUAL AST_NOT AST_AND AST_OR
  AST_SIN AST_COS AST_INT AST_IN)

/-- A value of the C type `double`: a finite value, written as the decimal
fraction `digits / 10 ^ scale` with its sign (every finite `double` is such a
fraction), an infinity, or a NaN. -/
inductive double
  | finite (negative : Bool) (digits : Nat) (scale : Nat)
  | infinite (negative : Bool)
  | nan (negative : Bool)
  deriving DecidableEq, Repr

/-- The `type` tag of a node together with the member of `data` it selects
(`AST_NODE_NUMBER`, `AST_NODE_IDENT`, `AST_NODE_KEYWORD`). -/
inductive node_data
  | number (v : double)
  | ident (name : String)
  | keyword (k : Keyword)
  deriving DecidableEq, Repr

/-- The tree behind an `ast_node *`: the null pointer, or a node at address
`addr` with its payload and its two children. -/
inductive ast_node
  | nullptr
  | node (addr : Nat) (data : node_data) (left right : ast_node)
  deriving DecidableEq, Repr

/-- The four registers named in the source. -/
inductive Reg
  | ax | bx | cx | hx
  deriving DecidableEq, Repr

def RETURN_REG : Reg := .ax
def GLOBAL_REG : Reg := .cx
def LOCAL_REG : Reg := .bx
def SHIFT_REG : Reg := .hx

/-- The argument text of an emitted line, by the format that produced it. -/
inductive Arg
  /-- The decimal text of the integer `v`, without exponent: the literal text
  `"0"`, and what `number_str` writes for an integer below `10 ^ 6` in absolute
  value. -/
  | number (v : Int)
  /-- The other texts that `number_str` writes for a finite value: the one of
  `digits * 10 ^ exponent` with its sign, where `digits` does not end in the
  digit 0 (`1e+06` is `decimal false 1 6`, `0.5` is `decimal false 5 (-1)`,
  `-0` is `decimal true 0 0`).  Whether the text is in exponent style follows
  from the value. -/
  | decimal (negative : Bool) (digits : Nat) (exponent : Int)
  /-- The text `inf` or `-inf`. -/
  | infinity (negative : Bool)
  /-- The text `nan` or `-nan`. -/
  | not_a_number (negative : Bool)
  /-- A register name. -/
  | reg (r : Reg)
  /-- The text `[base + shift + idx]`. -/
  | memory (base : Reg) (shift : Int) (idx : Reg)
  /-- The text `base + shift + idx`, without brackets. -/
  | address (base : Reg) (shift : Int) (idx : Reg)
  /-- An identifier used as a label. -/
  | name (s : String)
  /-- The text of `id(name, node)`: `name.<address of node>`. -/
  | id (name : String) (node : Nat)
  deriving DecidableEq, Repr

/-- The commands that the generator writes, each by the name of the function
that writes it (`CMD(name, code, str, hash)` of `<commands>` declares one per
command; that file is not among the sources, and the text `str` printed for a
command is not recorded). -/
inductive Op
  | PUSH | POP | ADD | SUB | MUL | DIV | POW | EQ | NEQ | AB | BE | AEQ | BEQ
  | NOT | AND | OR | SIN | COS | INT | IN | JE | JMP | CALL | RET | HLT | SHW | OUT
  deriving DecidableEq, Repr

/-- One line of the output file. -/
inductive Line
  /-- A command, with its argument when it has one. -/
  | cmd (op : Op) (arg : Option Arg)
  /-- The line `arg:` written by `LABEL`. -/
  | label (arg : Arg)
  /-- The line written by `WRITE`. -/
  | write (text : String)
  deriving DecidableEq, Repr

/-- An entry of a scope table.  `ident` is `none` for a positional slot
reserved by `scope_table_add_param`. -/
structure var_info where
  ident : Option String
  node : ast_node
  shift : Int
  deriving DecidableEq, Repr

/-- A scope table: its entries in order of declaration and the running
`shift`, the size of the frame. -/
structure scope_table where
  entries : List var_info
  shift : Int
  deriving DecidableEq, Repr

/-- An entry of the function table. -/
structure func_info where
  node : ast_node
  ident : String
  n_params : Nat
  deriving DecidableEq, Repr

/-- What `table->local` points to: nothing, the global scope table (as in
`compile_tree`, where both fields hold `&gst`), or a table of its own. -/
inductive local_ptr
  | null
  | global
  | own (t : scope_table)
  deriving DecidableEq, Repr

/-- The mutable state of a run: the output file and the three fields of
`symbol_table` (`local`, `global`, `func`). -/
structure State where
  file : List Line
  local_scope : local_ptr
  global_scope : scope_table
  func : List func_info
  deriving DecidableEq, Repr

/-- Why a run ended without returning. -/
inductive Fault
  | assert_failed
  | null_deref
  deriving DecidableEq, Repr

/-- The result of a function returning `ast_node *`: the null pointer of
`success`, the node returned by `syntax_error`, or a fault. -/
inductive Status
  | success
  | syntax_error (root : ast_node)
  | fault (f : Fault)
  deriving DecidableEq, Repr

/-- The result of a function returning `const char *`. -/
inductive Lookup
  | found (text : Arg)
  | nullptr
  | fault (f : Fault)
  deriving DecidableEq, Repr

/-! ## Accessors -/

/-- The function `keyword`: the tag of a keyword node, `none` (zero) otherwise.
Its `assert(node)` is checked by the callers, which match on the pointer. -/
def keyword : ast_node → Option Keyword
  | .node _ (.keyword k) _ _ => some k
  | _ => none

/-- The name `ast_ident` returns; `none` where its assertion fails. -/
def ast_ident : ast_node → Option String
  | .node _ (.ident s) _ _ => some s
  | _ => none

def ast_node.left : ast_node → ast_node
  | .node _ _ l _ => l
  | .nullptr => .nullptr

def ast_node.right : ast_node → ast_node
  | .node _ _ _ r => r
  | .nullptr => .nullptr

def ast_node.is_null : ast_node → Bool
  | .nullptr => true
  | _ => false

/-- The table `table->local` points to. -/
def State.local_table (st : State) : Option scope_table :=
  match st.local_scope with
  | .null => none
  | .global => some st.global_scope
  | .own t => some t

/-- Write through `table->local`. -/
def State.set_local (st : State) (t : scope_table) : State :=
  match st.local_scope with
  | .null => st
  | .global => { st with global_scope := t }
  | .own _ => { st with local_scope := .own t }

/-! ## Emitter -/

def emit (st : State) (l : Line) : State := { st with file := st.file ++ [l] }

/-- A command of `<commands>`: the mnemonic, followed by `arg` when there is one. -/
def CMD (op : Op) (arg : Option Arg) (st : State) : State := emit st (.cmd op arg)

def LABEL (st : State) (arg : Arg) : State := emit st (.label arg)

def WRITE (st : State) (text : String) : State := emit st (.write text)

/-- The quotient of `n` by `unit`, rounded to the nearest integer, a tie going
to the even one: the default rounding of the C library and of conversions to
`double`. -/
def round_half_even (n unit : Nat) : Nat :=
  if 2 * (n % unit) > unit ∨ (2 * (n % unit) = unit ∧ (n / unit) % 2 = 1) then n / unit + 1
  else n / unit

/-- The number of binary digits that `a` has beyond 53, the width of the
significand of a `double`; `fuel` bounds the recursion. -/
def excess_bits : Nat → Nat → Nat
  | 0, _ => 0
  | fuel + 1, a => if a < 2 ^ 53 then 0 else excess_bits fuel (a / 2) + 1

/-- The conversion of an integer to `double`, as where `table->local->shift`
is passed to `number_str`: exact below `2 ^ 53` in absolute value, rounded to
53 significant bits above. -/
def double.of_int (v : Int) : double :=
  .finite (decide (v < 0))
    (round_half_even v.natAbs (2 ^ excess_bits v.natAbs v.natAbs) *
      2 ^ excess_bits v.natAbs v.natAbs) 0

/-- The conversion of a `double` to an integer: the fraction is dropped.  The
conversion of an infinity or a NaN is undefined in C and is 0 here. -/
def double.to_int : double → Int
  | .finite negative digits scale =>
    if negative then -((digits / 10 ^ scale : Nat) : Int) else ((digits / 10 ^ scale : Nat) : Int)
  | _ => 0

/-- The number of decimal digits that `d` has beyond 6; `fuel` bounds the
recursion. -/
def excess_digits : Nat → Nat → Nat
  | 0, _ => 0
  | fuel + 1, d => if d < 10 ^ 6 then 0 else excess_digits fuel (d / 10) + 1

/-- Drop the zeros that `m` ends in, adding their number to the exponent `e`;
`fuel` bounds the recursion. -/
def strip_zeros : Nat → Nat → Int → Nat × Int
  | 0, m, e => (m, e)
  | fuel + 1, m, e =>
    if m % 10 = 0 ∧ m ≠ 0 then strip_zeros fuel (m / 10) (e + 1) else (m, e)

/-- The function `number_str`: the text that `snprintf(BUFFER, BUFSIZE, "%lg",
num)` writes.  By the C standard the value is rounded to 6 significant digits;
the text is in exponent style when the decimal exponent of the rounded value is
below -4 or at least 6, and the zeros at the end of the fraction are dropped.
So the text is the plain integer when the rounded value is an integer below
`10 ^ 6` in absolute value. -/
def number_str : double → Arg
  | .infinite negative => .infinity negative
  | .nan negative => .not_a_number negative
  | .finite negative d k =>
    if d = 0 then (if negative then .decimal true 0 0 else .number 0)
    else
      let r := excess_digits d d
      let m := round_half_even d (10 ^ r)
      if k ≤ r ∧ m * 10 ^ (r - k) < 10 ^ 6 then
        .number (if negative then -((m * 10 ^ (r - k) : Nat) : Int)
          else ((m * 10 ^ (r - k) : Nat) : Int))
      else if r < k ∧ m % 10 ^ (k - r) = 0 then
        .number (if negative then -((m / 10 ^ (k - r) : Nat) : Int)
          else ((m / 10 ^ (k - r) : Nat) : Int))
      else
        .decimal negative (strip_zeros m m ((r : Int) - k)).1
          (strip_zeros m m ((r : Int) - k)).2

def global_variable (var : var_info) (memory : Bool) : Arg :=
  if memory then .memory GLOBAL_REG var.shift SHIFT_REG
  else .address GLOBAL_REG var.shift SHIFT_REG

def local_variable (var : var_info) (memory : Bool) : Arg :=
  if memory then .memory LOCAL_REG var.shift SHIFT_REG
  else .address LOCAL_REG var.shift SHIFT_REG

/-! ## Scope table -/

/-- Modelled from the spec: `scope_table_find` of `backend/scope_table.h`, which
is not among the sources.  Spec §4.1: exact-name lookup; does not allocate. -/
def scope_table_find (scope : scope_table) (name : String) : Option var_info :=
  scope.entries.find? (fun e => e.ident = some name)

/-- Modelled from the spec: `scope_table_add` of `backend/scope_table.h`.  Spec
§4.1: rejects if the identifier already exists in this scope, or if it has an
index child that is not a number literal; assigns `shift = scope.shift`, then
advances `scope.shift` by 1 for a scalar or by the declared length for an
array. -/
def scope_table_add (scope : scope_table) (vnode : ast_node) :
    Option (var_info × scope_table) :=
  match vnode with
  | .node _ (.ident name) _ right =>
    if (scope_table_find scope name).isSome then none
    else
      let var : var_info := { ident := some name, node := vnode, shift := scope.shift }
      match right with
      | .nullptr => some (var, { entries := scope.entries ++ [var], shift := scope.shift + 1 })
      | .node _ (.number len) _ _ =>
        some (var, { entries := scope.entries ++ [var], shift := scope.shift + len.to_int })
      | _ => none
  | _ => none

/-- Modelled from the spec: `scope_table_add_param` of `backend/scope_table.h`.
Spec §4.1: allocates a fresh slot, with no name binding beyond positional
order. -/
def scope_table_add_param (scope : scope_table) : var_info × scope_table :=
  let var : var_info := { ident := none, node := .nullptr, shift := scope.shift }
  (var, { entries := scope.entries ++ [var], shift := scope.shift + 1 })

/-- Modelled from the spec: `scope_table_pop` of `backend/scope_table.h`.  Spec
§4.1: removes the most recently reserved parameter slot. -/
def scope_table_pop (scope : scope_table) : scope_table :=
  { entries := scope.entries.dropLast, shift := scope.shift - 1 }

/-! ## Function table -/

/-- The loop of `find_function` over the entries. -/
def find_function_loop (ident : String) : List func_info → Option func_info
  | [] => none
  | f :: fs => if f.ident = ident then some f else find_function_loop ident fs

/-- The result of `find_function`. -/
inductive FuncLookup
  | found (f : func_info)
  | nullptr
  | fault (f : Fault)
  deriving DecidableEq, Repr

def find_function (name : ast_node) (func_table : List func_info) : FuncLookup :=
  match name with
  | .nullptr => .fault .assert_failed
  | .node _ (.ident ident) _ _ =>
    match find_function_loop ident func_table with
    | some f => .found f
    | none => .nullptr
  | .node _ _ _ _ => .fault .assert_failed

/-- The number of nodes on the `left` chain from `param`: the loop
`while (param) { param = param->left; n++; }`. -/
def count_params : ast_node → Nat
  | .nullptr => 0
  | .node _ _ left _ => count_params left + 1

/-- The loop `while (n_params-- > 0) scope_table_pop(table->local);`. -/
def pop_params : Nat → scope_table → scope_table
  | 0, scope => scope
  | n + 1, scope => pop_params n (scope_table_pop scope)

/-- The instruction that the second `switch` of `compile_expr` emits for an
operator keyword; `none` is its `default` branch. -/
def operator_cmd : Keyword → Option Op
  | AST_ADD => some .ADD
  | AST_SUB => some .SUB
  | AST_MUL => some .MUL
  | AST_DIV => some .DIV
  | AST_POW => some .POW
  | AST_EQUAL => some .EQ
  | AST_NEQUAL => some .NEQ
  | AST_GREAT => some .AB
  | AST_LOW => some .BE
  | AST_GEQUAL => some .AEQ
  | AST_LEQUAL => some .BEQ
  | AST_NOT => some .NOT
  | AST_AND => some .AND
  | AST_OR => some .OR
  | AST_SIN => some .SIN
  | AST_COS => some .COS
  | AST_INT => some .INT
  | AST_IN => some .IN
  | _ => none

/-! ## Error propagation -/

/-- The idiom `error = f(...); if (error) return error;`: go on with `k` from
the state `f` left when it returned `success`, and return its result
otherwise. -/
def on_success (r : Status × State) (k : State → Status × State) : Status × State :=
  match r with
  | (.success, st) => k st
  | _ => r

/-- The idiom `if (child) { error = f(child, table); if (error) return error; }`:
the step `f` is run when the child is there. -/
def if_present (child : ast_node) (f : State → Status × State) (st : State) :
    Status × State :=
  match child with
  | .nullptr => (.success, st)
  | .node _ _ _ _ => f st

/-- The state after writing the lines `out` to the output file. -/
def State.write (st : State) (out : List Line) : State := { st with file := st.file ++ out }

/-- Reserve `n` positional slots: `n` calls of `scope_table_add_param`. -/
def add_params : Nat → scope_table → scope_table
  | 0, scope => scope
  | n + 1, scope => (scope_table_add_param (add_params n scope)).2

/-! ## Expressions and calls

`compile_expr`, `compile_call`, `compile_param`, `compile_shift` and
`find_variable` call one another in the source.  `compile_shift`,
`find_variable` and `compile_call` recurse only into a child of their node, so
their bodies are written first, over the compiler of that child
(`compile_shift_body`, `find_variable_body`, `compile_call_body`); the
functions themselves follow the recursive pair `compile_expr`,
`compile_param`. -/

/-- The body of `compile_shift`; `index` is `compile_expr(variable->right, table)`. -/
def compile_shift_body (index : State → Status × State) (vnode : ast_node) (st : State) :
    Status × State :=
  match vnode with
  | .nullptr => (.fault .assert_failed, st)
  | .node _ _ _ right =>
    match right with
    | .nullptr =>
      (.success, CMD .POP (some (.reg SHIFT_REG)) (CMD .PUSH (some (.number 0)) st))
    | .node _ _ _ _ =>
      on_success (index st) fun st1 => (.success, CMD .POP (some (.reg SHIFT_REG)) st1)

/-- The two lookups of `find_variable`, global scope table first: the operand
of the entry bound to `name`. -/
def lookup_variable (name : String) (memory : Bool) (st : State) : Lookup × State :=
  match scope_table_find st.global_scope name with
  | some var => (.found (global_variable var memory), st)
  | none =>
    match st.local_table with
    | none => (.fault .null_deref, st)
    | some loc =>
      match scope_table_find loc name with
      | some var => (.found (local_variable var memory), st)
      | none => (.nullptr, st)

/-- The body of `find_variable`; `index` is as in `compile_shift_body`.  The name
looked up is read with `ast_ident`, whose assertion fails on a node that is not
an identifier. -/
def find_variable_body (index : State → Status × State) (vnode : ast_node) (st : State)
    (memory : Bool) : Lookup × State :=
  match vnode with
  | .nullptr => (.fault .assert_failed, st)
  | .node _ _ _ _ =>
    match compile_shift_body index vnode st with
    | (.syntax_error _, st1) => (.nullptr, st1)
    | (.fault f, st1) => (.fault f, st1)
    | (.success, st1) =>
      match ast_ident vnode with
      | some name => lookup_variable name memory st1
      | none => (.fault .assert_failed, st1)

/-- The lines of `compile_call` that follow the staging of the arguments: the
frame base is moved up by what `number_str` writes for `shift`, the function
is called, its result is pushed, and the frame base is moved back. -/
def call_sequence (shift : Int) (ident : String) : List Line :=
  [.cmd .PUSH (some (.reg LOCAL_REG)), .cmd .PUSH (some (number_str (.of_int shift))),
   .cmd .ADD none,
   .cmd .POP (some (.reg LOCAL_REG)), .cmd .CALL (some (.name ident)),
   .cmd .PUSH (some (.reg RETURN_REG)), .cmd .PUSH (some (.reg LOCAL_REG)),
   .cmd .PUSH (some (number_str (.of_int shift))), .cmd .SUB none,
   .cmd .POP (some (.reg LOCAL_REG))]

/-- The body of `compile_call`; `params` is
`compile_param(root->right, table, ·)`. -/
def compile_call_body (params : State → Int → Status × State) (root : ast_node)
    (st : State) : Status × State :=
  match root with
  | .nullptr => (.fault .assert_failed, st)
  | .node _ _ left right =>
    if keyword root ≠ some AST_CALL then (.syntax_error root, st)
    else
      match find_function left st.func with
      | .fault f => (.fault f, st)
      | .nullptr => (.syntax_error root, st)
      | .found func =>
        if func.n_params ≠ count_params right then (.syntax_error root, st)
        else
          on_success (if_present right (fun s => params s ((func.n_params : Int) - 1)) st)
            fun st1 =>
              match st1.local_table with
              | none => (.fault .null_deref, st1)
              | some loc =>
                let popped := pop_params (count_params right) loc
                (.success, (st1.set_local popped).write (call_sequence popped.shift func.ident))

mutual

/-- The function `compile_expr`: an expression, in post-order. -/
def compile_expr : ast_node → State → Status × State
  | .nullptr, st => (.fault .assert_failed, st)
  | .node a d left right, st =>
    if keyword (.node a d left right) = some AST_CALL then
      compile_call_body (fun s n => compile_param right s n) (.node a d left right) st
    else
      match d with
      | .number v => (.success, CMD .PUSH (some (number_str v)) st)
      | .ident _ =>
        match find_variable_body (fun s => compile_expr right s) (.node a d left right) st
            true with
        | (.found ident, st1) => (.success, CMD .PUSH (some ident) st1)
        | (.nullptr, st1) => (.syntax_error (.node a d left right), st1)
        | (.fault f, st1) => (.fault f, st1)
      | .keyword k =>
        on_success (if_present left (fun s => compile_expr left s) st) fun st1 =>
        on_success (if_present right (fun s => compile_expr right s) st1) fun st2 =>
          match operator_cmd k with
          | some op => (.success, CMD op none st2)
          | none => (.syntax_error (.node a d left right), st2)

/-- The function `compile_param`: the arguments of a call, first to last, each
popped into a slot reserved on top of the local frame. -/
def compile_param : ast_node → State → Int → Status × State
  | .nullptr, st, _ => (.fault .assert_failed, st)
  | .node _ _ left right, st, n_args =>
    on_success (if_present left (fun s => compile_param left s (n_args - 1)) st) fun st1 =>
    on_success (compile_expr right st1) fun st2 =>
      match st2.local_table with
      | none => (.fault .null_deref, st2)
      | some loc =>
        (.success, CMD .POP (some (local_variable (scope_table_add_param loc).1 true))
          (st2.set_local (scope_table_add_param loc).2))

end

/-- The function `compile_shift`: load the shift register with the value of
the index expression, or with zero when there is none. -/
def compile_shift (vnode : ast_node) (st : State) : Status × State :=
  compile_shift_body (compile_expr vnode.right) vnode st

/-- The function `find_variable`: the operand of a bound identifier, after the
code of its shift. -/
def find_variable (vnode : ast_node) (st : State) (memory : Bool) : Lookup × State :=
  find_variable_body (compile_expr vnode.right) vnode st memory

/-- The function `compile_call`: a call site. -/
def compile_call (root : ast_node) (st : State) : Status × State :=
  compile_call_body (compile_param root.right) root st

/-! ## Variables at a write site -/

/-- The shared tail of `get_variable` and `create_variable`: reject an index
that is not a number literal, add the variable to the local scope table, and
resolve it again. -/
def declare_variable (vnode : ast_node) (st : State) : Lookup × State :=
  match vnode.right with
  | .node _ (.ident _) _ _ => (.nullptr, st)
  | .node _ (.keyword _) _ _ => (.nullptr, st)
  | _ =>
    match st.local_table with
    | none => (.fault .null_deref, st)
    | some loc =>
      match scope_table_add loc vnode with
      | some (_, loc1) => find_variable vnode (st.set_local loc1) true
      | none => (.nullptr, st)

/-- The branch of `get_variable` for a variable found in a scope table:
`text` is the operand of the entry `var`. -/
def get_variable_found (vnode : ast_node) (var : var_info) (text : Arg) (st : State) :
    Lookup × State :=
  match compile_shift vnode st with
  | (.success, st1) =>
    if !var.node.left.is_null || !vnode.left.is_null then (.nullptr, st1)
    else (.found text, st1)
  | (.syntax_error _, st1) => (.nullptr, st1)
  | (.fault f, st1) => (.fault f, st1)

/-- The function `get_variable`: the operand of the target of an assignment,
declared in the local scope when it is bound in neither table. -/
def get_variable (vnode : ast_node) (st : State) : Lookup × State :=
  match vnode with
  | .node _ (.ident name) _ _ =>
    match scope_table_find st.global_scope name with
    | some var => get_variable_found vnode var (global_variable var true) st
    | none =>
      match st.local_table with
      | none => (.fault .null_deref, st)
      | some loc =>
        match scope_table_find loc name with
        | some var => get_variable_found vnode var (local_variable var true) st
        | none => declare_variable vnode st
  | _ => (.fault .assert_failed, st)

/-- The function `create_variable`: declare a variable that is not bound yet. -/
def create_variable (vnode : ast_node) (st : State) : Lookup × State :=
  match vnode with
  | .nullptr => (.fault .assert_failed, st)
  | .node _ _ _ _ =>
    match find_variable vnode st true with
    | (.found _, st1) => (.nullptr, st1)
    | (.fault f, st1) => (.fault f, st1)
    | (.nullptr, st1) => declare_variable vnode st1

/-! ## Statements -/

/-- The idiom `ident = f(...); if (!ident) return syntax_error(root);` followed
by `k`. -/
def on_found (r : Lookup × State) (root : ast_node) (k : Arg → State → Status × State) :
    Status × State :=
  match r with
  | (.found ident, st) => k ident st
  | (.nullptr, st) => (.syntax_error root, st)
  | (.fault f, st) => (.fault f, st)

/-- The macro `require_ident(node)`: does `node && node->type != AST_NODE_IDENT`
hold. -/
def not_ident : ast_node → Bool
  | .node _ (.number _) _ _ => true
  | .node _ (.keyword _) _ _ => true
  | _ => false

/-- The function `compile_assign`. -/
def compile_assign (root : ast_node) (st : State) : Status × State :=
  match root with
  | .nullptr => (.fault .assert_failed, st)
  | .node _ _ left right =>
    if keyword root ≠ some AST_ASSIGN then (.syntax_error root, st)
    else
      on_success (compile_expr right st) fun st1 =>
        if not_ident left then (.syntax_error root, st1)
        else
          on_found (get_variable left st1) root fun ident st2 =>
            (.success, CMD .POP (some ident) st2)

/-- The function `compile_return`. -/
def compile_return (root : ast_node) (st : State) : Status × State :=
  match root with
  | .nullptr => (.fault .assert_failed, st)
  | .node _ _ _ right =>
    if keyword root ≠ some AST_RETURN then (.syntax_error root, st)
    else
      match right with
      | .nullptr => (.syntax_error root, st)
      | .node _ _ _ _ =>
        on_success (compile_expr right st) fun st1 =>
          (.success, CMD .RET none (CMD .POP (some (.reg RETURN_REG)) st1))

/-- The function `compile_show`.  The result of compiling the expression is
assigned to `error` and not looked at. -/
def compile_show (root : ast_node) (st : State) : Status × State :=
  match root with
  | .nullptr => (.fault .assert_failed, st)
  | .node _ _ left right =>
    if keyword root ≠ some AST_SHOW then (.syntax_error root, st)
    else
      on_found (find_variable left st false) root fun ident st1 =>
        match compile_expr right (CMD .PUSH (some ident) st1) with
        | (.fault f, st2) => (.fault f, st2)
        | (_, st2) => (.success, CMD .SHW none st2)

mutual

/-- The function `compile_stmt`: a chain of statements, first to last. -/
def compile_stmt : ast_node → State → Status × State
  | .nullptr, st => (.fault .assert_failed, st)
  | .node a d left right, st =>
    if keyword (.node a d left right) ≠ some AST_STMT then
      (.syntax_error (.node a d left right), st)
    else
      on_success (if_present left (fun s => compile_stmt left s) st) fun st1 =>
        match right with
        | .nullptr => (.syntax_error (.node a d left right), st1)
        | .node _ (.keyword AST_ASSIGN) _ _ => compile_assign right st1
        | .node _ (.keyword AST_IF) _ _ => compile_if right st1
        | .node _ (.keyword AST_WHILE) _ _ => compile_while right st1
        | .node _ (.keyword AST_SHOW) _ _ => compile_show right st1
        | .node _ (.keyword AST_CALL) _ _ =>
          on_success (compile_call right st1) fun st2 => (.success, CMD .POP none st2)
        | .node _ (.keyword AST_OUT) _ rr =>
          on_success (compile_expr rr st1) fun st2 => (.success, CMD .OUT none st2)
        | .node _ (.keyword AST_RETURN) _ _ => compile_return right st1
        | .node _ (.keyword _) _ _ => (.syntax_error (.node a d left right), st1)
        | .node _ _ _ _ => (.fault .assert_failed, st1)

/-- The function `compile_if`. -/
def compile_if : ast_node → State → Status × State
  | .nullptr, st => (.fault .assert_failed, st)
  | .node a d left decision, st =>
    if keyword (.node a d left decision) ≠ some AST_IF then
      (.syntax_error (.node a d left decision), st)
    else
      on_success (compile_expr left (WRITE st "; IF")) fun st1 =>
        let st2 := CMD .JE (some (.id "if_fail" a)) (CMD .PUSH (some (.number 0)) st1)
        match decision with
        | .nullptr => (.syntax_error (.node a d left decision), st2)
        | .node _ _ .nullptr _ => (.syntax_error (.node a d left decision), st2)
        | .node _ _ (.node ta td tl tr) dright =>
          on_success (compile_stmt (.node ta td tl tr) st2) fun st3 =>
            match dright with
            | .nullptr => (.success, LABEL st3 (.id "if_fail" a))
            | .node ea ed el er =>
              on_success (compile_stmt (.node ea ed el er)
                  (LABEL (CMD .JMP (some (.id "if_end" a)) st3) (.id "if_fail" a)))
                fun st4 => (.success, LABEL st4 (.id "if_end" a))

/-- The function `compile_while`.  `dump_array(table->local->entries, ...)`
reads through `table->local`. -/
def compile_while : ast_node → State → Status × State
  | .nullptr, st => (.fault .assert_failed, st)
  | .node a d left right, st =>
    if keyword (.node a d left right) ≠ some AST_WHILE then
      (.syntax_error (.node a d left right), st)
    else
      match st.local_table with
      | none => (.fault .null_deref, WRITE st "; WHILE")
      | some _ =>
        let st1 := LABEL (WRITE st "; WHILE") (.id "while" a)
        match left with
        | .nullptr => (.syntax_error (.node a d left right), st1)
        | .node _ _ _ _ =>
          on_success (compile_expr left st1) fun st2 =>
          on_success (compile_stmt right
              (CMD .JE (some (.id "while_end" a)) (CMD .PUSH (some (.number 0)) st2)))
            fun st3 =>
              (.success, LABEL (CMD .JMP (some (.id "while" a)) st3) (.id "while_end" a))

end

/-! ## Function definitions -/

/-- The function `create_local_table`: declare the formal parameters, first to
last, in the local scope table. -/
def create_local_table : ast_node → State → Status × State
  | .nullptr, st => (.fault .assert_failed, st)
  | .node a d left right, st =>
    if keyword (.node a d left right) ≠ some AST_PARAM then
      (.syntax_error (.node a d left right), st)
    else
      on_success (if_present left (fun s => create_local_table left s) st) fun st1 =>
        if not_ident right then (.syntax_error (.node a d left right), st1)
        else
          on_found (create_variable right st1) (.node a d left right) fun _ st2 =>
            (.success, st2)

/-- The part of `compile_define` that follows `table->local = &local`, for the
node `define` of a function definition found under the statement `root`. -/
def compile_define_body (root define : ast_node) (st : State) : Status × State :=
  match define.left with
  | .nullptr => (.fault .null_deref, st)
  | .node fa fd name params =>
    if keyword (.node fa fd name params) ≠ some AST_FUNC then (.syntax_error root, st)
    else
      on_success (if_present params (create_local_table params) st) fun st1 =>
        match name with
        | .nullptr => (.fault .assert_failed, st1)
        | .node _ (.ident ident) _ _ =>
          match compile_stmt define.right (LABEL st1 (.name ident)) with
          | (.fault f, st2) => (.fault f, st2)
          | (error, st2) => (error, { st2 with local_scope := .null })
        | .node _ _ _ _ => (.syntax_error root, st1)

/-- The function `compile_define`: the function definitions of the top-level
chain, first to last, each in a fresh local scope table. -/
def compile_define : ast_node → State → Status × State
  | .nullptr, st => (.fault .assert_failed, st)
  | .node a d left right, st =>
    on_success (if_present left (fun s => compile_define left s) st) fun st1 =>
      match right with
      | .nullptr => (.fault .assert_failed, st1)
      | .node _ (.keyword AST_DEFINE) _ .nullptr => (.syntax_error (.node a d left right), st1)
      | .node _ (.keyword AST_DEFINE) _ (.node _ _ _ _) =>
        compile_define_body (.node a d left right) right
          { st1 with local_scope := .own { entries := [], shift := 0 } }
      | .node _ _ _ _ => (.success, st1)

/-! ## The passes of the driver -/

/-- The function `create_global_table`: compile the assignments of the
top-level chain, first to last. -/
def create_global_table : ast_node → State → Status × State
  | .nullptr, st => (.fault .assert_failed, st)
  | .node a d left right, st =>
    if keyword (.node a d left right) ≠ some AST_STMT then
      (.syntax_error (.node a d left right), st)
    else
      on_success (if_present left (fun s => create_global_table left s) st) fun st1 =>
        match right with
        | .nullptr => (.fault .assert_failed, st1)
        | .node _ (.keyword AST_ASSIGN) _ _ => compile_assign right st1
        | .node _ _ _ _ => (.success, st1)

/-- The function `declare_function`: register the function defined by the
`Define` node `root`. -/
def declare_function (root : ast_node) (func_table : List func_info) :
    Status × List func_info :=
  match root with
  | .nullptr => (.fault .assert_failed, func_table)
  | .node _ _ .nullptr _ => (.fault .null_deref, func_table)
  | .node _ _ (.node fa fd name params) _ =>
    match find_function name func_table with
    | .fault f => (.fault f, func_table)
    | .found _ => (.syntax_error root, func_table)
    | .nullptr =>
      match ast_ident name with
      | none => (.fault .assert_failed, func_table)
      | some ident =>
        (.success, func_table ++
          [{ node := .node fa fd name params, ident := ident, n_params := count_params params }])

/-- The function `create_func_table`: register the function definitions of the
top-level chain, first to last. -/
def create_func_table : ast_node → List func_info → Status × List func_info
  | .nullptr, func_table => (.fault .assert_failed, func_table)
  | .node a d left right, func_table =>
    if keyword (.node a d left right) ≠ some AST_STMT then
      (.syntax_error (.node a d left right), func_table)
    else
      match (match left with
             | .nullptr => (Status.success, func_table)
             | .node _ _ _ _ => create_func_table left func_table) with
      | (.success, func_table1) =>
        match right with
        | .nullptr => (.fault .assert_failed, func_table1)
        | .node _ (.keyword AST_DEFINE) _ _ => declare_function right func_table1
        | .node _ _ _ _ => (.success, func_table1)
      | r => r

/-- What a run of `compile_tree` ends with: the value it returns, or a fault. -/
inductive Exit
  | EXIT_SUCCESS
  | EXIT_FAILURE
  | fault (f : Fault)
  deriving DecidableEq, Repr

/-- The lines between the code of the global initialisers and the code of the
functions, for a global frame of size `shift`, which is written by
`number_str`. -/
def preamble (shift : Int) : List Line :=
  [.cmd .PUSH (some (number_str (.of_int shift))), .cmd .PUSH (some (.reg LOCAL_REG)),
   .cmd .ADD none,
   .cmd .POP (some (.reg LOCAL_REG)), .cmd .CALL (some (.name "main")), .cmd .HLT none]

/-- The state in which `create_global_table` starts: nothing written, both
`tab.local` and `tab.global` pointing to the empty table `gst`. -/
def initial_state (func_table : List func_info) : State :=
  { file := [], local_scope := .global, global_scope := { entries := [], shift := 0 },
    func := func_table }

/-- The loop of `dump_array_function` over the formal parameters, from the last
to the first: `ast_ident(param->right)` is read for each, and its assertion
fails on a parameter that is not an identifier. -/
def dump_params : ast_node → Option Fault
  | .nullptr => none
  | .node _ _ left right =>
    match ast_ident right with
    | none => some .assert_failed
    | some _ => dump_params left

/-- The function `dump_array_function`, for the failed assertions it can end
in; what it prints goes to the log. -/
def dump_array_function (func : func_info) : Option Fault :=
  match func.node with
  | .nullptr => none
  | .node _ _ _ params => dump_params params

/-- The call `dump_array(&func_table, sizeof(func_info), dump_array_function)`:
the function is run on every entry, first to last. -/
def dump_func_table : List func_info → Option Fault
  | [] => none
  | func :: rest =>
    match dump_array_function func with
    | some f => some f
    | none => dump_func_table rest

/-- The function `compile_tree`: the value returned and the lines written to
`output`.  The results of `create_func_table` and of `create_global_table` are
not looked at. -/
def compile_tree (tree : ast_node) : Exit × List Line :=
  match tree with
  | .nullptr => (.fault .assert_failed, [])
  | .node _ _ _ _ =>
    match create_func_table tree [] with
    | (.fault f, _) => (.fault f, [])
    | (_, func_table) =>
      match dump_func_table func_table with
      | some f => (.fault f, [])
      | none =>
        match create_global_table tree (initial_state func_table) with
        | (.fault f, st1) => (.fault f, st1.file)
        | (_, st1) =>
          match compile_define tree (st1.write (preamble st1.global_scope.shift)) with
          | (.fault f, st3) => (.fault f, st3.file)
          | (.syntax_error _, st3) => (.EXIT_FAILURE, st3.file)
          | (.success, st3) => (.EXIT_SUCCESS, st3.file)

/-! ## Vocabulary of the theorems -/

/-- The elements of a chain (a list of statements, of formal parameters or of
arguments), first to last: the `right` children along the `left` spine. -/
def chain_items : ast_node → List ast_node
  | .nullptr => []
  | .node _ _ left right => chain_items left ++ [right]

/-- The entries that declaring the scalar variables `items`, in this order,
adds to a scope table whose frame size is `base`. -/
def scalar_entries : List ast_node → Int → List var_info
  | [], _ => []
  | p :: ps, base => { ident := ast_ident p, node := p, shift := base } ::
      scalar_entries ps (base + 1)

/-! ## Sample trees -/

/-- The number literal of the integer value `v`, at address `a`. -/
def mk_number (a : Nat) (v : Int) : ast_node := .node a (.number (.of_int v)) .nullptr .nullptr

/-- A scalar identifier at address `a`. -/
def mk_ident (a : Nat) (name : String) : ast_node := .node a (.ident name) .nullptr .nullptr

/-- A keyword node at address `a`. -/
def mk_keyword (a : Nat) (k : Keyword) (left right : ast_node) : ast_node :=
  .node a (.keyword k) left right

/-- The call `f(1, 2)`. -/
def sample_call : ast_node :=
  mk_keyword 50 AST_CALL (mk_ident 51 "f")
    (mk_keyword 52 AST_PARAM (mk_keyword 53 AST_PARAM .nullptr (mk_number 54 1)) (mk_number 55 2))

/-- The formal parameters `(a, b)` of a function. -/
def sample_params : ast_node :=
  mk_keyword 62 AST_PARAM (mk_keyword 63 AST_PARAM .nullptr (mk_ident 64 "a")) (mk_ident 65 "b")

/-- A local scope table with the one scalar `q`. -/
def sample_scope : scope_table :=
  { entries := [{ ident := some "q", node := mk_ident 40 "q", shift := 0 }], shift := 1 }

/-- A state inside a function body: `q` is local, `f` takes two parameters. -/
def sample_state : State :=
  { file := [], local_scope := .own sample_scope, global_scope := { entries := [], shift := 0 },
    func := [{ node := .nullptr, ident := "f", n_params := 2 }] }

/-- The state in which `compile_define` starts on the parameters of a function. -/
def fresh_state : State :=
  { file := [], local_scope := .own { entries := [], shift := 0 },
    global_scope := { entries := [], shift := 0 }, func := [] }

/-- The call `f(1)`, one argument short of the two parameters of `f`. -/
def sample_short_call : ast_node :=
  mk_keyword 70 AST_CALL (mk_ident 71 "f") (mk_keyword 72 AST_PARAM .nullptr (mk_number 73 1))

/-- A function definition at addresses `a`, `a + 1`, `a + 2`: `name(params) body`. -/
def mk_define (a : Nat) (name : String) (params body : ast_node) : ast_node :=
  mk_keyword a AST_DEFINE (mk_keyword (a + 1) AST_FUNC (mk_ident (a + 2) name) params) body

/-- The one-statement body `return e;`, at addresses `a` and `a + 1`. -/
def mk_return (a : Nat) (e : ast_node) : ast_node :=
  mk_keyword a AST_STMT .nullptr (mk_keyword (a + 1) AST_RETURN .nullptr e)

/-- The program `f() { return g(1); }  g(n) { return g(n); }`: `f` calls `g`,
which is defined after it and calls itself. -/
def sample_forward_program : ast_node :=
  mk_keyword 1 AST_STMT
    (mk_keyword 2 AST_STMT .nullptr
      (mk_define 10 "f" .nullptr
        (mk_return 20 (mk_keyword 22 AST_CALL (mk_ident 23 "g")
          (mk_keyword 24 AST_PARAM .nullptr (mk_number 25 1))))))
    (mk_define 30 "g" (mk_keyword 33 AST_PARAM .nullptr (mk_ident 34 "n"))
      (mk_return 40 (mk_keyword 42 AST_CALL (mk_ident 43 "g")
        (mk_keyword 44 AST_PARAM .nullptr (mk_ident 45 "n")))))

/-- What holds between the state a function of the generator starts in and the
state it leaves, whatever it returns: lines are only appended to the output
file, the function table is not touched, and once `table->local` does not
point to the global scope table any more, it never does again and the global
scope table is not touched. -/
structure Step (st st1 : State) : Prop where
  file : st.file <+: st1.file
  func : st1.func = st.func
  global : st.local_scope ≠ .global →
    st1.local_scope ≠ .global ∧ st1.global_scope = st.global_scope

/-- The program `main() { return 1; }  main() { return 2; }`, with two
definitions of `main`. -/
def sample_duplicate_program : ast_node :=
  mk_keyword 1 AST_STMT
    (mk_keyword 2 AST_STMT .nullptr (mk_define 10 "main" .nullptr (mk_return 20 (mk_number 22 1))))
    (mk_define 30 "main" .nullptr (mk_return 40 (mk_number 42 2)))

/-- The program `x = y;`: a top-level assignment whose initialiser reads an
identifier that is bound nowhere. -/
def sample_unresolved_program : ast_node :=
  mk_keyword 1 AST_STMT .nullptr (mk_keyword 2 AST_ASSIGN (mk_ident 3 "x") (mk_ident 4 "y"))

/-- The state that the second pass of `compile_tree` leaves: the one after
`create_global_table`, started on the table of the first pass. -/
def global_pass (tree : ast_node) : State :=
  (create_global_table tree (initial_state (create_func_table tree []).2)).2

/-- The third pass of `compile_tree`: `compile_define`, run after the preamble
is written. -/
def define_pass (tree : ast_node) : Status × State :=
  compile_define tree
    ((global_pass tree).write (preamble (global_pass tree).global_scope.shift))

/-- The program `main() { x = 3; y = 4; return x + y; }`. -/
def sample_main_program : ast_node :=
  mk_keyword 1 AST_STMT .nullptr
    (mk_define 2 "main" .nullptr
      (mk_keyword 30 AST_STMT
        (mk_keyword 20 AST_STMT
          (mk_keyword 10 AST_STMT .nullptr
            (mk_keyword 11 AST_ASSIGN (mk_ident 12 "x") (mk_number 13 3)))
          (mk_keyword 21 AST_ASSIGN (mk_ident 22 "y") (mk_number 23 4)))
        (mk_keyword 31 AST_RETURN .nullptr
          (mk_keyword 32 AST_ADD (mk_ident 33 "x") (mk_ident 34 "y")))))

/-- An identifier with the index expression `index`, at address `a`: `name[index]`. -/
def mk_indexed (a : Nat) (name : String) (index : ast_node) : ast_node :=
  .node a (.ident name) .nullptr index

/-- The program `main() { a[5] = 1; a = 2; x = 3; return a + x[2]; }`: the array
`a` is written and read without an index, and the scalar `x` is read with
one. -/
def sample_shape_program : ast_node :=
  mk_keyword 1 AST_STMT .nullptr
    (mk_define 2 "main" .nullptr
      (mk_keyword 40 AST_STMT
        (mk_keyword 30 AST_STMT
          (mk_keyword 20 AST_STMT
            (mk_keyword 10 AST_STMT .nullptr
              (mk_keyword 11 AST_ASSIGN (mk_indexed 12 "a" (mk_number 13 5)) (mk_number 14 1)))
            (mk_keyword 21 AST_ASSIGN (mk_ident 22 "a") (mk_number 23 2)))
          (mk_keyword 31 AST_ASSIGN (mk_ident 32 "x") (mk_number 33 3)))
        (mk_keyword 41 AST_RETURN .nullptr
          (mk_keyword 42 AST_ADD (mk_ident 43 "a") (mk_indexed 44 "x" (mk_number 45 2))))))

/-- The operators that combine two operands. -/
def binary_keyword : Keyword → Bool
  | AST_ADD | AST_SUB | AST_MUL | AST_DIV | AST_POW | AST_EQUAL | AST_NEQUAL | AST_GREAT
  | AST_LOW | AST_GEQUAL | AST_LEQUAL | AST_AND | AST_OR => true
  | _ => false

/-- The operators and intrinsics of one operand. -/
def unary_keyword : Keyword → Bool
  | AST_NOT | AST_SIN | AST_COS | AST_INT | AST_IN => true
  | _ => false

mutual

/-- An expression with its operands in place: a binary operator has both
children, a unary operator or intrinsic has its operand as the right child and
no left child, and so on through the index expressions and the arguments of
calls. -/
def well_formed_expr : ast_node → Bool
  | .nullptr => false
  | .node _ (.number _) _ _ => true
  | .node _ (.ident _) _ right =>
    match right with
    | .nullptr => true
    | .node _ _ _ _ => well_formed_expr right
  | .node _ (.keyword k) left right =>
    if k = AST_CALL then well_formed_args right
    else if binary_keyword k then well_formed_expr left && well_formed_expr right
    else if unary_keyword k then left.is_null && well_formed_expr right
    else false

/-- A chain of arguments that are all well-formed expressions. -/
def well_formed_args : ast_node → Bool
  | .nullptr => true
  | .node _ _ left right => well_formed_args left && well_formed_expr right

end

/-- The change that a line makes to the depth of the evaluation stack, as the
lines of an expression are counted: `PUSH` adds one value, `POP` and each
binary operator take one away, a unary operator, an intrinsic and `CALL`
leave the depth as it is.  The other lines are not written for an
expression. -/
def stack_effect : Line → Int
  | .cmd .PUSH _ => 1
  | .cmd .POP _ => -1
  | .cmd .ADD _ | .cmd .SUB _ | .cmd .MUL _ | .cmd .DIV _ | .cmd .POW _ | .cmd .EQ _
  | .cmd .NEQ _ | .cmd .AB _ | .cmd .BE _ | .cmd .AEQ _ | .cmd .BEQ _ | .cmd .AND _
  | .cmd .OR _ => -1
  | _ => 0

/-- The net change of the depth of the evaluation stack over `code`. -/
def net_effect : List Line → Int
  | [] => 0
  | l :: ls => stack_effect l + net_effect ls

/-- Running `code` from the depth `depth` above the initial one never takes the
stack below the initial depth. -/
def never_below : Int → List Line → Bool
  | _, [] => true
  | depth, l :: ls => decide (0 ≤ depth + stack_effect l) && never_below (depth + stack_effect l) ls

/-- The node `+` with no operand. -/
def sample_bare_add : ast_node := mk_keyword 90 AST_ADD .nullptr .nullptr

/-- A state in which `g` is bound twice: at offset 2 of the global scope table
and at offset 7 of the local one. -/
def sample_shadow_state : State :=
  { file := [],
    local_scope := .own
      { entries := [{ ident := some "g", node := mk_ident 121 "g", shift := 7 }], shift := 8 },
    global_scope :=
      { entries := [{ ident := some "g", node := mk_ident 120 "g", shift := 2 }], shift := 3 },
    func := [] }

/-- The `Define` nodes among the statements of a top-level chain, first to
last. -/
def chain_defines (tree : ast_node) : List ast_node :=
  (chain_items tree).filter (fun s => keyword s = some AST_DEFINE)

/-- The chain of the one statement `s`, at address `a`. -/
def mk_stmt (a : Nat) (s : ast_node) : ast_node := mk_keyword a AST_STMT .nullptr s

/-- The decision node with the then-branch `q = 1;` and no else-branch. -/
def sample_decision : ast_node :=
  mk_keyword 150 AST_DECISION
    (mk_stmt 151 (mk_keyword 152 AST_ASSIGN (mk_ident 153 "q") (mk_number 154 1))) .nullptr

/-- The synthesized labels (the ones written through `id`) that a list of
output lines declares, in order, each as the pair of its name and the address
of its node. Function-name labels are not among them. -/
def declared_labels : List Line → List (String × Nat)
  | [] => []
  | .label (.id name addr) :: rest => (name, addr) :: declared_labels rest
  | _ :: rest => declared_labels rest

/-- The addresses of the nodes of a tree, root first. Two nodes of a tree in
memory are distinct objects exactly when this list has no duplicates. -/
def addresses : ast_node → List Nat
  | .nullptr => []
  | .node a _ left right => a :: (addresses left ++ addresses right)

/-- From `st` to `st1` output was only appended, and the appended lines
declare no synthesized label. -/
def Quiet (st st1 : State) : Prop :=
  ∃ out, st1.file = st.file ++ out ∧ declared_labels out = []

/-- From `st` to `st1` output was only appended, the appended lines declare no
synthesized label twice, and every synthesized label they declare satisfies
`P`. -/
def Declares (P : String × Nat → Prop) (st st1 : State) : Prop :=
  ∃ out, st1.file = st.file ++ out ∧ (declared_labels out).Nodup ∧
    ∀ x ∈ declared_labels out, P x

/-- The program
`main() { while (1) { if (1) { x = 1; } else { x = 2; } }  if (0) { x = 3; }  return 0; }`:
an `if` nested in a `while`, followed by a sibling `if`. -/
def sample_branch_program : ast_node :=
  mk_keyword 1 AST_STMT .nullptr
    (mk_define 2 "main" .nullptr
      (mk_keyword 30 AST_STMT
        (mk_keyword 20 AST_STMT
          (mk_stmt 10
            (mk_keyword 11 AST_WHILE (mk_number 12 1)
              (mk_stmt 13
                (mk_keyword 14 AST_IF (mk_number 15 1)
                  (mk_keyword 16 AST_DECISION
                    (mk_stmt 17 (mk_keyword 18 AST_ASSIGN (mk_ident 19 "x") (mk_number 40 1)))
                    (mk_stmt 41 (mk_keyword 42 AST_ASSIGN (mk_ident 43 "x") (mk_number 44 2))))))))
          (mk_keyword 21 AST_IF (mk_number 22 0)
            (mk_keyword 23 AST_DECISION
              (mk_stmt 24 (mk_keyword 25 AST_ASSIGN (mk_ident 26 "x") (mk_number 27 3)))
              .nullptr)))
        (mk_keyword 31 AST_RETURN .nullptr (mk_number 32 0))))

/-! ## The lowering of `if`, in the words of the specification -/

/-- The lowering of an `if` at address `a` that has no else-branch, given the
code of its condition and of its then-branch: condition, `PUSH 0`,
`JE if_fail`, then-branch, label `if_fail`. -/
def if_without_else (a : Nat) (code_c code_t : List Line) : List Line :=
  code_c ++ [.cmd .PUSH (some (.number 0)), .cmd .JE (some (.id "if_fail" a))] ++ code_t ++
    [.label (.id "if_fail" a)]

/-- The lowering of an `if` at address `a` that has an else-branch: condition,
`PUSH 0`, `JE if_fail`, then-branch, `JMP if_end`, label `if_fail`,
else-branch, label `if_end`. -/
def if_with_else (a : Nat) (code_c code_t code_e : List Line) : List Line :=
  code_c ++ [.cmd .PUSH (some (.number 0)), .cmd .JE (some (.id "if_fail" a))] ++ code_t ++
    [.cmd .JMP (some (.id "if_end" a)), .label (.id "if_fail" a)] ++ code_e ++
    [.label (.id "if_end" a)]

/-- The statement `if (q) { q = 1; }` at address 180. -/
def sample_if : ast_node := mk_keyword 180 AST_IF (mk_ident 181 "q") sample_decision

/-- The statement `if (q) { q = 1; } else { q = 2; }` at address 190. -/
def sample_if_else : ast_node :=
  mk_keyword 190 AST_IF (mk_ident 191 "q")
    (mk_keyword 192 AST_DECISION
      (mk_stmt 193 (mk_keyword 194 AST_ASSIGN (mk_ident 195 "q") (mk_number 196 1)))
      (mk_stmt 197 (mk_keyword 198 AST_ASSIGN (mk_ident 199 "q") (mk_number 200 2))))

/-- The one-statement chain `name = v;` at addresses `a` to `a + 3`. -/
def mk_assign (a : Nat) (name : String) (v : Int) : ast_node :=
  mk_stmt a (mk_keyword (a + 1) AST_ASSIGN (mk_ident (a + 2) name) (mk_number (a + 3) v))

/-- The program `f() { x = 1; return x; }  g() { return x; }`: `g` reads a
variable that only `f` assigns. -/
def sample_foreign_read_program : ast_node :=
  mk_keyword 1 AST_STMT
    (mk_stmt 2
      (mk_define 10 "f" .nullptr
        (mk_keyword 20 AST_STMT (mk_assign 14 "x" 1)
          (mk_keyword 21 AST_RETURN .nullptr (mk_ident 22 "x")))))
    (mk_define 30 "g" .nullptr (mk_return 40 (mk_ident 42 "x")))

/-- The program `f() { x = 1; y = 2; return y; }  g(p) { z = 3; return z; }`. -/
def sample_two_frames_program : ast_node :=
  mk_keyword 1 AST_STMT
    (mk_stmt 2
      (mk_define 10 "f" .nullptr
        (mk_keyword 24 AST_STMT
          (mk_keyword 23 AST_STMT (mk_assign 14 "x" 1)
            (mk_keyword 18 AST_ASSIGN (mk_ident 19 "y") (mk_number 20 2)))
          (mk_keyword 25 AST_RETURN .nullptr (mk_ident 26 "y")))))
    (mk_define 30 "g" (mk_keyword 33 AST_PARAM .nullptr (mk_ident 34 "p"))
      (mk_keyword 44 AST_STMT (mk_assign 36 "z" 3)
        (mk_keyword 45 AST_RETURN .nullptr (mk_ident 46 "z"))))

/-- The synthesized labels that a list of output lines refers to, as the
operand of an instruction, in order. -/
def referenced_labels : List Line → List (String × Nat)
  | [] => []
  | .cmd _ (some (.id name addr)) :: rest => (name, addr) :: referenced_labels rest
  | _ :: rest => referenced_labels rest

/-- An operand that is not a synthesized label. -/
def Arg.plain : Arg → Bool
  | .id _ _ => false
  | _ => true

/-- From `st` to `st1` output was only appended, and every synthesized label
that the appended lines refer to satisfies `P`. -/
def Refers (P : String × Nat → Prop) (st st1 : State) : Prop :=
  ∃ out, st1.file = st.file ++ out ∧ ∀ x ∈ referenced_labels out, P x

/-- The call `f(1, f(1, 2))`: the second argument is itself a call. -/
def sample_nested_call : ast_node :=
  mk_keyword 220 AST_CALL (mk_ident 221 "f")
    (mk_keyword 222 AST_PARAM (mk_keyword 223 AST_PARAM .nullptr (mk_number 224 1))
      (mk_keyword 225 AST_CALL (mk_ident 226 "f")
        (mk_keyword 227 AST_PARAM (mk_keyword 228 AST_PARAM .nullptr (mk_number 229 1))
          (mk_number 230 2))))

/-- The statement `show q, y`: the expression to display reads `y`, which is
bound nowhere in the sample state. -/
def sample_show : ast_node :=
  mk_stmt 240 (mk_keyword 241 AST_SHOW (mk_ident 242 "q") (mk_ident 243 "y"))

/-- The program `main() { a[5] = 1; return g(a[2]); }  g(x) { return x; }`: the
argument of the call reads an array element. -/
def sample_array_argument_program : ast_node :=
  mk_keyword 1 AST_STMT
    (mk_stmt 2
      (mk_define 10 "main" .nullptr
        (mk_keyword 20 AST_STMT
          (mk_stmt 14
            (mk_keyword 15 AST_ASSIGN (mk_indexed 16 "a" (mk_number 17 5)) (mk_number 18 1)))
          (mk_keyword 21 AST_RETURN .nullptr
            (mk_keyword 22 AST_CALL (mk_ident 23 "g")
              (mk_keyword 24 AST_PARAM .nullptr (mk_indexed 25 "a" (mk_number 26 2))))))))
    (mk_define 30 "g" (mk_keyword 33 AST_PARAM .nullptr (mk_ident 34 "x"))
      (mk_return 40 (mk_ident 42 "x")))

/-- The program `main() { return g(7); }  g(x) { return x; }`: the argument of
the call is a number literal. -/
def sample_literal_argument_program : ast_node :=
  mk_keyword 1 AST_STMT
    (mk_stmt 2
      (mk_define 10 "main" .nullptr
        (mk_return 20
          (mk_keyword 22 AST_CALL (mk_ident 23 "g")
            (mk_keyword 24 AST_PARAM .nullptr (mk_number 25 7))))))
    (mk_define 30 "g" (mk_keyword 33 AST_PARAM .nullptr (mk_ident 34 "x"))
      (mk_return 40 (mk_ident 42 "x")))

/-- The program `g(p) { return p; }`: one function with one formal parameter. -/
def sample_entry_program : ast_node :=
  mk_stmt 1 (mk_define 30 "g" (mk_keyword 33 AST_PARAM .nullptr (mk_ident 34 "p"))
    (mk_return 40 (mk_ident 42 "p")))

/-- The formal parameters `(a, a)`: the same name twice. -/
def sample_repeated_params : ast_node :=
  mk_keyword 250 AST_PARAM (mk_keyword 251 AST_PARAM .nullptr (mk_ident 252 "a"))
    (mk_ident 253 "a")

/-- The program `x = 1;  f(x) { return x; }`: the formal parameter of `f` has
the name of a global variable. -/
def sample_shadowing_program : ast_node :=
  mk_keyword 1 AST_STMT
    (mk_stmt 2 (mk_keyword 3 AST_ASSIGN (mk_ident 4 "x") (mk_number 5 1)))
    (mk_define 30 "f" (mk_keyword 33 AST_PARAM .nullptr (mk_ident 34 "x"))
      (mk_return 40 (mk_ident 42 "x")))

/-- The loads of the shift register in `code`, in order, `prev` being the line
written before `code`: one item for each `POP hx`, the operand of the `PUSH`
written directly before it, or `none` when the value popped was computed by
another instruction. -/
def shift_loads_from : Option Line → List Line → List (Option Arg)
  | _, [] => []
  | prev, .cmd .POP (some (.reg .hx)) :: rest =>
    (match prev with
      | some (.cmd .PUSH (some v)) => some v
      | _ => none) :: shift_loads_from (some (.cmd .POP (some (.reg .hx)))) rest
  | _, l :: rest => shift_loads_from (some l) rest

/-- What the shift register was last loaded with by `code`: `none` when `code`
does not load it. -/
def last_shift_load (code : List Line) : Option (Option Arg) :=
  (shift_loads_from none code).getLast?

/-- The program `main() { a[500000] = 0; b[500001] = 0; x = 7; return g(x); }
g(p) { return p; }`: the call is compiled in a frame of 1000002 slots. -/
def sample_large_frame_program : ast_node :=
  mk_keyword 1 AST_STMT
    (mk_stmt 2
      (mk_define 10 "main" .nullptr
        (mk_keyword 24 AST_STMT
          (mk_keyword 23 AST_STMT
            (mk_keyword 13 AST_STMT
              (mk_stmt 14
                (mk_keyword 15 AST_ASSIGN (mk_indexed 16 "a" (mk_number 17 500000))
                  (mk_number 18 0)))
              (mk_keyword 19 AST_ASSIGN (mk_indexed 20 "b" (mk_number 21 500001))
                (mk_number 22 0)))
            (mk_keyword 35 AST_ASSIGN (mk_ident 36 "x") (mk_number 37 7)))
          (mk_keyword 25 AST_RETURN .nullptr
            (mk_keyword 26 AST_CALL (mk_ident 27 "g")
              (mk_keyword 28 AST_PARAM .nullptr (mk_ident 29 "x")))))))
    (mk_define 30 "g" (mk_keyword 33 AST_PARAM .nullptr (mk_ident 34 "p"))
      (mk_return 40 (mk_ident 42 "p")))

/-- The program `a[500000] = 0; b[500001] = 0;  main() { return 0; }`: the
global frame has 1000001 slots. -/
def sample_large_global_program : ast_node :=
  mk_keyword 1 AST_STMT
    (mk_keyword 2 AST_STMT
      (mk_stmt 3
        (mk_keyword 4 AST_ASSIGN (mk_indexed 5 "a" (mk_number 6 500000)) (mk_number 7 0)))
      (mk_keyword 8 AST_ASSIGN (mk_indexed 9 "b" (mk_number 11 500001)) (mk_number 12 0)))
    (mk_define 13 "main" .nullptr (mk_return 20 (mk_number 22 0)))

/-- The local scope table after `a[500000] = 0; b[500001] = 0; x = 7;`: two
arrays and a scalar, a frame of 1000002 slots. -/
def sample_large_scope : scope_table :=
  { entries := [{ ident := some "a", node := mk_indexed 16 "a" (mk_number 17 500000), shift := 0 },
      { ident := some "b", node := mk_indexed 20 "b" (mk_number 21 500001), shift := 500000 },
      { ident := some "x", node := mk_ident 36 "x", shift := 1000001 }],
    shift := 1000002 }

/-- A state inside a function body whose frame has 1000002 slots; `g` takes one
parameter. -/
def sample_large_state : State :=
  { file := [], local_scope := .own sample_large_scope,
    global_scope := { entries := [], shift := 0 },
    func := [{ node := .nullptr, ident := "g", n_params := 1 }] }

/-- The call `g(x)`. -/
def sample_large_call : ast_node :=
  mk_keyword 26 AST_CALL (mk_ident 27 "g") (mk_keyword 28 AST_PARAM .nullptr (mk_ident 29 "x"))

/-- The program `f() { return g(); }  f() { return 1; }  g() { return 2; }`:
`f` is defined twice, and `g`, which the first `f` calls, after both. -/
def sample_duplicate_forward_program : ast_node :=
  mk_keyword 1 AST_STMT
    (mk_keyword 2 AST_STMT
      (mk_stmt 3
        (mk_define 10 "f" .nullptr
          (mk_return 20 (mk_keyword 22 AST_CALL (mk_ident 23 "g") .nullptr))))
      (mk_define 30 "f" .nullptr (mk_return 40 (mk_number 42 1))))
    (mk_define 50 "g" .nullptr (mk_return 60 (mk_number 62 2)))

/-- The formal parameters `(a[3], b)` of a function: the first carries the
number literal 3 as its index. -/
def sample_indexed_params : ast_node :=
  mk_keyword 62 AST_PARAM
    (mk_keyword 63 AST_PARAM .nullptr (mk_indexed 64 "a" (mk_number 66 3))) (mk_ident 65 "b")

/-- The number of slots that declaring the variable `p` takes in a scope
table: the declared length when `p` carries a number literal as its index, one
otherwise. -/
def declared_size (p : ast_node) : Int :=
  match p.right with
  | .node _ (.number len) _ _ => len.to_int
  | _ => 1

/-- The entries that declaring the variables `items`, in this order, adds to a
scope table whose frame size is `base`: each at the frame size that the ones
before it left. -/
def param_entries : List ast_node → Int → List var_info
  | [], _ => []
  | p :: ps, base => { ident := ast_ident p, node := p, shift := base } ::
      param_entries ps (base + declared_size p)

/-- The number of slots that declaring the variables `items` takes. -/
def frame_size (items : List ast_node) : Int := (items.map declared_size).sum

/-- The program `f(a[3], b) { return b; }`: the first formal parameter carries
the number literal 3 as its index. -/
def sample_indexed_param_program : ast_node :=
  mk_stmt 1 (mk_define 10 "f" sample_indexed_params (mk_return 40 (mk_ident 42 "b")))

/-! ## Numbers as they are written -/

/-- What `number_str` writes is never a synthesized label. -/
theorem number_str_plain (v : double) : (number_str v).plain = true := by
  cases v with
  | infinite negative => rfl
  | nan negative => rfl
  | finite negative d k =>
    simp only [number_str]
    split_ifs <;> rfl

theorem referenced_labels_plain (op : Op) (x : Arg) (rest : List Line) (h : x.plain = true) :
    referenced_labels (.cmd op (some x) :: rest) = referenced_labels rest := by
  cases x <;> first | rfl | simp [Arg.plain] at h

theorem call_sequence_referenced (shift : Int) (ident : String) :
    referenced_labels (call_sequence shift ident) = [] := by
  have h := number_str_plain (.of_int shift)
  simp only [call_sequence]
  generalize number_str (double.of_int shift) = t at h
  cases t <;> first | rfl | simp [Arg.plain] at h

/-! ## The state and the output file -/

@[simp] theorem State.write_nil (st : State) : st.write [] = st := by
  simp [State.write]

@[simp] theorem State.write_write (st : State) (a b : List Line) :
    (st.write a).write b = st.write (a ++ b) := by
  simp [State.write]

@[simp] theorem CMD_eq_write (op : Op) (arg : Option Arg) (st : State) :
    CMD op arg st = st.write [.cmd op arg] := rfl

@[simp] theorem LABEL_eq_write (st : State) (arg : Arg) :
    LABEL st arg = st.write [.label arg] := rfl

@[simp] theorem WRITE_eq_write (st : State) (t : String) :
    WRITE st t = st.write [.write t] := rfl

@[simp] theorem State.write_file (st : State) (o : List Line) :
    (st.write o).file = st.file ++ o := rfl

@[simp] theorem State.write_func (st : State) (o : List Line) : (st.write o).func = st.func :=
  rfl

@[simp] theorem State.write_global (st : State) (o : List Line) :
    (st.write o).global_scope = st.global_scope := rfl

@[simp] theorem State.write_local_scope (st : State) (o : List Line) :
    (st.write o).local_scope = st.local_scope := rfl

@[simp] theorem State.write_local_table (st : State) (o : List Line) :
    (st.write o).local_table = st.local_table := rfl

theorem State.write_inj {st : State} {a b : List Line} (h : st.write a = st.write b) :
    a = b := by
  have := congrArg State.file h
  simpa using this

@[simp] theorem State.write_set_local (st : State) (o : List Line) (t : scope_table) :
    (st.write o).set_local t = (st.set_local t).write o := by
  cases st with
  | mk f l g fn => cases l <;> rfl

theorem State.set_local_self {st : State} {loc : scope_table} (h : st.local_table = some loc) :
    st.set_local loc = st := by
  cases st with
  | mk f l g fn => cases l <;> simp_all [State.set_local, State.local_table]

theorem State.local_table_set_local {st : State} {loc : scope_table} (t : scope_table)
    (h : st.local_table = some loc) : (st.set_local t).local_table = some t := by
  cases st with
  | mk f l g fn => cases l <;> simp_all [State.set_local, State.local_table]

@[simp] theorem State.set_local_set_local (st : State) (a b : scope_table) :
    (st.set_local a).set_local b = st.set_local b := by
  cases st with
  | mk f l g fn => cases l <;> rfl

@[simp] theorem State.set_local_func (st : State) (a : scope_table) :
    (st.set_local a).func = st.func := by
  cases st with
  | mk f l g fn => cases l <;> rfl

@[simp] theorem State.set_local_file (st : State) (a : scope_table) :
    (st.set_local a).file = st.file := by
  cases st with
  | mk f l g fn => cases l <;> rfl

theorem scope_table_pop_add_param (t : scope_table) :
    scope_table_pop (scope_table_add_param t).2 = t := by
  cases t with
  | mk e s => simp [scope_table_pop, scope_table_add_param]

theorem pop_params_add_params (n : Nat) (t : scope_table) :
    pop_params n (add_params n t) = t := by
  induction n generalizing t with
  | zero => rfl
  | succ k ih => simp [pop_params, add_params, scope_table_pop_add_param, ih]

theorem add_params_shift (n : Nat) (t : scope_table) :
    (add_params n t).shift = t.shift + n := by
  induction n with
  | zero => simp [add_params]
  | succ k ih => simp [add_params, scope_table_add_param, ih]; omega

/-! ## Error propagation -/

theorem on_success_eq_success {r : Status × State} {k : State → Status × State} {st : State} :
    on_success r k = (.success, st) ↔ ∃ st1, r = (.success, st1) ∧ k st1 = (.success, st) := by
  obtain ⟨s, st1⟩ := r
  cases s <;> simp [on_success]

theorem if_present_eq_success {child : ast_node} {f : State → Status × State} {st st1 : State} :
    if_present child f st = (.success, st1) ↔
      (child = .nullptr ∧ st1 = st) ∨ (child ≠ .nullptr ∧ f st = (.success, st1)) := by
  cases child <;> simp [if_present, eq_comm]

/-! ## What every function leaves untouched -/

theorem Step.refl (st : State) : Step st st :=
  ⟨List.prefix_refl _, rfl, fun h => ⟨h, rfl⟩⟩

theorem Step.trans {a b c : State} (h1 : Step a b) (h2 : Step b c) : Step a c :=
  ⟨h1.file.trans h2.file, h2.func.trans h1.func, fun h =>
    ⟨(h2.global (h1.global h).1).1, (h2.global (h1.global h).1).2.trans (h1.global h).2⟩⟩

theorem Step.write (st : State) (o : List Line) : Step st (st.write o) :=
  ⟨List.prefix_append _ _, rfl, fun h => ⟨h, rfl⟩⟩

theorem Step.set_local (st : State) (t : scope_table) : Step st (st.set_local t) := by
  obtain ⟨f, l, g, fn⟩ := st
  cases l
  · exact Step.refl _
  · exact ⟨List.prefix_refl _, rfl, fun h => absurd rfl h⟩
  · exact ⟨List.prefix_refl _, rfl, fun _ => ⟨by simp [State.set_local], rfl⟩⟩

theorem Step.set_local_scope (st : State) (p : local_ptr) (hp : p ≠ .global) :
    Step st { st with local_scope := p } :=
  ⟨List.prefix_refl _, rfl, fun _ => ⟨hp, rfl⟩⟩

theorem Step.write_right {st st1 : State} (h : Step st st1) (o : List Line) :
    Step st (st1.write o) :=
  h.trans (Step.write _ _)

theorem step_on_success {st : State} {r : Status × State} {k : State → Status × State}
    (hr : Step st r.2) (hk : ∀ s, Step s (k s).2) : Step st (on_success r k).2 := by
  obtain ⟨s, st1⟩ := r
  cases s
  · exact hr.trans (hk st1)
  · exact hr
  · exact hr

theorem step_on_found {st : State} {r : Lookup × State} {root : ast_node}
    {k : Arg → State → Status × State}
    (hr : Step st r.2) (hk : ∀ a s, Step s (k a s).2) : Step st (on_found r root k).2 := by
  obtain ⟨s, st1⟩ := r
  cases s
  · exact hr.trans (hk _ st1)
  · exact hr
  · exact hr

theorem step_if_present {child : ast_node} {f : State → Status × State}
    (hf : ∀ s, Step s (f s).2) (st : State) : Step st (if_present child f st).2 := by
  cases child
  · exact Step.refl _
  · exact hf st

theorem compile_shift_body_step {index : State → Status × State}
    (h : ∀ s, Step s (index s).2) (vnode : ast_node) (st : State) :
    Step st (compile_shift_body index vnode st).2 := by
  unfold compile_shift_body
  split
  · exact Step.refl _
  · split
    · exact (Step.write _ _).trans (Step.write _ _)
    · exact step_on_success (h st) (fun s => Step.write _ _)

theorem lookup_variable_state (name : String) (memory : Bool) (st : State) :
    (lookup_variable name memory st).2 = st := by
  unfold lookup_variable
  repeat' split
  all_goals rfl

theorem find_variable_body_step {index : State → Status × State}
    (h : ∀ s, Step s (index s).2) (vnode : ast_node) (st : State) (memory : Bool) :
    Step st (find_variable_body index vnode st memory).2 := by
  have hs := compile_shift_body_step h vnode st
  unfold find_variable_body
  split
  · exact Step.refl _
  · split <;> rename_i heq <;> rw [heq] at hs
    · exact hs
    · exact hs
    · split
      · rw [lookup_variable_state]; exact hs
      · exact hs

theorem compile_call_body_step {params : State → Int → Status × State}
    (h : ∀ s n, Step s (params s n).2) (root : ast_node) (st : State) :
    Step st (compile_call_body params root st).2 := by
  unfold compile_call_body
  split
  · exact Step.refl _
  · split
    · exact Step.refl _
    · split
      · exact Step.refl _
      · exact Step.refl _
      · split
        · exact Step.refl _
        · refine step_on_success (step_if_present (fun s => h s _) st) (fun s => ?_)
          split
          · exact Step.refl _
          · exact (Step.set_local _ _).trans (Step.write _ _)

/-- The body of `compile_expr` on a node, over `compile_call` and
`find_variable`. -/
theorem compile_expr_node (a : Nat) (d : node_data) (left right : ast_node) (st : State) :
    compile_expr (.node a d left right) st =
      if keyword (.node a d left right) = some AST_CALL then
        compile_call (.node a d left right) st
      else
        match d with
        | .number v => (.success, CMD .PUSH (some (number_str v)) st)
        | .ident _ =>
          match find_variable (.node a d left right) st true with
          | (.found ident, st1) => (.success, CMD .PUSH (some ident) st1)
          | (.nullptr, st1) => (.syntax_error (.node a d left right), st1)
          | (.fault f, st1) => (.fault f, st1)
        | .keyword k =>
          on_success (if_present left (compile_expr left) st) fun st1 =>
          on_success (if_present right (compile_expr right) st1) fun st2 =>
            match operator_cmd k with
            | some op => (.success, CMD op none st2)
            | none => (.syntax_error (.node a d left right), st2) := by
  rfl

/-- The body of `compile_param` on a node. -/
theorem compile_param_node (a : Nat) (d : node_data) (left right : ast_node) (st : State)
    (n_args : Int) :
    compile_param (.node a d left right) st n_args =
      on_success (if_present left (fun s => compile_param left s (n_args - 1)) st) fun st1 =>
      on_success (compile_expr right st1) fun st2 =>
        match st2.local_table with
        | none => (.fault .null_deref, st2)
        | some loc =>
          (.success, CMD .POP (some (local_variable (scope_table_add_param loc).1 true))
            (st2.set_local (scope_table_add_param loc).2)) := by
  rfl

theorem compile_expr_param_step (n : ast_node) :
    (∀ st, Step st (compile_expr n st).2) ∧ (∀ st k, Step st (compile_param n st k).2) := by
  induction n with
  | nullptr => exact ⟨fun st => Step.refl _, fun st k => Step.refl _⟩
  | node a d left right ihl ihr =>
    constructor
    · intro st
      rw [compile_expr_node]
      split
      · exact compile_call_body_step ihr.2 _ _
      · cases d with
        | number v => exact Step.write _ _
        | ident name =>
          have := find_variable_body_step ihr.1 (.node a (.ident name) left right) st true
          simp only [find_variable, ast_node.right]
          split <;> rename_i heq <;> simp only [heq] at this ⊢
          · exact this.write_right _
          · exact this
          · exact this
        | keyword k =>
          refine step_on_success (step_if_present ihl.1 st) (fun s1 => ?_)
          refine step_on_success (step_if_present ihr.1 s1) (fun s2 => ?_)
          split
          · exact Step.write _ _
          · exact Step.refl _
    · intro st k
      rw [compile_param_node]
      refine step_on_success (step_if_present (fun s => ihl.2 s _) st) (fun s1 => ?_)
      refine step_on_success (ihr.1 s1) (fun s2 => ?_)
      split
      · exact Step.refl _
      · exact (Step.set_local _ _).trans (Step.write _ _)

theorem compile_expr_step (n : ast_node) (st : State) : Step st (compile_expr n st).2 :=
  (compile_expr_param_step n).1 st

theorem compile_param_step (n : ast_node) (st : State) (k : Int) :
    Step st (compile_param n st k).2 :=
  (compile_expr_param_step n).2 st k

theorem compile_shift_step (vnode : ast_node) (st : State) :
    Step st (compile_shift vnode st).2 :=
  compile_shift_body_step (compile_expr_step _) vnode st

theorem find_variable_step (vnode : ast_node) (st : State) (memory : Bool) :
    Step st (find_variable vnode st memory).2 :=
  find_variable_body_step (compile_expr_step _) vnode st memory

theorem compile_call_step (root : ast_node) (st : State) : Step st (compile_call root st).2 :=
  compile_call_body_step (compile_param_step _) root st

/-! ## What a successful expression leaves behind -/

@[simp] theorem State.exists_write (st : State) (a : List Line) :
    ∃ out, st.write a = st.write out := ⟨a, rfl⟩

theorem compile_shift_body_frame {index : State → Status × State}
    (h : ∀ s s1, index s = (.success, s1) → ∃ out, s1 = s.write out)
    {vnode : ast_node} {st st1 : State}
    (hs : compile_shift_body index vnode st = (.success, st1)) : ∃ out, st1 = st.write out := by
  unfold compile_shift_body at hs
  split at hs
  · simp at hs
  · split at hs
    · simp only [Prod.mk.injEq, true_and] at hs
      subst hs; simp
    · obtain ⟨s2, hi, hs⟩ := on_success_eq_success.1 hs
      obtain ⟨o, rfl⟩ := h _ _ hi
      simp only [Prod.mk.injEq, true_and] at hs
      subst hs; simp

theorem find_variable_body_frame {index : State → Status × State}
    (h : ∀ s s1, index s = (.success, s1) → ∃ out, s1 = s.write out)
    {vnode : ast_node} {memory : Bool} {st st1 : State} {text : Arg}
    (hs : find_variable_body index vnode st memory = (.found text, st1)) :
    ∃ out, st1 = st.write out := by
  unfold find_variable_body at hs
  split at hs
  · simp at hs
  · split at hs
    · simp at hs
    · simp at hs
    · rename_i s2 hi
      obtain ⟨o, rfl⟩ := compile_shift_body_frame h hi
      split at hs
      · rename_i name _
        have := lookup_variable_state name memory (st.write o)
        rw [hs] at this
        exact ⟨o, this⟩
      · simp at hs

/-- What a successful `compile_call` did, given what a successful
`compile_param` does: the callee is registered with as many parameters as
there are arguments, the arguments are staged, their slots are released, and
the call sequence is written for the frame size of the local scope. -/
theorem compile_call_body_success {params : State → Int → Status × State} (root : ast_node)
    (h : ∀ s k s1, params s k = (.success, s1) →
      ∃ loc out, s.local_table = some loc ∧
        s1 = (s.set_local (add_params (count_params root.right) loc)).write out)
    {st st1 : State} (hs : compile_call_body params root st = (.success, st1)) :
    ∃ loc func out, st.local_table = some loc ∧ keyword root = some AST_CALL ∧
      find_function root.left st.func = .found func ∧
      func.n_params = count_params root.right ∧
      if_present root.right (fun s => params s ((func.n_params : Int) - 1)) st =
        (.success, (st.set_local (add_params (count_params root.right) loc)).write out) ∧
      st1 = st.write (out ++ call_sequence loc.shift func.ident) := by
  unfold compile_call_body at hs
  split at hs
  · simp at hs
  · rename_i a d left right
    split at hs
    · simp at hs
    · rename_i hk
      split at hs
      · simp at hs
      · simp at hs
      · rename_i func hf
        split at hs
        · simp at hs
        · rename_i hn
          obtain ⟨s2, hp, hs⟩ := on_success_eq_success.1 hs
          split at hs
          · simp at hs
          · rename_i loc2 hl2
            simp only [ne_eq, Decidable.not_not] at hk hn
            simp only [Prod.mk.injEq, true_and] at hs
            cases right with
            | nullptr =>
              simp only [if_present, Prod.mk.injEq, true_and] at hp
              subst hp
              refine ⟨loc2, func, [], hl2, hk, hf, hn, ?_, ?_⟩
              · simp [if_present, ast_node.right, count_params, add_params,
                  State.set_local_self hl2]
              · rw [← hs]
                simp [count_params, pop_params, State.set_local_self hl2]
            | node pa pd pl pr =>
              simp only [if_present] at hp
              obtain ⟨loc, out, hl, rfl⟩ := h _ _ _ hp
              have hl3 := State.local_table_set_local
                (add_params (count_params (ast_node.node pa pd pl pr)) loc) hl
              simp only [State.write_local_table, ast_node.right, hl3, Option.some.injEq] at hl2
              subst hl2
              refine ⟨loc, func, out, hl, hk, hf, hn, ?_, ?_⟩
              · simpa [if_present, ast_node.right] using hp
              · rw [← hs]
                simp [pop_params_add_params, State.set_local_self hl, ast_node.right]

theorem compile_expr_param_frame (n : ast_node) :
    (∀ st st1, compile_expr n st = (.success, st1) → ∃ out, st1 = st.write out) ∧
    (∀ st k st1, compile_param n st k = (.success, st1) →
      ∃ loc out, st.local_table = some loc ∧
        st1 = (st.set_local (add_params (count_params n) loc)).write out) := by
  induction n with
  | nullptr =>
    constructor
    · intro st st1 h; simp [compile_expr] at h
    · intro st k st1 h; simp [compile_param] at h
  | node a d left right ihl ihr =>
    constructor
    · intro st st1 hs
      rw [compile_expr_node] at hs
      split at hs
      · obtain ⟨loc, func, out, -, -, -, -, -, rfl⟩ :=
          compile_call_body_success (.node a d left right) ihr.2 hs
        simp
      · cases d with
        | number v =>
          simp only [Prod.mk.injEq, true_and] at hs
          subst hs; simp
        | ident name =>
          simp only [find_variable, ast_node.right] at hs
          split at hs
          · rename_i t s2 hf
            obtain ⟨o, rfl⟩ := find_variable_body_frame ihr.1 hf
            simp only [Prod.mk.injEq, true_and] at hs
            subst hs; simp
          · simp at hs
          · simp at hs
        | keyword k =>
          obtain ⟨s1, h1, hs⟩ := on_success_eq_success.1 hs
          obtain ⟨s2, h2, hs⟩ := on_success_eq_success.1 hs
          have e1 : ∃ o, s1 = st.write o := by
            rcases if_present_eq_success.1 h1 with ⟨-, rfl⟩ | ⟨-, h⟩
            · exact ⟨[], by simp⟩
            · exact ihl.1 _ _ h
          have e2 : ∃ o, s2 = s1.write o := by
            rcases if_present_eq_success.1 h2 with ⟨-, rfl⟩ | ⟨-, h⟩
            · exact ⟨[], by simp⟩
            · exact ihr.1 _ _ h
          obtain ⟨o1, rfl⟩ := e1
          obtain ⟨o2, rfl⟩ := e2
          split at hs
          · simp only [Prod.mk.injEq, true_and] at hs
            subst hs; simp
          · simp at hs
    · intro st k st1 hs
      rw [compile_param_node] at hs
      obtain ⟨s1, h1, hs2⟩ := on_success_eq_success.1 hs
      obtain ⟨s2, h2, hs3⟩ := on_success_eq_success.1 hs2
      clear hs hs2
      obtain ⟨o2, rfl⟩ := ihr.1 _ _ h2
      split at hs3
      · simp at hs3
      · rename_i loc2 hl2
        simp only [Prod.mk.injEq, true_and] at hs3
        rcases if_present_eq_success.1 h1 with ⟨hnull, rfl⟩ | ⟨-, h⟩
        · subst hnull
          refine ⟨loc2, o2 ++ [.cmd .POP (some (local_variable (scope_table_add_param loc2).1 true))],
            by simpa using hl2, ?_⟩
          rw [← hs3]
          simp [count_params, add_params]
        · obtain ⟨loc, o1, hl, rfl⟩ := ihl.2 _ _ _ h
          have hl3 := State.local_table_set_local (add_params (count_params left) loc) hl
          simp only [State.write_local_table, hl3, Option.some.injEq] at hl2
          subst hl2
          refine ⟨loc, o1 ++ (o2 ++ [.cmd .POP (some (local_variable
            (scope_table_add_param (add_params (count_params left) loc)).1 true))]), hl, ?_⟩
          rw [← hs3]
          simp [count_params, add_params]

theorem compile_expr_frame {n : ast_node} {st st1 : State}
    (h : compile_expr n st = (.success, st1)) : ∃ out, st1 = st.write out :=
  (compile_expr_param_frame n).1 st st1 h

theorem compile_param_frame {n : ast_node} {st st1 : State} {k : Int}
    (h : compile_param n st k = (.success, st1)) :
    ∃ loc out, st.local_table = some loc ∧
      st1 = (st.set_local (add_params (count_params n) loc)).write out :=
  (compile_expr_param_frame n).2 st k st1 h

/-! ## Declaring scalar variables -/

theorem scalar_entries_append (xs : List ast_node) (p : ast_node) (base : Int) :
    scalar_entries (xs ++ [p]) base =
      scalar_entries xs base ++ [{ ident := ast_ident p, node := p, shift := base + xs.length }] := by
  induction xs generalizing base with
  | nil => simp [scalar_entries]
  | cons x xs ih =>
    have e : base + 1 + (xs.length : Int) = base + ((xs.length : Int) + 1) := by omega
    simp [scalar_entries, ih, e]

theorem scalar_entries_length (xs : List ast_node) (base : Int) :
    (scalar_entries xs base).length = xs.length := by
  induction xs generalizing base with
  | nil => rfl
  | cons x xs ih => simp [scalar_entries, ih]

theorem scalar_entries_getElem? (xs : List ast_node) (base : Int) (i : Nat) (p : ast_node)
    (h : xs[i]? = some p) :
    (scalar_entries xs base)[i]? = some { ident := ast_ident p, node := p, shift := base + i } := by
  induction xs generalizing base i with
  | nil => simp at h
  | cons x xs ih =>
    cases i with
    | zero =>
      simp only [List.getElem?_cons_zero, Option.some.injEq] at h
      simp [scalar_entries, h]
    | succ j =>
      simp only [List.getElem?_cons_succ] at h
      simp only [scalar_entries, List.getElem?_cons_succ, ih (base + 1) j h, Nat.cast_add,
        Nat.cast_one, Option.some.injEq, var_info.mk.injEq, true_and]
      omega

theorem count_params_eq_length (n : ast_node) : count_params n = (chain_items n).length := by
  induction n with
  | nullptr => rfl
  | node a d l r ihl _ => simp [count_params, chain_items, ihl]

theorem find_variable_scalar (a : Nat) (name : String) (l : ast_node) (st : State)
    (memory : Bool) :
    find_variable (.node a (.ident name) l .nullptr) st memory =
      lookup_variable name memory
        (st.write [.cmd .PUSH (some (.number 0)), .cmd .POP (some (.reg SHIFT_REG))]) := by
  simp [find_variable, find_variable_body, compile_shift_body, ast_ident]

theorem lookup_variable_eq_nullptr {name : String} {memory : Bool} {st st1 : State}
    (h : lookup_variable name memory st = (.nullptr, st1)) :
    st1 = st ∧ scope_table_find st.global_scope name = none ∧
      ∃ loc, st.local_table = some loc ∧ scope_table_find loc name = none := by
  unfold lookup_variable at h
  split at h
  · simp at h
  · split at h
    · simp at h
    · rename_i loc hl
      split at h
      · simp at h
      · rename_i hn
        simp only [Prod.mk.injEq, true_and] at h
        exact ⟨h.symm, by assumption, loc, hl, hn⟩

theorem scope_table_find_append_new {scope : scope_table} {name : String} {var : var_info}
    (shift : Int) (hn : scope_table_find scope name = none) (hv : var.ident = some name) :
    scope_table_find { entries := scope.entries ++ [var], shift := shift } name = some var := by
  unfold scope_table_find at hn ⊢
  simp [List.find?_append, hn, hv]

/-- Once the scalar `name` is added to the local scope table, `lookup_variable`
finds it. -/
theorem lookup_variable_added {name : String} {st : State} {loc : scope_table} (var : var_info)
    (shift : Int) (memory : Bool)
    (hg : scope_table_find st.global_scope name = none) (hl : st.local_table = some loc)
    (hn : scope_table_find loc name = none) (hv : var.ident = some name) :
    ∃ text, lookup_variable name memory
        (st.set_local { entries := loc.entries ++ [var], shift := shift }) =
      (.found text, st.set_local { entries := loc.entries ++ [var], shift := shift }) := by
  have hf := scope_table_find_append_new shift hn hv
  obtain ⟨f, l, g, fn⟩ := st
  cases l with
  | null => simp [State.local_table] at hl
  | global =>
    simp only [State.local_table, Option.some.injEq] at hl
    subst hl
    simp only [lookup_variable, State.set_local, hf]
    exact ⟨_, rfl⟩
  | own t =>
    simp only [State.local_table, Option.some.injEq] at hl
    subst hl
    simp only [lookup_variable, State.set_local, State.local_table, hf]
    simp only at hg
    simp only [hg]
    exact ⟨_, rfl⟩

/-- Declaring a scalar with `create_variable` appends one entry at the current
frame size and writes the two loads of the shift register. -/
theorem create_variable_scalar {a : Nat} {name : String} {l : ast_node} {st st1 : State}
    {text : Arg}
    (h : create_variable (.node a (.ident name) l .nullptr) st = (.found text, st1)) :
    ∃ loc, st.local_table = some loc ∧
      st1 = (st.set_local
        { entries := loc.entries ++
            [{ ident := some name, node := .node a (.ident name) l .nullptr, shift := loc.shift }],
          shift := loc.shift + 1 }).write
        [.cmd .PUSH (some (.number 0)), .cmd .POP (some (.reg SHIFT_REG)),
         .cmd .PUSH (some (.number 0)), .cmd .POP (some (.reg SHIFT_REG))] := by
  unfold create_variable at h
  simp only [find_variable_scalar] at h
  split at h
  · simp at h
  · simp at h
  · rename_i s1 hlk
    obtain ⟨rfl, hg, loc, hl, hn⟩ := lookup_variable_eq_nullptr hlk
    simp only [State.write_global, State.write_local_table] at hg hl
    refine ⟨loc, hl, ?_⟩
    have hadd : scope_table_add loc (.node a (.ident name) l .nullptr) =
        some ({ ident := some name, node := .node a (.ident name) l .nullptr, shift := loc.shift },
          { entries := loc.entries ++
              [{ ident := some name, node := .node a (.ident name) l .nullptr,
                 shift := loc.shift }],
            shift := loc.shift + 1 }) := by
      simp [scope_table_add, hn]
    simp only [declare_variable, ast_node.right, State.write_local_table, hl, hadd,
      find_variable_scalar, State.write_set_local, State.write_write] at h
    have hstate := congrArg Prod.snd h
    rw [lookup_variable_state] at hstate
    simpa using hstate.symm

theorem on_found_eq_success {r : Lookup × State} {root : ast_node}
    {k : Arg → State → Status × State} {st : State} :
    on_found r root k = (.success, st) ↔
      ∃ text st1, r = (.found text, st1) ∧ k text st1 = (.success, st) := by
  obtain ⟨s, st1⟩ := r
  cases s
  · simp only [on_found, Prod.mk.injEq, Lookup.found.injEq]
    constructor
    · intro h; exact ⟨_, _, ⟨rfl, rfl⟩, h⟩
    · rintro ⟨t, s, ⟨rfl, rfl⟩, h⟩; exact h
  · simp [on_found]
  · simp [on_found]

/-- A successful `create_local_table` over scalar parameters appends them to
the local scope table, in order, one slot each. -/
theorem create_local_table_scalars (params : ast_node) :
    ∀ st st1, (∀ p ∈ chain_items params, p.right = .nullptr) →
      create_local_table params st = (.success, st1) →
      ∃ loc out, st.local_table = some loc ∧
        st1 = (st.set_local
          { entries := loc.entries ++ scalar_entries (chain_items params) loc.shift,
            shift := loc.shift + count_params params }).write out := by
  induction params with
  | nullptr => intro st st1 _ h; simp [create_local_table] at h
  | node a d left right ihl _ =>
    intro st st1 hsc h
    rw [create_local_table] at h
    split at h
    · simp at h
    · obtain ⟨s1, h1, h2⟩ := on_success_eq_success.1 h
      clear h
      split at h2
      · simp at h2
      · rename_i hid
        obtain ⟨text, s2, hcv, h3⟩ := on_found_eq_success.1 h2
        simp only [Prod.mk.injEq, true_and] at h3
        subst h3
        have hr : right.right = .nullptr := hsc right (by simp [chain_items])
        cases right with
        | nullptr => simp [create_variable] at hcv
        | node ra rd rl rr =>
          simp only [ast_node.right] at hr
          subst hr
          cases rd with
          | number v => simp [not_ident] at hid
          | keyword k => simp [not_ident] at hid
          | ident name =>
            obtain ⟨loc1, hl1, rfl⟩ := create_variable_scalar hcv
            rcases if_present_eq_success.1 h1 with ⟨hnull, rfl⟩ | ⟨-, hleft⟩
            · subst hnull
              refine ⟨loc1, [.cmd .PUSH (some (.number 0)), .cmd .POP (some (.reg SHIFT_REG)),
                .cmd .PUSH (some (.number 0)), .cmd .POP (some (.reg SHIFT_REG))], hl1, ?_⟩
              simp [chain_items, scalar_entries, count_params, ast_ident]
            · obtain ⟨loc, out, hl, rfl⟩ := ihl st s1
                (fun p hp => hsc p (by simp [chain_items, hp])) hleft
              have hl3 := State.local_table_set_local
                { entries := loc.entries ++ scalar_entries (chain_items left) loc.shift,
                  shift := loc.shift + count_params left } hl
              simp only [State.write_local_table, hl3, Option.some.injEq] at hl1
              subst hl1
              refine ⟨loc, out ++ [.cmd .PUSH (some (.number 0)), .cmd .POP (some (.reg SHIFT_REG)),
                .cmd .PUSH (some (.number 0)), .cmd .POP (some (.reg SHIFT_REG))], hl, ?_⟩
              simp only [State.write_set_local, State.set_local_set_local, State.write_write,
                chain_items, scalar_entries_append, count_params, ast_ident,
                count_params_eq_length, List.append_assoc, Nat.cast_add, Nat.cast_one]
              congr 3
              omega

/-! ## Call sites -/

theorem local_variable_add_param (scope : scope_table) :
    local_variable (scope_table_add_param scope).1 true =
      .memory LOCAL_REG scope.shift SHIFT_REG := rfl

/-- Each argument of a successful `compile_param` is compiled in the starting
state with one slot reserved per earlier argument, and the line written right
after its code pops into the next slot. -/
theorem compile_param_items (n : ast_node) :
    ∀ st k st1 loc, st.local_table = some loc → compile_param n st k = (.success, st1) →
      ∀ i e, (chain_items n)[i]? = some e →
        ∃ pre s1 rest,
          compile_expr e ((st.set_local (add_params i loc)).write pre) = (.success, s1) ∧
          st1.file = s1.file ++
            .cmd .POP (some (.memory LOCAL_REG (loc.shift + i) SHIFT_REG)) :: rest := by
  induction n with
  | nullptr => intro st k st1 loc _ h; simp [compile_param] at h
  | node a d left right ihl _ =>
    intro st k st1 loc hl h i e hi
    rw [compile_param_node] at h
    obtain ⟨s1, h1, h2⟩ := on_success_eq_success.1 h
    obtain ⟨s2, h3, h4⟩ := on_success_eq_success.1 h2
    clear h h2
    obtain ⟨o2, rfl⟩ := compile_expr_frame h3
    split at h4
    · simp at h4
    · rename_i loc2 hl2
      simp only [Prod.mk.injEq, true_and, local_variable_add_param] at h4
      subst h4
      simp only [chain_items] at hi
      rcases if_present_eq_success.1 h1 with ⟨hnull, rfl⟩ | ⟨-, hleft⟩
      · subst hnull
        simp only [State.write_local_table, hl, Option.some.injEq] at hl2
        subst hl2
        cases i with
        | zero =>
          simp only [chain_items, List.nil_append, List.getElem?_cons_zero,
            Option.some.injEq] at hi
          subst hi
          refine ⟨[], s1.write o2, [], ?_, ?_⟩
          · simpa [add_params, State.set_local_self hl] using h3
          · simp
        | succ j => simp [chain_items] at hi
      · obtain ⟨loc', o1, hl', rfl⟩ := compile_param_frame hleft
        rw [hl] at hl'
        simp only [Option.some.injEq] at hl'
        subst hl'
        have hl3 := State.local_table_set_local (add_params (count_params left) loc) hl
        simp only [State.write_local_table, hl3, Option.some.injEq] at hl2
        subst hl2
        by_cases hlt : i < (chain_items left).length
        · rw [List.getElem?_append_left hlt] at hi
          obtain ⟨pre, s1, rest, hc, hf⟩ := ihl st _ _ loc hl hleft i e hi
          refine ⟨pre, s1, rest ++ (o2 ++ [.cmd .POP (some (.memory LOCAL_REG
            (add_params (count_params left) loc).shift SHIFT_REG))]), hc, ?_⟩
          simp only [State.write_file, State.set_local_file, CMD_eq_write] at hf ⊢
          rw [hf]
          simp
        · have hge : (chain_items left).length ≤ i := Nat.le_of_not_lt hlt
          rw [List.getElem?_append_right hge] at hi
          have hi0 : i - (chain_items left).length = 0 := by
            by_contra hne
            obtain ⟨j, hj⟩ := Nat.exists_eq_succ_of_ne_zero hne
            rw [hj] at hi
            simp at hi
          rw [hi0] at hi
          simp only [List.getElem?_cons_zero, Option.some.injEq] at hi
          subst hi
          have hieq : i = count_params left := by
            rw [count_params_eq_length]; omega
          subst hieq
          refine ⟨o1, ((st.set_local (add_params (count_params left) loc)).write o1).write o2,
            [], h3, ?_⟩
          simp [add_params_shift]

/-- What a successful `compile_call` did: the callee is registered with as many
parameters as there are arguments, the arguments are staged, their slots are
released, and the call sequence is written for the frame size of the local
scope. -/
theorem compile_call_success {root : ast_node} {st st1 : State}
    (h : compile_call root st = (.success, st1)) :
    ∃ loc func out, st.local_table = some loc ∧ keyword root = some AST_CALL ∧
      find_function root.left st.func = .found func ∧
      func.n_params = count_params root.right ∧
      if_present root.right (fun s => compile_param root.right s ((func.n_params : Int) - 1)) st =
        (.success, (st.set_local (add_params (count_params root.right) loc)).write out) ∧
      st1 = st.write (out ++ call_sequence loc.shift func.ident) :=
  compile_call_body_success root (fun _ _ _ h => compile_param_frame h) h

/-- The layout of a call.  Take a call site `root` with at least one argument
that compiles in a local scope of frame size `S = loc.shift`, and a list of
scalar formal parameters of the same length declared by `create_local_table`
in a fresh local scope.  Then the lines of the call end with the call sequence
for `S`, in which the frame size is written by `number_str`; and for every `i`,
the line written right after the code of the `i`-th argument pops into
`[bx + (S + i) + hx]`, and the `i`-th formal parameter is the entry at offset
`i` of the callee's scope. -/
theorem call_frame_layout (root callee_params : ast_node) (st st1 cst cst1 : State)
    (loc : scope_table)
    (hargs : 1 ≤ count_params root.right)
    (hloc : st.local_table = some loc)
    (hcall : compile_call root st = (.success, st1))
    (harity : count_params callee_params = count_params root.right)
    (hscalar : ∀ p ∈ chain_items callee_params, p.right = .nullptr)
    (hfresh : cst.local_scope = .own { entries := [], shift := 0 })
    (hcallee : create_local_table callee_params cst = (.success, cst1)) :
    (∃ func out, find_function root.left st.func = .found func ∧
      st1.file = st.file ++ out ++ call_sequence loc.shift func.ident) ∧
    ∃ callee_scope, cst1.local_table = some callee_scope ∧
      callee_scope.shift = count_params root.right ∧
      ∀ i arg param, (chain_items root.right)[i]? = some arg →
        (chain_items callee_params)[i]? = some param →
        (∃ pre s1 rest,
          compile_expr arg ((st.set_local (add_params i loc)).write pre) = (.success, s1) ∧
          st1.file = s1.file ++
            .cmd .POP (some (.memory LOCAL_REG (loc.shift + i) SHIFT_REG)) :: rest) ∧
        callee_scope.entries[i]? = some { ident := ast_ident param, node := param, shift := i } := by
  obtain ⟨loc', func, out, hl', -, hfind, -, hparam, rfl⟩ := compile_call_success hcall
  rw [hloc] at hl'
  simp only [Option.some.injEq] at hl'
  subst hl'
  obtain ⟨cloc, cout, hcl, rfl⟩ := create_local_table_scalars callee_params cst cst1 hscalar hcallee
  have hcloc : cloc = { entries := [], shift := 0 } := by
    simp only [State.local_table, hfresh, Option.some.injEq] at hcl
    exact hcl.symm
  subst hcloc
  refine ⟨⟨func, out, hfind, by simp⟩,
    { entries := scalar_entries (chain_items callee_params) 0,
      shift := count_params callee_params }, ?_, ?_, ?_⟩
  · rw [State.write_local_table]
    simpa using State.local_table_set_local
      { entries := scalar_entries (chain_items callee_params) 0,
        shift := count_params callee_params } hcl
  · simp [harity]
  · intro i arg param harg hparam_i
    have hne : root.right ≠ .nullptr := by
      intro h0
      rw [h0] at hargs
      simp [count_params] at hargs
    rcases if_present_eq_success.1 hparam with ⟨h0, -⟩ | ⟨-, hp⟩
    · exact absurd h0 hne
    · obtain ⟨pre, s1, rest, hc, hf⟩ := compile_param_items root.right st _ _ loc hloc hp i arg harg
      refine ⟨⟨pre, s1, rest ++ call_sequence loc.shift func.ident, hc, ?_⟩, ?_⟩
      · simp only [State.write_file, State.set_local_file] at hf ⊢
        rw [← List.append_assoc, hf]
        simp
      · simpa using scalar_entries_getElem? (chain_items callee_params) 0 i param hparam_i

/-- The layout of the call `f(1, 2)` in a scope holding one local, against the
parameters `(a, b)`. -/
theorem call_frame_layout_witness :
    (∃ func out, find_function sample_call.left sample_state.func = .found func ∧
      (compile_call sample_call sample_state).2.file =
        sample_state.file ++ out ++ call_sequence sample_scope.shift func.ident) ∧
    ∃ callee_scope,
      (create_local_table sample_params fresh_state).2.local_table = some callee_scope ∧
      callee_scope.shift = count_params sample_call.right ∧
      ∀ i arg param, (chain_items sample_call.right)[i]? = some arg →
        (chain_items sample_params)[i]? = some param →
        (∃ pre s1 rest,
          compile_expr arg ((sample_state.set_local (add_params i sample_scope)).write pre) =
            (.success, s1) ∧
          (compile_call sample_call sample_state).2.file = s1.file ++
            .cmd .POP (some (.memory LOCAL_REG (sample_scope.shift + i) SHIFT_REG)) :: rest) ∧
        callee_scope.entries[i]? = some { ident := ast_ident param, node := param, shift := i } :=
  call_frame_layout sample_call sample_params sample_state (compile_call sample_call sample_state).2
    fresh_state (create_local_table sample_params fresh_state).2 sample_scope
    (by decide) rfl rfl rfl (by decide) rfl rfl

/-- Claim C1, which the code does not meet.  In
`main() { a[500000] = 0; b[500001] = 0; x = 7; return g(x); }  g(p) { return p; }`
the call is compiled in a frame of `S = 1000002` slots.  The argument is staged
by `POP [bx + 1000002 + hx]`, at the fixed offset `S + 0`, and the callee reads
its parameter from `[bx + 0 + hx]`, at the fixed offset 0, both with the shift
register loaded with 0; but the frame-base adjustment pushed before `CALL g` is
the text `1e+06`, which `number_str` writes for 1000002.  So the callee's base
is the caller's base plus 1000000, and the slot it reads is two below the slot
that was staged. -/
theorem frame_base_adjustment_rounded :
    compile_tree sample_large_frame_program =
      (.EXIT_SUCCESS,
        [.cmd .PUSH (some (.number 0)), .cmd .PUSH (some (.reg .bx)), .cmd .ADD none,
         .cmd .POP (some (.reg .bx)), .cmd .CALL (some (.name "main")), .cmd .HLT none,
         .label (.name "main"),
         .cmd .PUSH (some (.number 0)), .cmd .PUSH (some (.number 500000)),
         .cmd .POP (some (.reg .hx)), .cmd .POP (some (.memory .bx 0 .hx)),
         .cmd .PUSH (some (.number 0)), .cmd .PUSH (some (.number 500001)),
         .cmd .POP (some (.reg .hx)), .cmd .POP (some (.memory .bx 500000 .hx)),
         .cmd .PUSH (some (.number 7)), .cmd .PUSH (some (.number 0)),
         .cmd .POP (some (.reg .hx)), .cmd .POP (some (.memory .bx 1000001 .hx)),
         .cmd .PUSH (some (.number 0)), .cmd .POP (some (.reg .hx)),
         .cmd .PUSH (some (.memory .bx 1000001 .hx)),
         .cmd .POP (some (.memory .bx 1000002 .hx)),
         .cmd .PUSH (some (.reg .bx)), .cmd .PUSH (some (.decimal false 1 6)), .cmd .ADD none,
         .cmd .POP (some (.reg .bx)), .cmd .CALL (some (.name "g")),
         .cmd .PUSH (some (.reg .ax)), .cmd .PUSH (some (.reg .bx)),
         .cmd .PUSH (some (.decimal false 1 6)), .cmd .SUB none, .cmd .POP (some (.reg .bx)),
         .cmd .POP (some (.reg .ax)), .cmd .RET none,
         .cmd .PUSH (some (.number 0)), .cmd .POP (some (.reg .hx)),
         .cmd .PUSH (some (.number 0)), .cmd .POP (some (.reg .hx)),
         .label (.name "g"),
         .cmd .PUSH (some (.number 0)), .cmd .POP (some (.reg .hx)),
         .cmd .PUSH (some (.memory .bx 0 .hx)),
         .cmd .POP (some (.reg .ax)), .cmd .RET none]) ∧
    number_str (.of_int 1000002) = .decimal false 1 6 ∧
    number_str (.of_int 1000002) ≠ .number 1000002 := by
  decide

theorem eq_success_of_fst {r : Status × State} (h : r.1 = .success) :
    ∃ s, r = (.success, s) := by
  obtain ⟨a, b⟩ := r
  exact ⟨b, by simp_all⟩

/-- `compile_param` succeeds when each argument compiles in the starting state
with one slot reserved per earlier argument. -/
theorem compile_param_succeeds (n : ast_node) :
    ∀ st k loc, n ≠ .nullptr → st.local_table = some loc →
      (∀ i arg pre, (chain_items n)[i]? = some arg →
        (compile_expr arg ((st.set_local (add_params i loc)).write pre)).1 = .success) →
      (compile_param n st k).1 = .success := by
  induction n with
  | nullptr => intro st k loc h; exact absurd rfl h
  | node a d left right ihl _ =>
    intro st k loc _ hl hargs
    rw [compile_param_node]
    have hleft : ∃ o1, if_present left (fun s => compile_param left s (k - 1)) st =
        (.success, (st.set_local (add_params (count_params left) loc)).write o1) := by
      cases hcl : left with
      | nullptr =>
        exact ⟨[], by simp [if_present, count_params, add_params, State.set_local_self hl]⟩
      | node la ld ll lr =>
        have hne : left ≠ .nullptr := by simp [hcl]
        have h1 := ihl st (k - 1) loc hne hl (fun i arg pre hi => hargs i arg pre (by
          simp only [chain_items]
          rw [List.getElem?_append_left (by
            by_contra hlt
            rw [List.getElem?_eq_none (Nat.le_of_not_lt hlt)] at hi
            simp at hi)]
          exact hi))
        obtain ⟨s1, hs1⟩ := eq_success_of_fst h1
        obtain ⟨loc', o1, hl', rfl⟩ := compile_param_frame hs1
        rw [hl] at hl'
        simp only [Option.some.injEq] at hl'
        subst hl'
        rw [← hcl]
        exact ⟨o1, by simpa [if_present, hcl] using hs1⟩
    obtain ⟨o1, h1⟩ := hleft
    have h2 := hargs (count_params left) right o1 (by
      simp [chain_items, count_params_eq_length])
    obtain ⟨s2, hs2⟩ := eq_success_of_fst h2
    obtain ⟨o2, rfl⟩ := compile_expr_frame hs2
    have hl3 := State.local_table_set_local (add_params (count_params left) loc) hl
    simp [h1, on_success, hs2, hl3]

/-- A call whose callee is registered with as many parameters as the call has
arguments succeeds when every argument compiles (in the state of the call with
the slots of the earlier arguments reserved). -/
theorem compile_call_succeeds (root : ast_node) (st : State) (func : func_info)
    (loc : scope_table)
    (hkw : keyword root = some AST_CALL)
    (hfind : find_function root.left st.func = .found func)
    (hloc : st.local_table = some loc)
    (heq : func.n_params = count_params root.right)
    (hargs : ∀ i arg pre, (chain_items root.right)[i]? = some arg →
      (compile_expr arg ((st.set_local (add_params i loc)).write pre)).1 = .success) :
    (compile_call root st).1 = .success := by
  cases root with
  | nullptr => simp [keyword] at hkw
  | node a d left right =>
    simp only [ast_node.left, ast_node.right] at hfind heq hargs
    cases right with
    | nullptr =>
      simp [compile_call, compile_call_body, hkw, hfind, heq, if_present, on_success, hloc,
        ast_node.right]
    | node pa pd pl pr =>
      obtain ⟨s1, hs1⟩ := eq_success_of_fst
        (compile_param_succeeds (.node pa pd pl pr) st ((func.n_params : Int) - 1) loc
          (by simp) hloc hargs)
      obtain ⟨loc', o1, hl', rfl⟩ := compile_param_frame hs1
      have hl3 := State.local_table_set_local
        (add_params (count_params (.node pa pd pl pr)) loc') hl'
      rw [heq] at hs1
      simp [compile_call, compile_call_body, hkw, hfind, heq, if_present, on_success,
        ast_node.right, hs1, hl3]

/-- C2 (arity enforcement).  For a call node whose callee is registered as
`func`: when the number of arguments differs from `func.n_params`,
`compile_call` returns the syntax error at the call and leaves the state,
the output file included, as it was; when the two are equal and every argument
compiles (in the state of the call with the slots of the earlier arguments
reserved), `compile_call` succeeds. -/
theorem arity_enforcement (root : ast_node) (st : State) (func : func_info)
    (loc : scope_table)
    (hkw : keyword root = some AST_CALL)
    (hfind : find_function root.left st.func = .found func)
    (hloc : st.local_table = some loc) :
    (func.n_params ≠ count_params root.right →
      compile_call root st = (.syntax_error root, st)) ∧
    (func.n_params = count_params root.right →
      (∀ i arg pre, (chain_items root.right)[i]? = some arg →
        (compile_expr arg ((st.set_local (add_params i loc)).write pre)).1 = .success) →
      (compile_call root st).1 = .success) := by
  refine ⟨fun hne => ?_, fun heq hargs => compile_call_succeeds root st func loc hkw hfind hloc
    heq hargs⟩
  cases root with
  | nullptr => simp [keyword] at hkw
  | node a d left right =>
    simp only [ast_node.left, ast_node.right] at hfind hne
    simp [compile_call, compile_call_body, hkw, hfind, hne]

/-- C2 at the calls `f(1)` and `f(1, 2)` of a function registered with two
parameters. -/
theorem arity_enforcement_witness :
    compile_call sample_short_call sample_state =
        (.syntax_error sample_short_call, sample_state) ∧
      (compile_call sample_call sample_state).1 = .success :=
  ⟨(arity_enforcement sample_short_call sample_state
      { node := .nullptr, ident := "f", n_params := 2 } sample_scope rfl rfl rfl).1 (by decide),
   (arity_enforcement sample_call sample_state
      { node := .nullptr, ident := "f", n_params := 2 } sample_scope rfl rfl rfl).2 rfl (by
        intro i arg pre h
        have hc : chain_items sample_call.right = [mk_number 54 1, mk_number 55 2] := rfl
        rw [hc] at h
        match i, h with
        | 0, h =>
          simp only [List.getElem?_cons_zero, Option.some.injEq] at h
          subst h
          simp [mk_number, compile_expr_node, keyword]
        | 1, h =>
          simp only [List.getElem?_cons_succ, List.getElem?_cons_zero, Option.some.injEq] at h
          subst h
          simp [mk_number, compile_expr_node, keyword]
        | n + 2, h => simp at h)⟩

/-! ## The function table -/

theorem find_function_loop_append_of_some {ident : String} {ft : List func_info} {f : func_info}
    (more : List func_info) (h : find_function_loop ident ft = some f) :
    find_function_loop ident (ft ++ more) = some f := by
  induction ft with
  | nil => simp [find_function_loop] at h
  | cons x xs ih =>
    simp only [List.cons_append, find_function_loop] at h ⊢
    split
    · simpa [*] using h
    · rename_i hne
      simp only [hne, if_false] at h
      exact ih h

theorem find_function_loop_append_of_none {ident : String} {ft : List func_info}
    (e : func_info) (h : find_function_loop ident ft = none) :
    find_function_loop ident (ft ++ [e]) = if e.ident = ident then some e else none := by
  induction ft with
  | nil => simp [find_function_loop]
  | cons x xs ih =>
    simp only [List.cons_append, find_function_loop] at h ⊢
    split
    · rename_i heq
      simp [heq] at h
    · rename_i hne
      simp only [hne, if_false] at h
      exact ih h

/-- What a successful `declare_function` did. -/
theorem declare_function_success {root : ast_node} {ft ft1 : List func_info}
    (h : declare_function root ft = (.success, ft1)) :
    ∃ ident, ast_ident root.left.left = some ident ∧ find_function_loop ident ft = none ∧
      ft1 = ft ++ [{ node := root.left, ident := ident,
                     n_params := count_params root.left.right }] := by
  unfold declare_function at h
  split at h
  · simp at h
  · simp at h
  · rename_i a d fa fd name params r
    split at h
    · simp at h
    · simp at h
    · rename_i hf
      split at h
      · simp at h
      · rename_i ident hid
        simp only [Prod.mk.injEq, true_and] at h
        refine ⟨ident, hid, ?_, h.symm⟩
        cases name with
        | nullptr => simp [ast_ident] at hid
        | node na nd nl nr =>
          cases nd with
          | number v => simp [ast_ident] at hid
          | keyword k => simp [ast_ident] at hid
          | ident s =>
            simp only [ast_ident, Option.some.injEq] at hid
            subst hid
            simp only [find_function] at hf
            split at hf
            · simp at hf
            · assumption

/-- The body of `create_func_table` on a node. -/
theorem create_func_table_node (a : Nat) (d : node_data) (left right : ast_node)
    (func_table : List func_info) :
    create_func_table (.node a d left right) func_table =
      if keyword (.node a d left right) ≠ some AST_STMT then
        (.syntax_error (.node a d left right), func_table)
      else
        match (match left with
               | .nullptr => (Status.success, func_table)
               | .node _ _ _ _ => create_func_table left func_table) with
        | (.success, func_table1) =>
          match right with
          | .nullptr => (.fault .assert_failed, func_table1)
          | .node _ (.keyword AST_DEFINE) _ _ => declare_function right func_table1
          | .node _ _ _ _ => (.success, func_table1)
        | r => r := by
  cases left <;> rfl

/-- After a successful `create_func_table`, the table extends the one it
started from, and every definition of the chain is found under its name, with
its number of formal parameters. -/
theorem create_func_table_success (tree : ast_node) :
    ∀ ft0 ft1, create_func_table tree ft0 = (.success, ft1) →
      (∃ more, ft1 = ft0 ++ more) ∧
      ∀ define ∈ chain_items tree, keyword define = some AST_DEFINE →
        ∃ ident func, ast_ident define.left.left = some ident ∧
          find_function_loop ident ft1 = some func ∧ func.node = define.left ∧
          func.n_params = count_params define.left.right := by
  induction tree with
  | nullptr => intro ft0 ft1 h; simp [create_func_table] at h
  | node a d left right ihl _ =>
    intro ft0 ft1 h
    rw [create_func_table_node] at h
    split at h
    · simp at h
    · generalize hL : (match left with
        | .nullptr => (Status.success, ft0)
        | .node _ _ _ _ => create_func_table left ft0) = L at h
      obtain ⟨s, ft'⟩ := L
      have hs : s = .success := by
        cases s <;> simp at h ⊢
      subst hs
      have hl : (∃ more, ft' = ft0 ++ more) ∧
          ∀ define ∈ chain_items left, keyword define = some AST_DEFINE →
            ∃ ident func, ast_ident define.left.left = some ident ∧
              find_function_loop ident ft' = some func ∧ func.node = define.left ∧
              func.n_params = count_params define.left.right := by
        cases left with
        | nullptr =>
          simp only [Prod.mk.injEq, true_and] at hL
          subst hL
          exact ⟨⟨[], by simp⟩, by simp [chain_items]⟩
        | node la ld ll lr => exact ihl _ _ hL
      obtain ⟨⟨m1, rfl⟩, hdefs⟩ := hl
      simp only at h
      cases right with
      | nullptr => simp at h
      | node ra rd rl rr =>
        by_cases hd : rd = .keyword AST_DEFINE
        · subst hd
          simp only at h
          obtain ⟨ident, hid, hnone, rfl⟩ := declare_function_success h
          refine ⟨⟨m1 ++ [{ node := rl, ident := ident, n_params := count_params rl.right }],
            by simp [ast_node.left]⟩, ?_⟩
          intro define hmem hk
          simp only [chain_items, List.mem_append, List.mem_singleton] at hmem
          rcases hmem with hmem | rfl
          · obtain ⟨i, f, h1, h2, h3, h4⟩ := hdefs define hmem hk
            exact ⟨i, f, h1, find_function_loop_append_of_some _ h2, h3, h4⟩
          · exact ⟨ident, { node := rl, ident := ident, n_params := count_params rl.right }, hid,
              by rw [find_function_loop_append_of_none _ hnone]; simp [ast_node.left], rfl, rfl⟩
        · have h' : (Status.success, ft0 ++ m1) = (Status.success, ft1) := by
            cases rd with
            | number v => exact h
            | ident s => exact h
            | keyword k =>
              cases k <;> first | exact h | exact absurd rfl hd
          simp only [Prod.mk.injEq, true_and] at h'
          subst h'
          refine ⟨⟨m1, rfl⟩, ?_⟩
          intro define hmem hk
          simp only [chain_items, List.mem_append, List.mem_singleton] at hmem
          rcases hmem with hmem | rfl
          · exact hdefs define hmem hk
          · cases rd with
            | number v => simp [keyword] at hk
            | ident s => simp [keyword] at hk
            | keyword k =>
              simp only [keyword, Option.some.injEq] at hk
              subst hk
              exact absurd rfl hd

theorem find_function_of_loop {callee : ast_node} {ident : String} {ft : List func_info}
    {func : func_info} (hc : ast_ident callee = some ident)
    (h : find_function_loop ident ft = some func) : find_function callee ft = .found func := by
  cases callee with
  | nullptr => simp [ast_ident] at hc
  | node a d l r =>
    cases d with
    | number v => simp [ast_ident] at hc
    | keyword k => simp [ast_ident] at hc
    | ident s =>
      simp only [ast_ident, Option.some.injEq] at hc
      subst hc
      simp [find_function, h]

/-- Counterexample to claim C3.  In the program
`f() { return g(); }  f() { return 1; }  g() { return 2; }` the function `g` is
defined in the top-level chain and called with matching arity (none) in the
body of the first `f`.  The declaration pass stops with a syntax error at the
second definition of `f`, so the function table holds `f` alone; the call of
`g` is not resolved, `compile_call` returns a syntax error at the call, and
`compile_tree` returns `EXIT_FAILURE`. -/
theorem forward_call_unresolved_after_duplicate :
    keyword sample_duplicate_forward_program.right = some AST_DEFINE ∧
    sample_duplicate_forward_program.right ∈ chain_items sample_duplicate_forward_program ∧
    ast_ident sample_duplicate_forward_program.right.left.left = some "g" ∧
    count_params sample_duplicate_forward_program.right.left.right = count_params .nullptr ∧
    create_func_table sample_duplicate_forward_program [] =
      (.syntax_error sample_duplicate_forward_program.left.right,
        [{ node := sample_duplicate_forward_program.left.left.right.left, ident := "f",
           n_params := 0 }]) ∧
    find_function (mk_ident 23 "g") (create_func_table sample_duplicate_forward_program []).2 =
      .nullptr ∧
    (compile_call (mk_keyword 22 AST_CALL (mk_ident 23 "g") .nullptr)
        { fresh_state with func := (create_func_table sample_duplicate_forward_program []).2 }).1 =
      .syntax_error (mk_keyword 22 AST_CALL (mk_ident 23 "g") .nullptr) ∧
    compile_tree sample_duplicate_forward_program =
      (.EXIT_FAILURE,
        [.cmd .PUSH (some (.number 0)), .cmd .PUSH (some (.reg .bx)), .cmd .ADD none,
         .cmd .POP (some (.reg .bx)), .cmd .CALL (some (.name "main")), .cmd .HLT none,
         .label (.name "f")]) := by
  decide

/-- Claim C3, amended: for every program on which the declaration pass
succeeds.  When the declaration pass
succeeds on a program, every function definition of the top-level chain,
wherever it stands, is registered under its name with its number of formal
parameters, so that a call of that name with as many arguments, in any state
that carries this function table, is resolved by `compile_call` and succeeds
when its arguments compile; and the program in which `f` calls `g`, defined
after `f` and calling itself, compiles with `EXIT_SUCCESS`. -/
theorem forward_calls_resolve :
    (∀ tree ft, create_func_table tree [] = (.success, ft) →
      ∀ define ∈ chain_items tree, keyword define = some AST_DEFINE →
        ∃ ident func, ast_ident define.left.left = some ident ∧
          func.n_params = count_params define.left.right ∧
          ∀ root st loc, keyword root = some AST_CALL → ast_ident root.left = some ident →
            count_params root.right = count_params define.left.right →
            st.func = ft → st.local_table = some loc →
            find_function root.left st.func = .found func ∧
            ((∀ i arg pre, (chain_items root.right)[i]? = some arg →
              (compile_expr arg ((st.set_local (add_params i loc)).write pre)).1 = .success) →
              (compile_call root st).1 = .success)) ∧
    (compile_tree sample_forward_program).1 = .EXIT_SUCCESS := by
  refine ⟨?_, by decide⟩
  intro tree ft h define hmem hk
  obtain ⟨ident, func, hid, hfound, -, hn⟩ := (create_func_table_success tree [] ft h).2 define hmem hk
  refine ⟨ident, func, hid, hn, ?_⟩
  intro root st loc hkw hcallee hcount hft hloc
  have hfind : find_function root.left st.func = .found func := by
    rw [hft]; exact find_function_of_loop hcallee hfound
  exact ⟨hfind, fun hargs => compile_call_succeeds root st func loc hkw hfind hloc
    (by rw [hn, hcount]) hargs⟩

/-- Claim C3, amended, at the definition of `g` in the program where `f`,
defined first, calls `g`. -/
theorem forward_calls_resolve_witness :
    ∃ ident func, ast_ident sample_forward_program.right.left.left = some ident ∧
      func.n_params = count_params sample_forward_program.right.left.right ∧
      ∀ root st loc, keyword root = some AST_CALL → ast_ident root.left = some ident →
        count_params root.right = count_params sample_forward_program.right.left.right →
        st.func = (create_func_table sample_forward_program []).2 → st.local_table = some loc →
        find_function root.left st.func = .found func ∧
        ((∀ i arg pre, (chain_items root.right)[i]? = some arg →
          (compile_expr arg ((st.set_local (add_params i loc)).write pre)).1 = .success) →
          (compile_call root st).1 = .success) :=
  forward_calls_resolve.1 sample_forward_program (create_func_table sample_forward_program []).2
    rfl sample_forward_program.right (by decide) rfl

theorem declare_variable_step (vnode : ast_node) (st : State) :
    Step st (declare_variable vnode st).2 := by
  unfold declare_variable
  split
  · exact Step.refl _
  · exact Step.refl _
  · split
    · exact Step.refl _
    · split
      · exact (Step.set_local _ _).trans (find_variable_step _ _ _)
      · exact Step.refl _

theorem get_variable_found_step (vnode : ast_node) (var : var_info) (text : Arg) (st : State) :
    Step st (get_variable_found vnode var text st).2 := by
  have hs := compile_shift_step vnode st
  unfold get_variable_found
  split <;> rename_i heq <;> rw [heq] at hs
  · split <;> exact hs
  · exact hs
  · exact hs

theorem get_variable_step (vnode : ast_node) (st : State) :
    Step st (get_variable vnode st).2 := by
  unfold get_variable
  split
  · split
    · exact get_variable_found_step _ _ _ _
    · split
      · exact Step.refl _
      · split
        · exact get_variable_found_step _ _ _ _
        · exact declare_variable_step _ _
  · exact Step.refl _

theorem create_variable_step (vnode : ast_node) (st : State) :
    Step st (create_variable vnode st).2 := by
  have hs := find_variable_step vnode st true
  unfold create_variable
  split
  · exact Step.refl _
  · split <;> rename_i heq <;> rw [heq] at hs
    · exact hs
    · exact hs
    · exact hs.trans (declare_variable_step _ _)

theorem compile_assign_step (root : ast_node) (st : State) :
    Step st (compile_assign root st).2 := by
  unfold compile_assign
  split
  · exact Step.refl _
  · split
    · exact Step.refl _
    · refine step_on_success (compile_expr_step _ _) (fun s => ?_)
      split
      · exact Step.refl _
      · exact step_on_found (get_variable_step _ _) (fun a s2 => Step.write _ _)

theorem compile_return_step (root : ast_node) (st : State) :
    Step st (compile_return root st).2 := by
  unfold compile_return
  split
  · exact Step.refl _
  · split
    · exact Step.refl _
    · split
      · exact Step.refl _
      · exact step_on_success (compile_expr_step _ _)
          (fun s => (Step.write _ _).trans (Step.write _ _))

theorem compile_show_step (root : ast_node) (st : State) :
    Step st (compile_show root st).2 := by
  unfold compile_show
  split
  · exact Step.refl _
  · split
    · exact Step.refl _
    · refine step_on_found (find_variable_step _ _ _) (fun a s => ?_)
      rename_i x1 x2 left right h
      have hs := compile_expr_step right (CMD .PUSH (some a) s)
      split <;> rename_i heq <;> rw [heq] at hs
      · exact (Step.write _ _).trans hs
      · exact ((Step.write _ _).trans hs).write_right _

/-- The body of `compile_stmt` on a node. -/
theorem compile_stmt_node (a : Nat) (d : node_data) (left right : ast_node) (st : State) :
    compile_stmt (.node a d left right) st =
      if keyword (.node a d left right) ≠ some AST_STMT then
        (.syntax_error (.node a d left right), st)
      else
        on_success (if_present left (compile_stmt left) st) fun st1 =>
          match right with
          | .nullptr => (.syntax_error (.node a d left right), st1)
          | .node _ (.keyword AST_ASSIGN) _ _ => compile_assign right st1
          | .node _ (.keyword AST_IF) _ _ => compile_if right st1
          | .node _ (.keyword AST_WHILE) _ _ => compile_while right st1
          | .node _ (.keyword AST_SHOW) _ _ => compile_show right st1
          | .node _ (.keyword AST_CALL) _ _ =>
            on_success (compile_call right st1) fun st2 => (.success, CMD .POP none st2)
          | .node _ (.keyword AST_OUT) _ rr =>
            on_success (compile_expr rr st1) fun st2 => (.success, CMD .OUT none st2)
          | .node _ (.keyword AST_RETURN) _ _ => compile_return right st1
          | .node _ (.keyword _) _ _ => (.syntax_error (.node a d left right), st1)
          | .node _ _ _ _ => (.fault .assert_failed, st1) := by
  rfl

/-- The body of `compile_if` on a node. -/
theorem compile_if_node (a : Nat) (d : node_data) (left decision : ast_node) (st : State) :
    compile_if (.node a d left decision) st =
      if keyword (.node a d left decision) ≠ some AST_IF then
        (.syntax_error (.node a d left decision), st)
      else
        on_success (compile_expr left (WRITE st "; IF")) fun st1 =>
          let st2 := CMD .JE (some (.id "if_fail" a)) (CMD .PUSH (some (.number 0)) st1)
          match decision with
          | .nullptr => (.syntax_error (.node a d left decision), st2)
          | .node _ _ .nullptr _ => (.syntax_error (.node a d left decision), st2)
          | .node _ _ (.node ta td tl tr) dright =>
            on_success (compile_stmt (.node ta td tl tr) st2) fun st3 =>
              match dright with
              | .nullptr => (.success, LABEL st3 (.id "if_fail" a))
              | .node ea ed el er =>
                on_success (compile_stmt (.node ea ed el er)
                    (LABEL (CMD .JMP (some (.id "if_end" a)) st3) (.id "if_fail" a)))
                  fun st4 => (.success, LABEL st4 (.id "if_end" a)) := by
  cases decision with
  | nullptr => rfl
  | node da dd dl dr => cases dl <;> cases dr <;> rfl

/-- The body of `compile_while` on a node. -/
theorem compile_while_node (a : Nat) (d : node_data) (left right : ast_node) (st : State) :
    compile_while (.node a d left right) st =
      if keyword (.node a d left right) ≠ some AST_WHILE then
        (.syntax_error (.node a d left right), st)
      else
        match st.local_table with
        | none => (.fault .null_deref, WRITE st "; WHILE")
        | some _ =>
          let st1 := LABEL (WRITE st "; WHILE") (.id "while" a)
          match left with
          | .nullptr => (.syntax_error (.node a d left right), st1)
          | .node _ _ _ _ =>
            on_success (compile_expr left st1) fun st2 =>
            on_success (compile_stmt right
                (CMD .JE (some (.id "while_end" a)) (CMD .PUSH (some (.number 0)) st2)))
              fun st3 =>
                (.success, LABEL (CMD .JMP (some (.id "while" a)) st3) (.id "while_end" a)) := by
  rfl

theorem compile_stmt_if_while_step (n : ast_node) :
    ((∀ st, Step st (compile_stmt n st).2) ∧ (∀ st, Step st (compile_if n st).2) ∧
      (∀ st, Step st (compile_while n st).2)) ∧
    (∀ st, Step st (compile_stmt n.left st).2) ∧ (∀ st, Step st (compile_stmt n.right st).2) := by
  induction n with
  | nullptr =>
    exact ⟨⟨fun st => Step.refl _, fun st => Step.refl _, fun st => Step.refl _⟩,
      fun st => Step.refl _, fun st => Step.refl _⟩
  | node a d left right ihl ihr =>
    refine ⟨⟨?_, ?_, ?_⟩, ihl.1.1, ihr.1.1⟩
    · intro st
      rw [compile_stmt_node]
      split
      · exact Step.refl _
      · refine step_on_success (step_if_present ihl.1.1 st) (fun s1 => ?_)
        split
        · exact Step.refl _
        · exact compile_assign_step _ _
        · exact ihr.1.2.1 _
        · exact ihr.1.2.2 _
        · exact compile_show_step _ _
        · exact step_on_success (compile_call_step _ _) (fun s => Step.write _ _)
        · exact step_on_success (compile_expr_step _ _) (fun s => Step.write _ _)
        · exact compile_return_step _ _
        · exact Step.refl _
        · exact Step.refl _
    · intro st
      rw [compile_if_node]
      simp only [CMD_eq_write, LABEL_eq_write, WRITE_eq_write, State.write_write]
      split
      · exact Step.refl _
      · refine step_on_success ((Step.write _ _).trans (compile_expr_step _ _)) (fun s1 => ?_)
        split
        · exact Step.write _ _
        · exact Step.write _ _
        · refine step_on_success ((Step.write _ _).trans (ihr.2.1 _)) (fun s3 => ?_)
          split
          · exact Step.write _ _
          · exact step_on_success ((Step.write _ _).trans (ihr.2.2 _))
              (fun s4 => Step.write _ _)
    · intro st
      rw [compile_while_node]
      simp only [CMD_eq_write, LABEL_eq_write, WRITE_eq_write, State.write_write]
      split
      · exact Step.refl _
      · split
        · exact Step.write _ _
        · split
          · exact Step.write _ _
          · refine step_on_success ((Step.write _ _).trans (compile_expr_step _ _))
              (fun s2 => ?_)
            exact step_on_success ((Step.write _ _).trans (ihr.1.1 _))
              (fun s3 => Step.write _ _)

theorem compile_stmt_step (n : ast_node) (st : State) : Step st (compile_stmt n st).2 :=
  (compile_stmt_if_while_step n).1.1 st

theorem compile_if_step (n : ast_node) (st : State) : Step st (compile_if n st).2 :=
  (compile_stmt_if_while_step n).1.2.1 st

theorem compile_while_step (n : ast_node) (st : State) : Step st (compile_while n st).2 :=
  (compile_stmt_if_while_step n).1.2.2 st

/-- The body of `create_local_table` on a node. -/
theorem create_local_table_node (a : Nat) (d : node_data) (left right : ast_node) (st : State) :
    create_local_table (.node a d left right) st =
      if keyword (.node a d left right) ≠ some AST_PARAM then
        (.syntax_error (.node a d left right), st)
      else
        on_success (if_present left (create_local_table left) st) fun st1 =>
          if not_ident right then (.syntax_error (.node a d left right), st1)
          else
            on_found (create_variable right st1) (.node a d left right) fun _ st2 =>
              (.success, st2) := by
  rfl

theorem create_local_table_step (n : ast_node) :
    ∀ st, Step st (create_local_table n st).2 := by
  induction n with
  | nullptr => exact fun st => Step.refl _
  | node a d left right ihl _ =>
    intro st
    rw [create_local_table_node]
    split
    · exact Step.refl _
    · refine step_on_success (step_if_present ihl st) (fun s1 => ?_)
      split
      · exact Step.refl _
      · exact step_on_found (create_variable_step _ _) (fun _ s2 => Step.refl _)

theorem compile_define_body_step (root define : ast_node) (st : State) :
    Step st (compile_define_body root define st).2 := by
  unfold compile_define_body
  split
  · exact Step.refl _
  · split
    · exact Step.refl _
    · refine step_on_success (step_if_present (create_local_table_step _) st) (fun s1 => ?_)
      split
      · exact Step.refl _
      · rename_i ident _ _ _ _
        have hs := compile_stmt_step define.right (LABEL s1 (.name ident))
        split <;> rename_i heq <;> rw [heq] at hs
        · exact (Step.write _ _).trans hs
        · exact ((Step.write _ _).trans hs).trans
            (Step.set_local_scope _ .null (by simp))
      · exact Step.refl _

/-- The body of `compile_define` on a node. -/
theorem compile_define_node (a : Nat) (d : node_data) (left right : ast_node) (st : State) :
    compile_define (.node a d left right) st =
      on_success (if_present left (compile_define left) st) fun st1 =>
        match right with
        | .nullptr => (.fault .assert_failed, st1)
        | .node _ (.keyword AST_DEFINE) _ .nullptr =>
          (.syntax_error (.node a d left right), st1)
        | .node _ (.keyword AST_DEFINE) _ (.node _ _ _ _) =>
          compile_define_body (.node a d left right) right
            { st1 with local_scope := .own { entries := [], shift := 0 } }
        | .node _ _ _ _ => (.success, st1) := by
  rfl

theorem compile_define_step (n : ast_node) : ∀ st, Step st (compile_define n st).2 := by
  induction n with
  | nullptr => exact fun st => Step.refl _
  | node a d left right ihl _ =>
    intro st
    rw [compile_define_node]
    refine step_on_success (step_if_present ihl st) (fun s1 => ?_)
    split
    · exact Step.refl _
    · exact Step.refl _
    · exact (Step.set_local_scope _ (.own { entries := [], shift := 0 }) (by simp)).trans
        (compile_define_body_step _ _ _)
    · exact Step.refl _

/-- The body of `create_global_table` on a node. -/
theorem create_global_table_node (a : Nat) (d : node_data) (left right : ast_node)
    (st : State) :
    create_global_table (.node a d left right) st =
      if keyword (.node a d left right) ≠ some AST_STMT then
        (.syntax_error (.node a d left right), st)
      else
        on_success (if_present left (create_global_table left) st) fun st1 =>
          match right with
          | .nullptr => (.fault .assert_failed, st1)
          | .node _ (.keyword AST_ASSIGN) _ _ => compile_assign right st1
          | .node _ _ _ _ => (.success, st1) := by
  rfl

theorem create_global_table_step (n : ast_node) :
    ∀ st, Step st (create_global_table n st).2 := by
  induction n with
  | nullptr => exact fun st => Step.refl _
  | node a d left right ihl _ =>
    intro st
    rw [create_global_table_node]
    split
    · exact Step.refl _
    · refine step_on_success (step_if_present ihl st) (fun s1 => ?_)
      split
      · exact Step.refl _
      · exact compile_assign_step _ _
      · exact Step.refl _

/-! ## The driver -/

/-- C4 (duplicate functions).  On the program with two definitions of `main`
the declaration pass returns the syntax error at the second definition, and
`compile_tree` nevertheless returns `EXIT_SUCCESS`, having written the
preamble and both bodies under the label `main`. -/
theorem duplicate_functions_not_rejected :
    (create_func_table sample_duplicate_program []).1 =
        .syntax_error sample_duplicate_program.right ∧
      compile_tree sample_duplicate_program =
        (.EXIT_SUCCESS,
          preamble 0 ++
            [.label (.name "main"), .cmd .PUSH (some (.number 1)),
             .cmd .POP (some (.reg RETURN_REG)), .cmd .RET none,
             .label (.name "main"), .cmd .PUSH (some (.number 2)),
             .cmd .POP (some (.reg RETURN_REG)), .cmd .RET none]) := by
  decide

/-- C5 (failure of a pass).  On the program `x = y;`, whose initialiser reads
the unbound `y`, the global pass returns the syntax error at the assignment,
and `compile_tree` nevertheless returns `EXIT_SUCCESS`. -/
theorem global_pass_failure_not_reported :
    (create_global_table sample_unresolved_program
        (initial_state (create_func_table sample_unresolved_program []).2)).1 =
        .syntax_error sample_unresolved_program.right.right ∧
      (compile_tree sample_unresolved_program).1 = .EXIT_SUCCESS := by
  decide

theorem compile_define_global (n : ast_node) :
    ∀ st, (compile_define n st).2.global_scope = st.global_scope := by
  induction n with
  | nullptr => exact fun st => rfl
  | node a d left right ihl _ =>
    intro st
    rw [compile_define_node]
    have h1 : (if_present left (compile_define left) st).2.global_scope = st.global_scope := by
      cases left with
      | nullptr => rfl
      | node la ld ll lr => exact ihl st
    generalize if_present left (compile_define left) st = r at h1
    obtain ⟨s, s1⟩ := r
    cases s
    · simp only [on_success]
      simp only at h1
      split
      · exact h1
      · exact h1
      · rw [← h1]
        exact ((compile_define_body_step _ _ _).global (by simp)).2
      · exact h1
    · exact h1
    · exact h1

/-- The value `compile_tree` computes, over the three passes. -/
theorem compile_tree_eq (tree : ast_node)
    (h : (compile_tree tree).1 = .EXIT_SUCCESS ∨ (compile_tree tree).1 = .EXIT_FAILURE) :
    (compile_tree tree).2 = (define_pass tree).2.file ∧
      ((compile_tree tree).1 = .EXIT_SUCCESS ↔ (define_pass tree).1 = .success) := by
  cases tree with
  | nullptr => simp [compile_tree] at h
  | node a d l r =>
    simp only [compile_tree, define_pass, global_pass] at h ⊢
    rcases hR0 : create_func_table (.node a d l r) [] with ⟨s0, ft⟩
    rcases hR1 : create_global_table (.node a d l r) (initial_state ft) with ⟨s1, st1⟩
    rcases hR2 : compile_define (.node a d l r)
      (st1.write (preamble st1.global_scope.shift)) with ⟨s2, st3⟩
    cases hD : dump_func_table ft <;> cases s0 <;> cases s1 <;> cases s2 <;> simp_all

/-- The layout of the output.  Whenever `compile_tree` returns, its output is
the lines written by the global pass, followed by `PUSH G; PUSH bx; ADD;
POP bx; CALL main; HLT` with the frame size `G` of the global scope table as
`number_str` writes it, followed by the lines `defs` that `compile_define`
appends; `compile_define` leaves the global scope table as the global pass
made it; and the value returned is `EXIT_SUCCESS` exactly when `compile_define`
succeeds, with no regard to a function named `main`: the sample program, which
registers no `main`, compiles with `EXIT_SUCCESS` and the line `CALL main`. -/
theorem compile_tree_layout :
    (∀ tree, ((compile_tree tree).1 = .EXIT_SUCCESS ∨ (compile_tree tree).1 = .EXIT_FAILURE) →
      ∃ defs,
        (compile_tree tree).2 =
          (global_pass tree).file ++
            [.cmd .PUSH (some (number_str (.of_int (global_pass tree).global_scope.shift))),
             .cmd .PUSH (some (.reg .bx)), .cmd .ADD none, .cmd .POP (some (.reg .bx)),
             .cmd .CALL (some (.name "main")), .cmd .HLT none] ++ defs ∧
        (define_pass tree).2.file =
          ((global_pass tree).write (preamble (global_pass tree).global_scope.shift)).file ++
            defs ∧
        (define_pass tree).2.global_scope = (global_pass tree).global_scope ∧
        ((compile_tree tree).1 = .EXIT_SUCCESS ↔ (define_pass tree).1 = .success)) ∧
    ((∀ f ∈ (create_func_table sample_forward_program []).2, f.ident ≠ "main") ∧
      (compile_tree sample_forward_program).1 = .EXIT_SUCCESS ∧
      .cmd .CALL (some (.name "main")) ∈ (compile_tree sample_forward_program).2) := by
  refine ⟨fun tree h => ?_, by decide⟩
  obtain ⟨hcode, hstatus⟩ := compile_tree_eq tree h
  obtain ⟨defs, hdefs⟩ := (compile_define_step tree
    ((global_pass tree).write (preamble (global_pass tree).global_scope.shift))).file
  refine ⟨defs, ?_, hdefs.symm, ?_, hstatus⟩
  · rw [hcode]
    exact hdefs.symm
  · exact compile_define_global tree _

/-- The layout of the output of the sample program. -/
theorem compile_tree_layout_witness :
    ∃ defs,
      (compile_tree sample_forward_program).2 =
        (global_pass sample_forward_program).file ++
          [.cmd .PUSH (some (.number (global_pass sample_forward_program).global_scope.shift)),
           .cmd .PUSH (some (.reg .bx)), .cmd .ADD none, .cmd .POP (some (.reg .bx)),
           .cmd .CALL (some (.name "main")), .cmd .HLT none] ++ defs ∧
      (define_pass sample_forward_program).2.file =
        ((global_pass sample_forward_program).write
          (preamble (global_pass sample_forward_program).global_scope.shift)).file ++ defs ∧
      (define_pass sample_forward_program).2.global_scope =
        (global_pass sample_forward_program).global_scope ∧
      ((compile_tree sample_forward_program).1 = .EXIT_SUCCESS ↔
        (define_pass sample_forward_program).1 = .success) :=
  compile_tree_layout.1 sample_forward_program (Or.inl (by decide))

/-- Claim C6, which the code does not meet.  In
`a[500000] = 0; b[500001] = 0;  main() { return 0; }` the global scope table
has the frame size `G = 1000001` after the global pass, and the output is the
code of the two initialisers, then `PUSH 1e+06; PUSH bx; ADD; POP bx;
CALL main; HLT`, then the code of `main`: the preamble pushes the text that
`number_str` writes for 1000001, which is `1e+06` and not `G`. -/
theorem preamble_frame_size_rounded :
    (global_pass sample_large_global_program).global_scope.shift = 1000001 ∧
    compile_tree sample_large_global_program =
      (.EXIT_SUCCESS,
        [.cmd .PUSH (some (.number 0)), .cmd .PUSH (some (.number 500000)),
         .cmd .POP (some (.reg .hx)), .cmd .POP (some (.memory .cx 0 .hx)),
         .cmd .PUSH (some (.number 0)), .cmd .PUSH (some (.number 500001)),
         .cmd .POP (some (.reg .hx)), .cmd .POP (some (.memory .cx 500000 .hx)),
         .cmd .PUSH (some (.decimal false 1 6)), .cmd .PUSH (some (.reg .bx)), .cmd .ADD none,
         .cmd .POP (some (.reg .bx)), .cmd .CALL (some (.name "main")), .cmd .HLT none,
         .label (.name "main"),
         .cmd .PUSH (some (.number 0)), .cmd .POP (some (.reg .ax)), .cmd .RET none]) ∧
    number_str (.of_int 1000001) = .decimal false 1 6 ∧
    number_str (.of_int 1000001) ≠ .number 1000001 := by
  decide

/-- C7 (round trip).  The program `main() { x = 3; y = 4; return x + y; }`
leaves the global scope empty and compiles with `EXIT_SUCCESS`; after the
preamble its output is the label `main` followed by exactly: push 3, store to
`x`; push 4, store to `y`; push `x`; push `y`; `ADD`; `POP ax`; `RET`, where
every access to a variable loads the shift register with zero and then uses the
operand `[bx + 0 + hx]` for `x` and `[bx + 1 + hx]` for `y`. -/
theorem round_trip_main :
    (global_pass sample_main_program).global_scope = { entries := [], shift := 0 } ∧
    compile_tree sample_main_program =
      (.EXIT_SUCCESS,
        preamble 0 ++
          [.label (.name "main"),
           .cmd .PUSH (some (.number 3)),
           .cmd .PUSH (some (.number 0)), .cmd .POP (some (.reg .hx)),
           .cmd .POP (some (.memory .bx 0 .hx)),
           .cmd .PUSH (some (.number 4)),
           .cmd .PUSH (some (.number 0)), .cmd .POP (some (.reg .hx)),
           .cmd .POP (some (.memory .bx 1 .hx)),
           .cmd .PUSH (some (.number 0)), .cmd .POP (some (.reg .hx)),
           .cmd .PUSH (some (.memory .bx 0 .hx)),
           .cmd .PUSH (some (.number 0)), .cmd .POP (some (.reg .hx)),
           .cmd .PUSH (some (.memory .bx 1 .hx)),
           .cmd .ADD none,
           .cmd .POP (some (.reg .ax)),
           .cmd .RET none]) := by
  decide

/-! ## References to variables -/

/-- C8 (index-shape mismatch).  In `main() { a[5] = 1; a = 2; x = 3; return
a + x[2]; }` the array `a`, declared with an index, is then written and read
without one, and the scalar `x` is read with one; no reference is rejected:
`compile_tree` returns `EXIT_SUCCESS`, having addressed `a` as `[bx + 0 + hx]`
with a zero shift and `x[2]` as `[bx + 5 + hx]` with the shift 2. -/
theorem shape_mismatch_not_rejected :
    compile_tree sample_shape_program =
      (.EXIT_SUCCESS,
        preamble 0 ++
          [.label (.name "main"),
           .cmd .PUSH (some (.number 1)),
           .cmd .PUSH (some (.number 5)), .cmd .POP (some (.reg .hx)),
           .cmd .POP (some (.memory .bx 0 .hx)),
           .cmd .PUSH (some (.number 2)),
           .cmd .PUSH (some (.number 0)), .cmd .POP (some (.reg .hx)),
           .cmd .POP (some (.memory .bx 0 .hx)),
           .cmd .PUSH (some (.number 3)),
           .cmd .PUSH (some (.number 0)), .cmd .POP (some (.reg .hx)),
           .cmd .POP (some (.memory .bx 5 .hx)),
           .cmd .PUSH (some (.number 0)), .cmd .POP (some (.reg .hx)),
           .cmd .PUSH (some (.memory .bx 0 .hx)),
           .cmd .PUSH (some (.number 2)), .cmd .POP (some (.reg .hx)),
           .cmd .PUSH (some (.memory .bx 5 .hx)),
           .cmd .ADD none,
           .cmd .POP (some (.reg .ax)),
           .cmd .RET none]) := by
  decide

/-- C9 (identifier reference lowering).  For an identifier node whose name
resolves to the entry `var`, in the global scope table (`base = cx`) or else in
the local one (`base = bx`), `compile_expr` writes the code of the index
expression when there is one and `PUSH 0` otherwise, then `POP hx`, then
`PUSH [base + var.shift + hx]`, and nothing else. -/
theorem identifier_reference_lowering (a : Nat) (name : String) (l r : ast_node) (st : State)
    (var : var_info) (base : Reg) (code : List Line)
    (hres : (scope_table_find st.global_scope name = some var ∧ base = GLOBAL_REG) ∨
      (scope_table_find st.global_scope name = none ∧ base = LOCAL_REG ∧
        ∃ loc, st.local_table = some loc ∧ scope_table_find loc name = some var))
    (hidx : (r = .nullptr ∧ code = [.cmd .PUSH (some (.number 0))]) ∨
      (r ≠ .nullptr ∧ compile_expr r st = (.success, st.write code))) :
    compile_expr (.node a (.ident name) l r) st =
      (.success, st.write (code ++
        [.cmd .POP (some (.reg SHIFT_REG)), .cmd .PUSH (some (.memory base var.shift SHIFT_REG))])) := by
  have hshift : compile_shift_body (compile_expr r) (.node a (.ident name) l r) st =
      (.success, st.write (code ++ [.cmd .POP (some (.reg SHIFT_REG))])) := by
    rcases hidx with ⟨rfl, rfl⟩ | ⟨hne, hc⟩
    · simp [compile_shift_body]
    · cases r with
      | nullptr => exact absurd rfl hne
      | node ra rd rl rr => simp [compile_shift_body, hc, on_success]
  have hlook : lookup_variable name true (st.write (code ++ [.cmd .POP (some (.reg SHIFT_REG))])) =
      (.found (.memory base var.shift SHIFT_REG),
        st.write (code ++ [.cmd .POP (some (.reg SHIFT_REG))])) := by
    rcases hres with ⟨hg, rfl⟩ | ⟨hg, rfl, loc, hl, hf⟩
    · simp [lookup_variable, hg, global_variable]
    · simp [lookup_variable, hg, hl, hf, local_variable]
  rw [compile_expr_node]
  simp [keyword, find_variable, find_variable_body, ast_node.right, hshift, ast_ident, hlook]

/-- C9 at the scalar `q`, the local at offset 0 of the sample state. -/
theorem identifier_reference_lowering_witness :
    compile_expr (.node 80 (.ident "q") .nullptr .nullptr) sample_state =
      (.success, sample_state.write ([.cmd .PUSH (some (.number 0))] ++
        [.cmd .POP (some (.reg SHIFT_REG)), .cmd .PUSH (some (.memory LOCAL_REG 0 SHIFT_REG))])) :=
  identifier_reference_lowering 80 "q" .nullptr .nullptr sample_state
    { ident := some "q", node := mk_ident 40 "q", shift := 0 } LOCAL_REG
    [.cmd .PUSH (some (.number 0))]
    (Or.inr ⟨by decide, rfl, sample_scope, rfl, by decide⟩) (Or.inl ⟨rfl, rfl⟩)

/-! ## The evaluation stack -/

theorem net_effect_append (a b : List Line) :
    net_effect (a ++ b) = net_effect a + net_effect b := by
  induction a with
  | nil => simp [net_effect]
  | cons x xs ih => simp [net_effect, ih]; omega

theorem never_below_append (d : Int) (a b : List Line) :
    never_below d (a ++ b) = (never_below d a && never_below (d + net_effect a) b) := by
  induction a generalizing d with
  | nil => simp [never_below, net_effect]
  | cons x xs ih =>
    have e : d + stack_effect x + net_effect xs = d + (stack_effect x + net_effect xs) := by
      omega
    show (decide (0 ≤ d + stack_effect x) && never_below (d + stack_effect x) (xs ++ b)) = _
    rw [ih, e]
    simp [never_below, net_effect, Bool.and_assoc]

theorem never_below_mono {d e : Int} (h : d ≤ e) (code : List Line)
    (hc : never_below d code = true) : never_below e code = true := by
  induction code generalizing d e with
  | nil => rfl
  | cons x xs ih =>
    simp only [never_below, Bool.and_eq_true, decide_eq_true_eq] at hc ⊢
    exact ⟨by omega, ih (by omega) hc.2⟩

theorem binary_operator_cmd {k : Keyword} (h : binary_keyword k = true) :
    ∃ op, operator_cmd k = some op ∧ stack_effect (.cmd op none) = -1 := by
  cases k <;> simp [binary_keyword] at h <;> exact ⟨_, rfl, rfl⟩

theorem unary_operator_cmd {k : Keyword} (h : unary_keyword k = true) :
    ∃ op, operator_cmd k = some op ∧ stack_effect (.cmd op none) = 0 := by
  cases k <;> simp [unary_keyword] at h <;> exact ⟨_, rfl, rfl⟩

theorem call_sequence_effect (shift : Int) (ident : String) :
    net_effect (call_sequence shift ident) = 1 ∧
      never_below 0 (call_sequence shift ident) = true := by
  constructor <;> simp [call_sequence, net_effect, never_below, stack_effect]

/-- What a successful `find_variable` wrote: the code of the index expression,
or `PUSH 0`, and then `POP hx`. -/
theorem find_variable_success {a : Nat} {d : node_data} {l r : ast_node} {st st1 : State}
    {memory : Bool} {text : Arg}
    (h : find_variable (.node a d l r) st memory = (.found text, st1)) :
    (r = .nullptr ∧
      st1 = st.write [.cmd .PUSH (some (.number 0)), .cmd .POP (some (.reg SHIFT_REG))]) ∨
    (r ≠ .nullptr ∧ ∃ s, compile_expr r st = (.success, s) ∧
      st1 = s.write [.cmd .POP (some (.reg SHIFT_REG))]) := by
  simp only [find_variable, find_variable_body, ast_node.right] at h
  split at h
  · simp at h
  · simp at h
  · rename_i s2 hshift
    have hst : st1 = s2 := by
      split at h
      · have := congrArg Prod.snd h
        rw [lookup_variable_state] at this
        exact this.symm
      · simp at h
    subst hst
    cases r with
    | nullptr =>
      left
      simp only [compile_shift_body, Prod.mk.injEq, true_and] at hshift
      exact ⟨rfl, by rw [← hshift]; simp⟩
    | node ra rd rl rr =>
      right
      simp only [compile_shift_body] at hshift
      obtain ⟨s, hs, hs2⟩ := on_success_eq_success.1 hshift
      simp only [Prod.mk.injEq, true_and] at hs2
      exact ⟨by simp, s, hs, by rw [← hs2]; simp⟩

theorem well_formed_expr_node (a : Nat) (d : node_data) (left right : ast_node) :
    well_formed_expr (.node a d left right) =
      match d with
      | .number _ => true
      | .ident _ => (match right with
        | .nullptr => true
        | .node _ _ _ _ => well_formed_expr right)
      | .keyword k =>
        if k = AST_CALL then well_formed_args right
        else if binary_keyword k then well_formed_expr left && well_formed_expr right
        else if unary_keyword k then left.is_null && well_formed_expr right
        else false := by
  cases d <;> cases right <;> rfl

theorem well_formed_args_node (a : Nat) (d : node_data) (left right : ast_node) :
    well_formed_args (.node a d left right) =
      (well_formed_args left && well_formed_expr right) := by
  rfl

/-- The lines of a successful well-formed expression leave one value more on
the evaluation stack, and those of a successful chain of well-formed arguments
leave the depth as it was; neither takes the stack below the initial depth. -/
theorem stack_effect_expr_param (n : ast_node) :
    (∀ st st1, well_formed_expr n = true → compile_expr n st = (.success, st1) →
      ∃ out, st1.file = st.file ++ out ∧ net_effect out = 1 ∧ never_below 0 out = true) ∧
    (∀ st k st1, well_formed_args n = true → compile_param n st k = (.success, st1) →
      ∃ out, st1.file = st.file ++ out ∧ net_effect out = 0 ∧ never_below 0 out = true) := by
  induction n with
  | nullptr =>
    constructor
    · intro st st1 hwf; simp [well_formed_expr] at hwf
    · intro st k st1 _ h; simp [compile_param] at h
  | node a d left right ihl ihr =>
    constructor
    · intro st st1 hwf h
      rw [well_formed_expr_node] at hwf
      cases d with
      | number v =>
        simp only [compile_expr_node, keyword, reduceCtorEq, if_false, CMD_eq_write,
          Prod.mk.injEq, true_and] at h
        subst h
        exact ⟨[.cmd .PUSH (some (number_str v))], rfl, rfl, rfl⟩
      | ident name =>
        simp only [compile_expr_node, keyword, reduceCtorEq, if_false] at h
        split at h
        · rename_i text s2 hf
          simp only [CMD_eq_write, Prod.mk.injEq, true_and] at h
          subst h
          rcases find_variable_success hf with ⟨-, rfl⟩ | ⟨hne, s, hs, rfl⟩
          · exact ⟨[.cmd .PUSH (some (.number 0)), .cmd .POP (some (.reg SHIFT_REG)),
              .cmd .PUSH (some text)], by simp, rfl, rfl⟩
          · have hwr : well_formed_expr right = true := by
              cases right with
              | nullptr => exact absurd rfl hne
              | node _ _ _ _ => exact hwf
            obtain ⟨o, ho, hn, hb⟩ := ihr.1 st s hwr hs
            refine ⟨o ++ [.cmd .POP (some (.reg SHIFT_REG)), .cmd .PUSH (some text)],
              by simp [ho], ?_, ?_⟩
            · rw [net_effect_append, hn]; rfl
            · rw [never_below_append, hb, hn]; rfl
        · simp at h
        · simp at h
      | keyword k =>
        by_cases hcall : k = AST_CALL
        · subst hcall
          simp only [if_true] at hwf
          simp only [compile_expr_node, keyword, if_true] at h
          obtain ⟨loc, func, out, hl, -, -, -, hp, rfl⟩ := compile_call_success h
          simp only [ast_node.right] at hp
          have hout : net_effect out = 0 ∧ never_below 0 out = true := by
            rcases if_present_eq_success.1 hp with ⟨hnull, heq⟩ | ⟨-, hpar⟩
            · subst hnull
              have := congrArg State.file heq
              simp only [State.write_file, State.set_local_file, List.append_right_eq_self] at this
              subst this
              exact ⟨rfl, rfl⟩
            · obtain ⟨o, ho, hn, hb⟩ := ihr.2 st _ _ hwf hpar
              simp only [State.write_file, State.set_local_file, List.append_cancel_left_eq] at ho
              subst ho
              exact ⟨hn, hb⟩
          refine ⟨out ++ call_sequence loc.shift func.ident, rfl, ?_, ?_⟩
          · rw [net_effect_append, hout.1, (call_sequence_effect _ _).1]; rfl
          · rw [never_below_append, hout.2, hout.1]
            simpa using (call_sequence_effect loc.shift func.ident).2
        · simp only [hcall, if_false] at hwf
          simp only [compile_expr_node, keyword, Option.some.injEq, hcall, if_false] at h
          obtain ⟨s1, h1, h2⟩ := on_success_eq_success.1 h
          obtain ⟨s2, h3, h4⟩ := on_success_eq_success.1 h2
          clear h h2
          by_cases hbin : binary_keyword k = true
          · simp only [hbin, if_true, Bool.and_eq_true] at hwf
            obtain ⟨op, hop, heff⟩ := binary_operator_cmd hbin
            simp only [hop, CMD_eq_write, Prod.mk.injEq, true_and] at h4
            subst h4
            have hl1 : compile_expr left st = (.success, s1) := by
              rcases if_present_eq_success.1 h1 with ⟨hnull, -⟩ | ⟨-, hc⟩
              · rw [hnull] at hwf; simp [well_formed_expr] at hwf
              · exact hc
            have hr1 : compile_expr right s1 = (.success, s2) := by
              rcases if_present_eq_success.1 h3 with ⟨hnull, -⟩ | ⟨-, hc⟩
              · rw [hnull] at hwf; simp [well_formed_expr] at hwf
              · exact hc
            obtain ⟨o1, ho1, hn1, hb1⟩ := ihl.1 st s1 hwf.1 hl1
            obtain ⟨o2, ho2, hn2, hb2⟩ := ihr.1 s1 s2 hwf.2 hr1
            refine ⟨o1 ++ (o2 ++ [.cmd op none]), by simp [ho1, ho2], ?_, ?_⟩
            · rw [net_effect_append, net_effect_append, hn1, hn2]
              simp [net_effect, heff]
            · rw [never_below_append, never_below_append, hb1, hn1, hn2,
                never_below_mono (by omega) o2 hb2]
              simp [never_below, heff]
          · simp only [hbin, Bool.false_eq_true, if_false] at hwf
            by_cases hun : unary_keyword k = true
            · simp only [hun, if_true, Bool.and_eq_true] at hwf
              obtain ⟨op, hop, heff⟩ := unary_operator_cmd hun
              simp only [hop, CMD_eq_write, Prod.mk.injEq, true_and] at h4
              subst h4
              have hs1 : s1 = st := by
                cases left with
                | nullptr => simpa [if_present] using h1.symm
                | node _ _ _ _ => simp [ast_node.is_null] at hwf
              subst hs1
              have hr1 : compile_expr right s1 = (.success, s2) := by
                rcases if_present_eq_success.1 h3 with ⟨hnull, -⟩ | ⟨-, hc⟩
                · rw [hnull] at hwf; simp [well_formed_expr] at hwf
                · exact hc
              obtain ⟨o2, ho2, hn2, hb2⟩ := ihr.1 s1 s2 hwf.2 hr1
              refine ⟨o2 ++ [.cmd op none], by simp [ho2], ?_, ?_⟩
              · rw [net_effect_append, hn2]
                simp [net_effect, heff]
              · rw [never_below_append, hb2, hn2]
                simp [never_below, heff]
            · simp [hun] at hwf
    · intro st k st1 hwf h
      rw [well_formed_args_node, Bool.and_eq_true] at hwf
      rw [compile_param_node] at h
      obtain ⟨s1, h1, h2⟩ := on_success_eq_success.1 h
      obtain ⟨s2, h3, h4⟩ := on_success_eq_success.1 h2
      clear h h2
      have hleft : ∃ o1, s1.file = st.file ++ o1 ∧ net_effect o1 = 0 ∧
          never_below 0 o1 = true := by
        rcases if_present_eq_success.1 h1 with ⟨-, rfl⟩ | ⟨-, hc⟩
        · exact ⟨[], by simp, rfl, rfl⟩
        · exact ihl.2 st _ s1 hwf.1 hc
      obtain ⟨o1, ho1, hn1, hb1⟩ := hleft
      obtain ⟨o2, ho2, hn2, hb2⟩ := ihr.1 s1 s2 hwf.2 h3
      split at h4
      · simp at h4
      · rename_i loc hloc
        simp only [CMD_eq_write, Prod.mk.injEq, true_and] at h4
        subst h4
        refine ⟨o1 ++ (o2 ++ [.cmd .POP (some (local_variable (scope_table_add_param loc).1
          true))]), by simp [ho1, ho2], ?_, ?_⟩
        · rw [net_effect_append, net_effect_append, hn1, hn2]; rfl
        · rw [never_below_append, never_below_append, hb1, hn1, hn2]
          simp only [Int.add_zero, hb2, Bool.true_and]
          rfl

/-- C10, as stated, fails at the node `+` with no operand: `compile_expr`
succeeds on it and writes the single line `ADD`, whose net effect on the
evaluation stack is `-1` and which takes the stack below its initial depth. -/
theorem bare_operator_stack_effect :
    compile_expr sample_bare_add fresh_state = (.success, fresh_state.write [.cmd .ADD none]) ∧
      net_effect [.cmd .ADD none] = -1 ∧ never_below 0 [.cmd .ADD none] = false := by
  decide

/-- C10, amended (every expression leaves exactly one value).  For every
expression whose operators have their operands in place (`well_formed_expr`)
and on which `compile_expr` succeeds, the lines written have net effect `+1`
on the evaluation stack, counting `PUSH` as `+1`, `POP` and each binary
operator as `-1` and each unary operator, intrinsic and `CALL` as `0`, and
never take the stack below its initial depth. -/
theorem expression_leaves_one_value (n : ast_node) (st st1 : State)
    (hwf : well_formed_expr n = true) (h : compile_expr n st = (.success, st1)) :
    ∃ out, st1.file = st.file ++ out ∧ net_effect out = 1 ∧ never_below 0 out = true := by
  obtain ⟨out, hfile, hnet, hdepth⟩ := (stack_effect_expr_param n).1 st st1 hwf h
  exact ⟨out, hfile, hnet, hdepth⟩

/-- C10, amended, at the call `f(1, 2)`. -/
theorem expression_leaves_one_value_witness :
    ∃ out, (compile_expr sample_call sample_state).2.file = sample_state.file ++ out ∧
      net_effect out = 1 ∧ never_below 0 out = true :=
  expression_leaves_one_value sample_call sample_state (compile_expr sample_call sample_state).2
    (by decide) rfl

/-! ## Operators -/

theorem compile_shift_frame {vnode : ast_node} {st st1 : State}
    (h : compile_shift vnode st = (.success, st1)) : ∃ out, st1 = st.write out :=
  compile_shift_body_frame (fun _ _ h => compile_expr_frame h) h

/-- The result of `find_variable` once the shift is loaded. -/
theorem find_variable_of_shift {vnode : ast_node} {st st1 : State} {name : String}
    (memory : Bool) (hname : ast_ident vnode = some name)
    (hshift : compile_shift vnode st = (.success, st1)) :
    find_variable vnode st memory = lookup_variable name memory st1 := by
  cases vnode with
  | nullptr => simp [ast_ident] at hname
  | node a d l r =>
    simp only [compile_shift] at hshift
    simp only [find_variable, find_variable_body, hshift, hname]

/-- C15 (resolution order).  For a reference to the identifier `name` whose
shift is loaded successfully: when `name` is bound in the global scope table,
`find_variable` returns the `cx`-relative operand of the global entry, whatever
the local scope table holds, and so does `get_variable` (for identifier nodes
without a left child); otherwise, when `name` is bound in the local scope
table, both return the `bx`-relative operand of the local entry. -/
theorem resolution_order (vnode : ast_node) (st st1 : State) (name : String) (var : var_info)
    (memory : Bool) (hname : ast_ident vnode = some name)
    (hshift : compile_shift vnode st = (.success, st1)) :
    (scope_table_find st.global_scope name = some var →
      find_variable vnode st memory =
        (.found (if memory then .memory .cx var.shift .hx else .address .cx var.shift .hx), st1) ∧
      (var.node.left = .nullptr → vnode.left = .nullptr →
        get_variable vnode st = (.found (.memory .cx var.shift .hx), st1))) ∧
    (scope_table_find st.global_scope name = none →
      ∀ loc, st.local_table = some loc → scope_table_find loc name = some var →
      find_variable vnode st memory =
        (.found (if memory then .memory .bx var.shift .hx else .address .bx var.shift .hx), st1) ∧
      (var.node.left = .nullptr → vnode.left = .nullptr →
        get_variable vnode st = (.found (.memory .bx var.shift .hx), st1))) := by
  obtain ⟨out, rfl⟩ := compile_shift_frame hshift
  rw [find_variable_of_shift memory hname hshift]
  cases vnode with
  | nullptr => simp [ast_ident] at hname
  | node a d l r =>
    cases d with
    | number v => simp [ast_ident] at hname
    | keyword k => simp [ast_ident] at hname
    | ident s =>
      simp only [ast_ident, Option.some.injEq] at hname
      subst hname
      constructor
      · intro hg
        refine ⟨?_, fun hv hl => ?_⟩
        · cases memory <;>
            simp [lookup_variable, hg, global_variable, GLOBAL_REG, SHIFT_REG]
        · simp only [ast_node.left] at hl
          subst hl
          simp only [get_variable, hg, get_variable_found, hshift, hv]
          simp [ast_node.is_null, ast_node.left, global_variable, GLOBAL_REG, SHIFT_REG]
      · intro hg loc hloc hf
        refine ⟨?_, fun hv hl => ?_⟩
        · cases memory <;>
            simp [lookup_variable, hg, hloc, hf, local_variable, LOCAL_REG, SHIFT_REG]
        · simp only [ast_node.left] at hl
          subst hl
          simp only [get_variable, hg, hloc, hf, get_variable_found, hshift, hv]
          simp [ast_node.is_null, ast_node.left, local_variable, LOCAL_REG, SHIFT_REG]

/-- C15 at the name `g`, bound in both tables of the sample state: the global
entry at offset 2 is the one found. -/
theorem resolution_order_witness :
    find_variable (mk_ident 122 "g") sample_shadow_state true =
        (.found (if true = true then .memory .cx 2 .hx else .address .cx 2 .hx),
          (compile_shift (mk_ident 122 "g") sample_shadow_state).2) ∧
      ((mk_ident 120 "g").left = .nullptr → (mk_ident 122 "g").left = .nullptr →
        get_variable (mk_ident 122 "g") sample_shadow_state =
          (.found (.memory .cx 2 .hx), (compile_shift (mk_ident 122 "g") sample_shadow_state).2)) :=
  (resolution_order (mk_ident 122 "g") sample_shadow_state
    (compile_shift (mk_ident 122 "g") sample_shadow_state).2 "g"
    { ident := some "g", node := mk_ident 120 "g", shift := 2 } true rfl rfl).1 (by decide)

theorem lookup_variable_eq (name : String) (memory : Bool) (st : State) :
    lookup_variable name memory st = ((lookup_variable name memory st).1, st) := by
  have h := lookup_variable_state name memory st
  generalize lookup_variable name memory st = r at h ⊢
  obtain ⟨a, b⟩ := r
  simp only at h
  rw [h]

theorem lookup_variable_write (name : String) (memory : Bool) (st : State) (o : List Line) :
    lookup_variable name memory (st.write o) = ((lookup_variable name memory st).1, st.write o) := by
  rw [lookup_variable_eq name memory (st.write o)]
  congr 1
  simp only [lookup_variable, State.write_global, State.write_local_table]
  repeat' split
  all_goals rfl

theorem lookup_variable_unbound {name : String} {st : State} {loc : scope_table} (memory : Bool)
    (hg : scope_table_find st.global_scope name = none) (hl : st.local_table = some loc)
    (hn : scope_table_find loc name = none) :
    lookup_variable name memory st = (.nullptr, st) := by
  simp [lookup_variable, hg, hl, hn]

/-- The operand that `lookup_variable` returns for a scalar just added to the
local scope table: relative to `cx` when `table->local` is the global scope
table, to `bx` otherwise. -/
theorem lookup_variable_declared {name : String} {st : State} {loc : scope_table}
    (var : var_info) (shift : Int)
    (hg : scope_table_find st.global_scope name = none) (hl : st.local_table = some loc)
    (hn : scope_table_find loc name = none) (hv : var.ident = some name) :
    lookup_variable name true (st.set_local { entries := loc.entries ++ [var], shift := shift }) =
      (.found (.memory (if st.local_scope = .global then .cx else .bx) var.shift .hx),
        st.set_local { entries := loc.entries ++ [var], shift := shift }) := by
  have hf := scope_table_find_append_new shift hn hv
  obtain ⟨f, l, g, fn⟩ := st
  cases l with
  | null => simp [State.local_table] at hl
  | global =>
    simp only [State.local_table, Option.some.injEq] at hl
    subst hl
    simp [lookup_variable, State.set_local, hf, global_variable, GLOBAL_REG, SHIFT_REG]
  | own t =>
    simp only [State.local_table, Option.some.injEq] at hl
    subst hl
    simp only at hg
    simp [lookup_variable, State.set_local, State.local_table, hf, hg, local_variable,
      LOCAL_REG, SHIFT_REG]

/-- C13 (variables are written before they are read; the first write
declares).  For an identifier `name` bound in neither scope table:
`compile_expr` on a reference to it returns the syntax error at the reference,
as long as its index expression, if it has one, does not end in a fault; and
`compile_assign` with the scalar `name` as target and a right-hand side that
compiles succeeds, having appended one binding of `name` to the local scope
table at the offset equal to the previous frame size, increased the frame size
by 1, and stored into that offset. -/
theorem first_write_declares (name : String) (st : State) (loc : scope_table)
    (hg : scope_table_find st.global_scope name = none) (hl : st.local_table = some loc)
    (hn : scope_table_find loc name = none) :
    (∀ a l r, (r = .nullptr ∨ ∀ f, (compile_expr r st).1 ≠ .fault f) →
      (compile_expr (.node a (.ident name) l r) st).1 =
        .syntax_error (.node a (.ident name) l r)) ∧
    (∀ ra ta tl rhs st1, compile_expr rhs st = (.success, st1) →
      ∃ st2, compile_assign (.node ra (.keyword AST_ASSIGN)
          (.node ta (.ident name) tl .nullptr) rhs) st = (.success, st2) ∧
        st2.local_table = some
          { entries := loc.entries ++
              [{ ident := some name, node := .node ta (.ident name) tl .nullptr,
                 shift := loc.shift }],
            shift := loc.shift + 1 } ∧
        st2.file = st1.file ++
          [.cmd .PUSH (some (.number 0)), .cmd .POP (some (.reg .hx)),
           .cmd .POP (some (.memory (if st.local_scope = .global then .cx else .bx)
             loc.shift .hx))]) := by
  constructor
  · intro a l r hr
    rw [compile_expr_node]
    simp only [keyword, reduceCtorEq, if_false]
    cases r with
    | nullptr =>
      simp [find_variable_scalar, lookup_variable_write, lookup_variable_unbound true hg hl hn]
    | node ia id il ir =>
      have hr' : ∀ f, (compile_expr (.node ia id il ir) st).1 ≠ .fault f := by
        rcases hr with h | h
        · simp at h
        · exact h
      simp only [find_variable, find_variable_body, compile_shift_body, ast_node.right, ast_ident]
      rcases hres : compile_expr (.node ia id il ir) st with ⟨s, s1⟩
      cases s with
      | success =>
        obtain ⟨o, rfl⟩ := compile_expr_frame hres
        simp [on_success, lookup_variable_write, lookup_variable_unbound true hg hl hn]
      | syntax_error e => simp [on_success]
      | fault f => exact absurd (by rw [hres]) (hr' f)
  · intro ra ta tl rhs st1 hrhs
    obtain ⟨o, rfl⟩ := compile_expr_frame hrhs
    have hadd : scope_table_add loc (.node ta (.ident name) tl .nullptr) =
        some ({ ident := some name, node := .node ta (.ident name) tl .nullptr, shift := loc.shift },
          { entries := loc.entries ++
              [{ ident := some name, node := .node ta (.ident name) tl .nullptr,
                 shift := loc.shift }],
            shift := loc.shift + 1 }) := by
      simp [scope_table_add, hn]
    have hlook := lookup_variable_declared
      { ident := some name, node := .node ta (.ident name) tl .nullptr, shift := loc.shift }
      (loc.shift + 1) hg hl hn rfl
    refine ⟨((st.set_local
      { entries := loc.entries ++
          [{ ident := some name, node := .node ta (.ident name) tl .nullptr,
             shift := loc.shift }],
        shift := loc.shift + 1 }).write o).write
      [.cmd .PUSH (some (.number 0)), .cmd .POP (some (.reg .hx)),
       .cmd .POP (some (.memory (if st.local_scope = .global then .cx else .bx)
         loc.shift .hx))], ?_, ?_, ?_⟩
    · simp only [compile_assign, keyword, ne_eq, not_true_eq_false, if_false, hrhs, on_success,
        not_ident, Bool.false_eq_true, get_variable, State.write_global, hg,
        State.write_local_table, hl, hn, declare_variable, ast_node.right, hadd,
        find_variable_scalar, State.write_set_local, State.write_write, lookup_variable_write,
        hlook, on_found, CMD_eq_write]
      simp [SHIFT_REG]
    · simp [State.local_table_set_local _ hl]
    · simp

/-- C13 at the name `z`, bound nowhere in the sample state: reading it is a
syntax error, and `z = 5` declares it at offset 1, the frame size. -/
theorem first_write_declares_witness :
    (compile_expr (.node 130 (.ident "z") .nullptr .nullptr) sample_state).1 =
        .syntax_error (.node 130 (.ident "z") .nullptr .nullptr) ∧
      ∃ st2, compile_assign (.node 131 (.keyword AST_ASSIGN)
          (.node 132 (.ident "z") .nullptr .nullptr) (mk_number 133 5)) sample_state =
          (.success, st2) ∧
        st2.local_table = some
          { entries := sample_scope.entries ++
              [{ ident := some "z", node := .node 132 (.ident "z") .nullptr .nullptr,
                 shift := sample_scope.shift }],
            shift := sample_scope.shift + 1 } ∧
        st2.file = (compile_expr (mk_number 133 5) sample_state).2.file ++
          [.cmd .PUSH (some (.number 0)), .cmd .POP (some (.reg .hx)),
           .cmd .POP (some (.memory (if sample_state.local_scope = .global then .cx else .bx)
             sample_scope.shift .hx))] :=
  ⟨(first_write_declares "z" sample_state sample_scope (by decide) rfl (by decide)).1
      130 .nullptr .nullptr (Or.inl rfl),
   (first_write_declares "z" sample_state sample_scope (by decide) rfl (by decide)).2
      131 132 .nullptr (mk_number 133 5) (compile_expr (mk_number 133 5) sample_state).2 rfl⟩

/-- C14 (re-assignment collapses to one binding).  For a scalar identifier
already bound to the entry `var`, in the global scope table (`base = cx`) or
else in the local one (`base = bx`), identifier nodes having no left child:
`compile_assign` to it with a right-hand side that compiles succeeds, writes
`PUSH 0; POP hx; POP [base + var.shift + hx]` after the code of the right-hand
side, and leaves both scope tables as they were. -/
theorem reassignment_keeps_binding (name : String) (st st1 : State) (var : var_info)
    (base : Reg) (ra ta : Nat) (rhs : ast_node)
    (hres : (scope_table_find st.global_scope name = some var ∧ base = GLOBAL_REG) ∨
      (scope_table_find st.global_scope name = none ∧ base = LOCAL_REG ∧
        ∃ loc, st.local_table = some loc ∧ scope_table_find loc name = some var))
    (hleft : var.node.left = .nullptr)
    (hrhs : compile_expr rhs st = (.success, st1)) :
    ∃ st2, compile_assign (.node ra (.keyword AST_ASSIGN)
        (.node ta (.ident name) .nullptr .nullptr) rhs) st = (.success, st2) ∧
      st2 = st1.write [.cmd .PUSH (some (.number 0)), .cmd .POP (some (.reg .hx)),
        .cmd .POP (some (.memory base var.shift .hx))] ∧
      st2.global_scope = st.global_scope ∧ st2.local_scope = st.local_scope ∧
      st2.func = st.func := by
  obtain ⟨o, rfl⟩ := compile_expr_frame hrhs
  refine ⟨_, ?_, rfl, rfl, rfl, rfl⟩
  have hshift : ∀ s : State, compile_shift (.node ta (.ident name) .nullptr .nullptr) s =
      (.success, s.write [.cmd .PUSH (some (.number 0)), .cmd .POP (some (.reg SHIFT_REG))]) := by
    intro s
    simp [compile_shift, compile_shift_body, ast_node.right]
  rcases hres with ⟨hg, rfl⟩ | ⟨hg, rfl, loc, hl, hf⟩
  · simp only [compile_assign, keyword, ne_eq, not_true_eq_false, if_false, hrhs, on_success,
      not_ident, Bool.false_eq_true, get_variable, State.write_global, hg, get_variable_found,
      hshift, hleft]
    simp [ast_node.left, ast_node.is_null, on_found, global_variable, GLOBAL_REG, SHIFT_REG]
  · simp only [compile_assign, keyword, ne_eq, not_true_eq_false, if_false, hrhs, on_success,
      not_ident, Bool.false_eq_true, get_variable, State.write_global, hg,
      State.write_local_table, hl, hf, get_variable_found, hshift, hleft]
    simp [ast_node.left, ast_node.is_null, on_found, local_variable, LOCAL_REG, SHIFT_REG]

/-- C14 at `q = 5`, with `q` the local at offset 0 of the sample state. -/
theorem reassignment_keeps_binding_witness :
    ∃ st2, compile_assign (.node 140 (.keyword AST_ASSIGN)
        (.node 141 (.ident "q") .nullptr .nullptr) (mk_number 142 5)) sample_state =
        (.success, st2) ∧
      st2 = (compile_expr (mk_number 142 5) sample_state).2.write
        [.cmd .PUSH (some (.number 0)), .cmd .POP (some (.reg .hx)),
         .cmd .POP (some (.memory LOCAL_REG 0 .hx))] ∧
      st2.global_scope = sample_state.global_scope ∧
      st2.local_scope = sample_state.local_scope ∧ st2.func = sample_state.func :=
  reassignment_keeps_binding "q" sample_state (compile_expr (mk_number 142 5) sample_state).2
    { ident := some "q", node := mk_ident 40 "q", shift := 0 } LOCAL_REG 140 141
    (mk_number 142 5) (Or.inr ⟨by decide, rfl, sample_scope, rfl, by decide⟩) rfl rfl

theorem find_function_loop_eq_none {ident : String} {ft : List func_info} :
    find_function_loop ident ft = none ↔ ∀ f ∈ ft, f.ident ≠ ident := by
  induction ft with
  | nil => simp [find_function_loop]
  | cons x xs ih =>
    simp only [find_function_loop, List.mem_cons, forall_eq_or_imp]
    split
    · rename_i h; simp [h]
    · rename_i h; simp [h, ih]

theorem chain_defines_node (a : Nat) (d : node_data) (left right : ast_node) :
    chain_defines (.node a d left right) =
      chain_defines left ++ (if keyword right = some AST_DEFINE then [right] else []) := by
  simp only [chain_defines, chain_items, List.filter_append, List.filter_cons, List.filter_nil]
  split <;> simp_all

/-- What a successful `create_func_table` added to the table: one entry per
`Define` of the chain, in order, under names that are new. -/
theorem create_func_table_entries (tree : ast_node) :
    ∀ ft0 ft1, create_func_table tree ft0 = (.success, ft1) →
      ∃ new, ft1 = ft0 ++ new ∧
        new.map (fun f => f.node) = (chain_defines tree).map (fun s => s.left) ∧
        (∀ f ∈ new, ast_ident f.node.left = some f.ident ∧
          f.n_params = count_params f.node.right) ∧
        ((ft0.map (fun f => f.ident)).Nodup → (ft1.map (fun f => f.ident)).Nodup) := by
  induction tree with
  | nullptr => intro ft0 ft1 h; simp [create_func_table] at h
  | node a d left right ihl _ =>
    intro ft0 ft1 h
    rw [create_func_table_node] at h
    split at h
    · simp at h
    · split at h
      case h_2 hne => exact absurd h (hne ft1)
      rename_i ft' hL
      have hl : ∃ new, ft' = ft0 ++ new ∧
          new.map (fun f => f.node) = (chain_defines left).map (fun s => s.left) ∧
          (∀ f ∈ new, ast_ident f.node.left = some f.ident ∧
            f.n_params = count_params f.node.right) ∧
          ((ft0.map (fun f => f.ident)).Nodup → (ft'.map (fun f => f.ident)).Nodup) := by
        cases left with
        | nullptr =>
          simp only [Prod.mk.injEq, true_and] at hL
          subst hL
          exact ⟨[], by simp, by simp [chain_defines, chain_items], by simp, fun h => h⟩
        | node la ld ll lr => exact ihl _ _ hL
      obtain ⟨new, rfl, hnodes, hentries, hnodup⟩ := hl
      rw [chain_defines_node]
      cases right with
      | nullptr => simp at h
      | node ra rd rl rr =>
        by_cases hd : rd = .keyword AST_DEFINE
        · subst hd
          simp only at h
          obtain ⟨ident, hid, hnone, rfl⟩ := declare_function_success h
          refine ⟨new ++ [{ node := rl, ident := ident, n_params := count_params rl.right }],
            by simp [ast_node.left], ?_, ?_, ?_⟩
          · simp [hnodes, keyword, ast_node.left]
          · intro f hf
            simp only [List.mem_append, List.mem_singleton] at hf
            rcases hf with hf | rfl
            · exact hentries f hf
            · exact ⟨hid, rfl⟩
          · intro h0
            have hnd := hnodup h0
            simp only [ast_node.left, List.map_append, List.map_cons, List.map_nil] at hnd ⊢
            rw [← List.map_append]
            rw [List.nodup_append]
            refine ⟨by simpa using hnd, by simp, ?_⟩
            intro x hx hx'
            simp only [List.mem_singleton] at hx'
            subst hx'
            obtain ⟨f, hf, hfx⟩ := List.mem_map.1 hx
            exact find_function_loop_eq_none.1 hnone f hf hfx
        · have h' : (Status.success, ft0 ++ new) = (Status.success, ft1) := by
            cases rd with
            | number v => exact h
            | ident s => exact h
            | keyword k =>
              cases k <;> first | exact h | exact absurd rfl hd
          simp only [Prod.mk.injEq, true_and] at h'
          subst h'
          have hk : keyword (.node ra rd rl rr) ≠ some AST_DEFINE := by
            cases rd with
            | number v => simp [keyword]
            | ident s => simp [keyword]
            | keyword k =>
              simp only [keyword, ne_eq, Option.some.injEq]
              intro hk; subst hk; exact hd rfl
          exact ⟨new, rfl, by simp [hnodes, hk], hentries, hnodup⟩

/-- C20 (function-table construction).  For a `Define` node whose function is
named `ident`: `declare_function` returns the syntax error at the node and
leaves the table as it was when an entry named `ident` is registered already,
and otherwise appends one entry, whose arity is the length of the chain of
formal parameters; and when `create_func_table` succeeds on a program, the
table lists the function nodes of exactly the `Define` statements of the
top-level chain, in source order, each under its name and with its arity, the
names being pairwise distinct. -/
theorem function_table_construction :
    (∀ a d fa fd name params r ft ident, ast_ident name = some ident →
      ((∃ f ∈ ft, f.ident = ident) →
        declare_function (.node a d (.node fa fd name params) r) ft =
          (.syntax_error (.node a d (.node fa fd name params) r), ft)) ∧
      ((∀ f ∈ ft, f.ident ≠ ident) →
        declare_function (.node a d (.node fa fd name params) r) ft =
          (.success, ft ++ [{ node := .node fa fd name params, ident := ident,
                              n_params := (chain_items params).length }]))) ∧
    (∀ tree ft, create_func_table tree [] = (.success, ft) →
      ft.map (fun f => f.node) = (chain_defines tree).map (fun s => s.left) ∧
      (∀ f ∈ ft, ast_ident f.node.left = some f.ident ∧
        f.n_params = (chain_items f.node.right).length) ∧
      (ft.map (fun f => f.ident)).Nodup) := by
  constructor
  · intro a d fa fd name params r ft ident hid
    cases name with
    | nullptr => simp [ast_ident] at hid
    | node na nd nl nr =>
      cases nd with
      | number v => simp [ast_ident] at hid
      | keyword k => simp [ast_ident] at hid
      | ident s =>
        simp only [ast_ident, Option.some.injEq] at hid
        subst hid
        constructor
        · intro hex
          have hne : find_function_loop s ft ≠ none := by
            intro h0
            obtain ⟨f, hf, hfi⟩ := hex
            exact find_function_loop_eq_none.1 h0 f hf hfi
          obtain ⟨f, hf⟩ := Option.ne_none_iff_exists'.1 hne
          simp [declare_function, find_function, hf]
        · intro hall
          have h0 := find_function_loop_eq_none.2 hall
          simp [declare_function, find_function, h0, ast_ident, count_params_eq_length]
  · intro tree ft h
    obtain ⟨new, hft, hnodes, hentries, hnodup⟩ := create_func_table_entries tree [] ft h
    simp only [List.nil_append] at hft
    subst hft
    refine ⟨hnodes, fun f hf => ?_, hnodup (by simp)⟩
    rw [← count_params_eq_length]
    exact hentries f hf

/-- C20 at the program that defines `f` and then `g`. -/
theorem function_table_construction_witness :
    ((create_func_table sample_forward_program []).2.map (fun f => f.node) =
        (chain_defines sample_forward_program).map (fun s => s.left) ∧
      (∀ f ∈ (create_func_table sample_forward_program []).2,
        ast_ident f.node.left = some f.ident ∧
          f.n_params = (chain_items f.node.right).length) ∧
      ((create_func_table sample_forward_program []).2.map (fun f => f.ident)).Nodup) ∧
    declare_function sample_forward_program.right (create_func_table sample_forward_program []).2 =
      (.syntax_error sample_forward_program.right,
        (create_func_table sample_forward_program []).2) :=
  ⟨function_table_construction.2 sample_forward_program
      (create_func_table sample_forward_program []).2 rfl,
   (function_table_construction.1 30 (.keyword AST_DEFINE) 31 (.keyword AST_FUNC)
      (mk_ident 32 "g") (mk_keyword 33 AST_PARAM .nullptr (mk_ident 34 "n")) _
      (create_func_table sample_forward_program []).2 "g" rfl).1
      ⟨{ node := sample_forward_program.right.left, ident := "g", n_params := 1 },
        by decide, rfl⟩⟩

/-! ## Missing children and the node that is reported -/

/-- C17 (missing required child).  In a state where `q` is a local variable,
`compile_stmt` returns the syntax error at the statement for a `Return` without
expression, an `If` without decision or whose decision has no then-branch, and
a `While` without condition; but it ends in a failed `assert` for an `If`
without condition, a `While` without body, an `Assign` without right-hand side
or without target, a `Show` without target or without expression, and an `Out`
without expression. -/
theorem missing_child_outcomes :
    ((compile_stmt (mk_stmt 160 (mk_keyword 161 AST_RETURN .nullptr .nullptr)) sample_state).1 =
        .syntax_error (mk_keyword 161 AST_RETURN .nullptr .nullptr) ∧
      (compile_stmt (mk_stmt 160 (mk_keyword 161 AST_IF (mk_number 162 1) .nullptr))
        sample_state).1 = .syntax_error (mk_keyword 161 AST_IF (mk_number 162 1) .nullptr) ∧
      (compile_stmt (mk_stmt 160 (mk_keyword 161 AST_IF (mk_number 162 1)
        (mk_keyword 163 AST_DECISION .nullptr .nullptr))) sample_state).1 =
        .syntax_error (mk_keyword 161 AST_IF (mk_number 162 1)
          (mk_keyword 163 AST_DECISION .nullptr .nullptr)) ∧
      (compile_stmt (mk_stmt 160 (mk_keyword 161 AST_WHILE .nullptr sample_decision.left))
        sample_state).1 = .syntax_error (mk_keyword 161 AST_WHILE .nullptr sample_decision.left)) ∧
    ((compile_stmt (mk_stmt 160 (mk_keyword 161 AST_IF .nullptr sample_decision)) sample_state).1 =
        .fault .assert_failed ∧
      (compile_stmt (mk_stmt 160 (mk_keyword 161 AST_WHILE (mk_number 162 1) .nullptr))
        sample_state).1 = .fault .assert_failed ∧
      (compile_stmt (mk_stmt 160 (mk_keyword 161 AST_ASSIGN (mk_ident 162 "q") .nullptr))
        sample_state).1 = .fault .assert_failed ∧
      (compile_stmt (mk_stmt 160 (mk_keyword 161 AST_ASSIGN .nullptr (mk_number 162 1)))
        sample_state).1 = .fault .assert_failed ∧
      (compile_stmt (mk_stmt 160 (mk_keyword 161 AST_SHOW .nullptr (mk_number 162 1)))
        sample_state).1 = .fault .assert_failed ∧
      (compile_stmt (mk_stmt 160 (mk_keyword 161 AST_SHOW (mk_ident 162 "q") .nullptr))
        sample_state).1 = .fault .assert_failed ∧
      (compile_stmt (mk_stmt 160 (mk_keyword 161 AST_OUT .nullptr .nullptr)) sample_state).1 =
        .fault .assert_failed) := by
  decide

theorem declared_labels_append (a b : List Line) :
    declared_labels (a ++ b) = declared_labels a ++ declared_labels b := by
  induction a with
  | nil => rfl
  | cons l rest ih =>
    cases l with
    | cmd op arg => simpa [declared_labels] using ih
    | write s => simpa [declared_labels] using ih
    | label x =>
      cases x <;> simpa [declared_labels] using ih

theorem Quiet.quiet_refl (st : State) : Quiet st st := ⟨[], by simp, rfl⟩

theorem Quiet.quiet_trans {a b c : State} (h1 : Quiet a b) (h2 : Quiet b c) : Quiet a c := by
  obtain ⟨o1, e1, q1⟩ := h1
  obtain ⟨o2, e2, q2⟩ := h2
  exact ⟨o1 ++ o2, by rw [e2, e1, List.append_assoc], by rw [declared_labels_append, q1, q2]; rfl⟩

theorem Quiet.quiet_write (st : State) (o : List Line) (h : declared_labels o = []) :
    Quiet st (st.write o) := ⟨o, rfl, h⟩

theorem Quiet.quiet_set_local (st : State) (t : scope_table) : Quiet st (st.set_local t) :=
  ⟨[], by simp [State.set_local_file], rfl⟩

theorem Quiet.quiet_set_local_scope (st : State) (p : local_ptr) :
    Quiet st { st with local_scope := p } := ⟨[], by simp, rfl⟩

theorem Quiet.quiet_write_right {st st1 : State} (h : Quiet st st1) (o : List Line)
    (ho : declared_labels o = []) : Quiet st (st1.write o) :=
  h.quiet_trans (Quiet.quiet_write _ _ ho)

theorem quiet_on_success {st : State} {r : Status × State} {k : State → Status × State}
    (hr : Quiet st r.2) (hk : ∀ s, Quiet s (k s).2) : Quiet st (on_success r k).2 := by
  obtain ⟨s, st1⟩ := r
  cases s
  · exact hr.quiet_trans (hk st1)
  · exact hr
  · exact hr

theorem quiet_on_found {st : State} {r : Lookup × State} {root : ast_node}
    {k : Arg → State → Status × State}
    (hr : Quiet st r.2) (hk : ∀ a s, Quiet s (k a s).2) : Quiet st (on_found r root k).2 := by
  obtain ⟨s, st1⟩ := r
  cases s
  · exact hr.quiet_trans (hk _ st1)
  · exact hr
  · exact hr

theorem quiet_if_present {child : ast_node} {f : State → Status × State}
    (hf : ∀ s, Quiet s (f s).2) (st : State) : Quiet st (if_present child f st).2 := by
  cases child
  · exact Quiet.quiet_refl _
  · exact hf st

theorem compile_shift_body_quiet {index : State → Status × State}
    (h : ∀ s, Quiet s (index s).2) (vnode : ast_node) (st : State) :
    Quiet st (compile_shift_body index vnode st).2 := by
  unfold compile_shift_body
  split
  · exact Quiet.quiet_refl _
  · split
    · refine Quiet.quiet_trans (Quiet.quiet_write _ _ ?_) (Quiet.quiet_write _ _ ?_) <;> rfl
    · exact quiet_on_success (h st) (fun s => Quiet.quiet_write _ _ rfl)

theorem find_variable_body_quiet {index : State → Status × State}
    (h : ∀ s, Quiet s (index s).2) (vnode : ast_node) (st : State) (memory : Bool) :
    Quiet st (find_variable_body index vnode st memory).2 := by
  have hs := compile_shift_body_quiet h vnode st
  unfold find_variable_body
  split
  · exact Quiet.quiet_refl _
  · split <;> rename_i heq <;> rw [heq] at hs
    · exact hs
    · exact hs
    · split
      · rw [lookup_variable_state]; exact hs
      · exact hs

theorem compile_call_body_quiet {params : State → Int → Status × State}
    (h : ∀ s n, Quiet s (params s n).2) (root : ast_node) (st : State) :
    Quiet st (compile_call_body params root st).2 := by
  unfold compile_call_body
  split
  · exact Quiet.quiet_refl _
  · split
    · exact Quiet.quiet_refl _
    · split
      · exact Quiet.quiet_refl _
      · exact Quiet.quiet_refl _
      · split
        · exact Quiet.quiet_refl _
        · refine quiet_on_success (quiet_if_present (fun s => h s _) st) (fun s => ?_)
          split
          · exact Quiet.quiet_refl _
          · exact (Quiet.quiet_set_local _ _).quiet_trans (Quiet.quiet_write _ _ rfl)

theorem compile_expr_param_quiet (n : ast_node) :
    (∀ st, Quiet st (compile_expr n st).2) ∧ (∀ st k, Quiet st (compile_param n st k).2) := by
  induction n with
  | nullptr => exact ⟨fun st => Quiet.quiet_refl _, fun st k => Quiet.quiet_refl _⟩
  | node a d left right ihl ihr =>
    constructor
    · intro st
      rw [compile_expr_node]
      split
      · exact compile_call_body_quiet ihr.2 _ _
      · cases d with
        | number v => exact Quiet.quiet_write _ _ rfl
        | ident name =>
          have := find_variable_body_quiet ihr.1 (.node a (.ident name) left right) st true
          simp only [find_variable, ast_node.right]
          split <;> rename_i heq <;> simp only [heq] at this ⊢
          · exact this.quiet_write_right _ rfl
          · exact this
          · exact this
        | keyword k =>
          refine quiet_on_success (quiet_if_present ihl.1 st) (fun s1 => ?_)
          refine quiet_on_success (quiet_if_present ihr.1 s1) (fun s2 => ?_)
          split
          · exact Quiet.quiet_write _ _ rfl
          · exact Quiet.quiet_refl _
    · intro st k
      rw [compile_param_node]
      refine quiet_on_success (quiet_if_present (fun s => ihl.2 s _) st) (fun s1 => ?_)
      refine quiet_on_success (ihr.1 s1) (fun s2 => ?_)
      split
      · exact Quiet.quiet_refl _
      · exact (Quiet.quiet_set_local _ _).quiet_trans (Quiet.quiet_write _ _ rfl)

theorem compile_expr_quiet (n : ast_node) (st : State) : Quiet st (compile_expr n st).2 :=
  (compile_expr_param_quiet n).1 st

theorem compile_param_quiet (n : ast_node) (st : State) (k : Int) :
    Quiet st (compile_param n st k).2 :=
  (compile_expr_param_quiet n).2 st k

theorem compile_shift_quiet (vnode : ast_node) (st : State) :
    Quiet st (compile_shift vnode st).2 :=
  compile_shift_body_quiet (compile_expr_quiet _) vnode st

theorem find_variable_quiet (vnode : ast_node) (st : State) (memory : Bool) :
    Quiet st (find_variable vnode st memory).2 :=
  find_variable_body_quiet (compile_expr_quiet _) vnode st memory

theorem compile_call_quiet (root : ast_node) (st : State) : Quiet st (compile_call root st).2 :=
  compile_call_body_quiet (compile_param_quiet _) root st

theorem declare_variable_quiet (vnode : ast_node) (st : State) :
    Quiet st (declare_variable vnode st).2 := by
  unfold declare_variable
  split
  · exact Quiet.quiet_refl _
  · exact Quiet.quiet_refl _
  · split
    · exact Quiet.quiet_refl _
    · split
      · exact (Quiet.quiet_set_local _ _).quiet_trans (find_variable_quiet _ _ _)
      · exact Quiet.quiet_refl _

theorem get_variable_found_quiet (vnode : ast_node) (var : var_info) (text : Arg) (st : State) :
    Quiet st (get_variable_found vnode var text st).2 := by
  have hs := compile_shift_quiet vnode st
  unfold get_variable_found
  split <;> rename_i heq <;> rw [heq] at hs
  · split <;> exact hs
  · exact hs
  · exact hs

theorem get_variable_quiet (vnode : ast_node) (st : State) :
    Quiet st (get_variable vnode st).2 := by
  unfold get_variable
  split
  · split
    · exact get_variable_found_quiet _ _ _ _
    · split
      · exact Quiet.quiet_refl _
      · split
        · exact get_variable_found_quiet _ _ _ _
        · exact declare_variable_quiet _ _
  · exact Quiet.quiet_refl _

theorem create_variable_quiet (vnode : ast_node) (st : State) :
    Quiet st (create_variable vnode st).2 := by
  have hs := find_variable_quiet vnode st true
  unfold create_variable
  split
  · exact Quiet.quiet_refl _
  · split <;> rename_i heq <;> rw [heq] at hs
    · exact hs
    · exact hs
    · exact hs.quiet_trans (declare_variable_quiet _ _)

theorem compile_assign_quiet (root : ast_node) (st : State) :
    Quiet st (compile_assign root st).2 := by
  unfold compile_assign
  split
  · exact Quiet.quiet_refl _
  · split
    · exact Quiet.quiet_refl _
    · refine quiet_on_success (compile_expr_quiet _ _) (fun s => ?_)
      split
      · exact Quiet.quiet_refl _
      · exact quiet_on_found (get_variable_quiet _ _) (fun a s2 => Quiet.quiet_write _ _ rfl)

theorem compile_return_quiet (root : ast_node) (st : State) :
    Quiet st (compile_return root st).2 := by
  unfold compile_return
  split
  · exact Quiet.quiet_refl _
  · split
    · exact Quiet.quiet_refl _
    · split
      · exact Quiet.quiet_refl _
      · exact quiet_on_success (compile_expr_quiet _ _)
          (fun s => by refine Quiet.quiet_trans (Quiet.quiet_write _ _ ?_) (Quiet.quiet_write _ _ ?_) <;> rfl)

theorem compile_show_quiet (root : ast_node) (st : State) :
    Quiet st (compile_show root st).2 := by
  unfold compile_show
  split
  · exact Quiet.quiet_refl _
  · split
    · exact Quiet.quiet_refl _
    · refine quiet_on_found (find_variable_quiet _ _ _) (fun a s => ?_)
      rename_i x1 x2 left right h
      have hs := compile_expr_quiet right (CMD .PUSH (some a) s)
      split <;> rename_i heq <;> rw [heq] at hs
      · refine Quiet.quiet_trans (Quiet.quiet_write _ _ ?_) hs; rfl
      · refine Quiet.quiet_write_right (Quiet.quiet_trans (Quiet.quiet_write _ _ ?_) hs) _ rfl; rfl

theorem create_local_table_quiet (n : ast_node) :
    ∀ st, Quiet st (create_local_table n st).2 := by
  induction n with
  | nullptr => exact fun st => Quiet.quiet_refl _
  | node a d left right ihl _ =>
    intro st
    rw [create_local_table_node]
    split
    · exact Quiet.quiet_refl _
    · refine quiet_on_success (quiet_if_present ihl st) (fun s1 => ?_)
      split
      · exact Quiet.quiet_refl _
      · exact quiet_on_found (create_variable_quiet _ _) (fun _ s2 => Quiet.quiet_refl _)

theorem create_global_table_quiet (n : ast_node) :
    ∀ st, Quiet st (create_global_table n st).2 := by
  induction n with
  | nullptr => exact fun st => Quiet.quiet_refl _
  | node a d left right ihl _ =>
    intro st
    rw [create_global_table_node]
    split
    · exact Quiet.quiet_refl _
    · refine quiet_on_success (quiet_if_present ihl st) (fun s1 => ?_)
      split
      · exact Quiet.quiet_refl _
      · exact compile_assign_quiet _ _
      · exact Quiet.quiet_refl _

theorem Declares.of_quiet (P : String × Nat → Prop) {a b : State} (h : Quiet a b) :
    Declares P a b := by
  obtain ⟨o, e, q⟩ := h
  exact ⟨o, e, by rw [q]; exact List.nodup_nil, by rw [q]; intro x hx; cases hx⟩

theorem Declares.mono {P Q : String × Nat → Prop} {a b : State} (h : Declares P a b)
    (hPQ : ∀ x, P x → Q x) : Declares Q a b := by
  obtain ⟨o, e, n, m⟩ := h
  exact ⟨o, e, n, fun x hx => hPQ x (m x hx)⟩

theorem Declares.seq {P Q R : String × Nat → Prop} {a b c : State} (h1 : Declares P a b)
    (h2 : Declares Q b c) (hd : ∀ x, P x → Q x → False) (hP : ∀ x, P x → R x)
    (hQ : ∀ x, Q x → R x) : Declares R a c := by
  obtain ⟨o1, e1, n1, m1⟩ := h1
  obtain ⟨o2, e2, n2, m2⟩ := h2
  refine ⟨o1 ++ o2, by rw [e2, e1, List.append_assoc], ?_, ?_⟩
  · rw [declared_labels_append, List.nodup_append]
    exact ⟨n1, n2, fun x hx1 hx2 => hd x (m1 x hx1) (m2 x hx2)⟩
  · intro x hx
    rw [declared_labels_append, List.mem_append] at hx
    rcases hx with hx | hx
    · exact hP x (m1 x hx)
    · exact hQ x (m2 x hx)

theorem Declares.after_quiet {P : String × Nat → Prop} {a b c : State} (h1 : Quiet a b)
    (h2 : Declares P b c) : Declares P a c :=
  Declares.seq (Declares.of_quiet (fun _ => False) h1) h2 (fun _ h _ => h)
    (fun _ h => h.elim) (fun _ h => h)

theorem Declares.then_quiet {P : String × Nat → Prop} {a b c : State} (h1 : Declares P a b)
    (h2 : Quiet b c) : Declares P a c :=
  Declares.seq h1 (Declares.of_quiet (fun _ => False) h2) (fun _ _ h => h)
    (fun _ h => h) (fun _ h => h.elim)

theorem Declares.label (st : State) (o : List Line) (x : String × Nat)
    (h : declared_labels o = [x]) : Declares (fun y => y = x) st (st.write o) :=
  ⟨o, rfl, by rw [h]; exact List.nodup_singleton _, by rw [h]; simp⟩

theorem Quiet.write_cmds (st : State) (op1 op2 : Op) (a1 a2 : Option Arg) :
    Quiet st (st.write ([.cmd op1 a1] ++ [.cmd op2 a2])) :=
  Quiet.quiet_write _ _ rfl

theorem Declares.write_label (st : State) (name : String) (addr : Nat) :
    Declares (fun y => y = (name, addr)) st (st.write [.label (.id name addr)]) :=
  Declares.label _ _ _ rfl

theorem Declares.write_cmd_label (st : State) (op : Op) (arg : Option Arg) (name : String)
    (addr : Nat) :
    Declares (fun y => y = (name, addr)) st
      (st.write ([.cmd op arg] ++ [.label (.id name addr)])) :=
  Declares.label _ _ _ rfl

theorem Declares.write_text_label (st : State) (text name : String) (addr : Nat) :
    Declares (fun y => y = (name, addr)) st
      (st.write ([.write text] ++ [.label (.id name addr)])) :=
  Declares.label _ _ _ rfl

theorem declares_on_success {P Q R : String × Nat → Prop} {st : State} {r : Status × State}
    {k : State → Status × State} (hr : Declares P st r.2) (hk : ∀ s, Declares Q s (k s).2)
    (hd : ∀ x, P x → Q x → False) (hP : ∀ x, P x → R x) (hQ : ∀ x, Q x → R x) :
    Declares R st (on_success r k).2 := by
  obtain ⟨s, st1⟩ := r
  cases s
  · exact Declares.seq hr (hk st1) hd hP hQ
  · exact hr.mono hP
  · exact hr.mono hP

theorem quiet_then_declares {P : String × Nat → Prop} {st : State} {r : Status × State}
    {k : State → Status × State} (hr : Quiet st r.2) (hk : ∀ s, Declares P s (k s).2) :
    Declares P st (on_success r k).2 :=
  declares_on_success (Declares.of_quiet (fun _ => False) hr) hk (fun _ h _ => h)
    (fun _ h => h.elim) (fun _ h => h)

theorem declares_if_present {P : String × Nat → Prop} {child : ast_node}
    {f : State → Status × State} (hf : ∀ s, Declares P s (f s).2) (st : State) :
    Declares P st (if_present child f st).2 := by
  cases child
  · exact Declares.of_quiet _ (Quiet.quiet_refl _)
  · exact hf st

@[simp] theorem addresses_nullptr : addresses .nullptr = [] := rfl

@[simp] theorem addresses_node (a : Nat) (d : node_data) (left right : ast_node) :
    addresses (.node a d left right) = a :: (addresses left ++ addresses right) := rfl

/-- Every statement compiler declares each synthesized label at most once, and
only labels of nodes of the tree it was given, whatever the outcome. -/
theorem compile_stmt_if_while_declares (n : ast_node) :
    ((addresses n).Nodup →
      (∀ st, Declares (fun x => x.2 ∈ addresses n) st (compile_stmt n st).2) ∧
      (∀ st, Declares (fun x => x.2 ∈ addresses n) st (compile_if n st).2) ∧
      (∀ st, Declares (fun x => x.2 ∈ addresses n) st (compile_while n st).2)) ∧
    ((addresses n.left).Nodup →
      ∀ st, Declares (fun x => x.2 ∈ addresses n.left) st (compile_stmt n.left st).2) ∧
    ((addresses n.right).Nodup →
      ∀ st, Declares (fun x => x.2 ∈ addresses n.right) st (compile_stmt n.right st).2) := by
  induction n with
  | nullptr =>
    exact ⟨fun _ => ⟨fun st => .of_quiet _ (Quiet.quiet_refl _), fun st => .of_quiet _ (Quiet.quiet_refl _),
      fun st => .of_quiet _ (Quiet.quiet_refl _)⟩,
      fun _ st => .of_quiet _ (Quiet.quiet_refl _), fun _ st => .of_quiet _ (Quiet.quiet_refl _)⟩
  | node a d left right ihl ihr =>
    refine ⟨fun hn => ?_, fun hl => (ihl.1 hl).1, fun hr => (ihr.1 hr).1⟩
    have hn0 := hn
    simp only [addresses_node, List.nodup_cons, List.mem_append, not_or,
      List.nodup_append] at hn
    obtain ⟨⟨hal, har⟩, hnl, hnr, hlr⟩ := hn
    refine ⟨?_, ?_, ?_⟩
    · intro st
      rw [compile_stmt_node]
      split
      · exact .of_quiet _ (Quiet.quiet_refl _)
      · refine declares_on_success
          (declares_if_present (P := fun x => x.2 ∈ addresses left) (ihl.1 hnl).1 st)
          (Q := fun x => x.2 ∈ addresses right) (fun s1 => ?_)
          (fun x h1 h2 => hlr h1 h2) (fun x h => by simp [h]) (fun x h => by simp [h])
        split
        · exact .of_quiet _ (Quiet.quiet_refl _)
        · exact .of_quiet _ (compile_assign_quiet _ _)
        · exact (ihr.1 hnr).2.1 _
        · exact (ihr.1 hnr).2.2 _
        · exact .of_quiet _ (compile_show_quiet _ _)
        · exact .of_quiet _ (quiet_on_success (compile_call_quiet _ _)
            (fun s => Quiet.quiet_write _ _ rfl))
        · exact .of_quiet _ (quiet_on_success (compile_expr_quiet _ _)
            (fun s => Quiet.quiet_write _ _ rfl))
        · exact .of_quiet _ (compile_return_quiet _ _)
        · exact .of_quiet _ (Quiet.quiet_refl _)
        · exact .of_quiet _ (Quiet.quiet_refl _)
    · intro st
      rw [compile_if_node]
      simp only [CMD_eq_write, LABEL_eq_write, WRITE_eq_write, State.write_write]
      split
      · exact .of_quiet _ (Quiet.quiet_refl _)
      · refine quiet_then_declares
          (Quiet.quiet_trans (Quiet.quiet_write _ _ ?_) (compile_expr_quiet _ _)) (fun s1 => ?_)
        · rfl
        split
        · exact .of_quiet _ (Quiet.quiet_write _ _ rfl)
        · exact .of_quiet _ (Quiet.quiet_write _ _ rfl)
        · rename_i x0 da dd ta td tl tr dright hk
          have iht := ihr.2.1
          have ihe := ihr.2.2
          simp only [ast_node.left, ast_node.right] at iht ihe
          rw [addresses_node, List.nodup_cons, List.nodup_append] at hnr
          rw [addresses_node, List.mem_cons, List.mem_append, not_or, not_or] at har
          obtain ⟨hda, hnt, hne, hte⟩ := hnr
          obtain ⟨had, hat, hae⟩ := har
          have hmt : ∀ x : String × Nat, x.2 ∈ addresses (.node ta td tl tr) →
              x.2 ∈ addresses (.node a d left (.node da dd (.node ta td tl tr) dright)) := by
            intro x h
            rw [addresses_node a d, addresses_node da dd]
            simp only [List.mem_cons, List.mem_append]
            tauto
          have hme : ∀ x : String × Nat, x.2 ∈ addresses dright →
              x.2 ∈ addresses (.node a d left (.node da dd (.node ta td tl tr) dright)) := by
            intro x h
            rw [addresses_node a d, addresses_node da dd]
            simp only [List.mem_cons, List.mem_append]
            tauto
          have hma : ∀ name : String,
              a ∈ addresses (.node a d left (.node da dd (.node ta td tl tr) dright)) := by
            intro name
            rw [addresses_node a d]
            exact List.mem_cons_self _ _
          refine declares_on_success (P := fun x => x.2 ∈ addresses (.node ta td tl tr))
            (Q := fun x => x = ("if_fail", a) ∨ x.2 ∈ addresses dright ∨ x = ("if_end", a))
            (Declares.after_quiet (Quiet.write_cmds _ _ _ _ _) (iht hnt _)) (fun s3 => ?_) ?_ hmt ?_
          · split
            · exact (Declares.write_label _ "if_fail" a).mono (fun x h => Or.inl h)
            · rename_i ea ed el er
              refine declares_on_success
                (P := fun x => x = ("if_fail", a) ∨ x.2 ∈ addresses (.node ea ed el er))
                (Q := fun x => x = ("if_end", a))
                (Declares.seq (Declares.write_cmd_label _ _ _ "if_fail" a) (ihe hne _) ?_
                  (fun x h => Or.inl h) (fun x h => Or.inr h))
                (fun s4 => Declares.write_label _ "if_end" a) ?_ ?_ ?_
              · rintro x rfl h
                exact hae h
              · rintro x (rfl | h) h2
                · simp at h2
                · rw [h2] at h
                  exact hae h
              · rintro x (h | h)
                · exact Or.inl h
                · exact Or.inr (Or.inl h)
              · rintro x h
                exact Or.inr (Or.inr h)
          · rintro x h1 (rfl | h2 | rfl)
            · exact hat h1
            · exact hte h1 h2
            · exact hat h1
          · rintro x (rfl | h | rfl)
            · exact hma ""
            · exact hme x h
            · exact hma ""
    · intro st
      rw [compile_while_node]
      simp only [CMD_eq_write, LABEL_eq_write, WRITE_eq_write, State.write_write]
      split
      · exact .of_quiet _ (Quiet.quiet_refl _)
      · split
        · exact .of_quiet _ (Quiet.quiet_write _ _ rfl)
        · split
          · exact (Declares.write_text_label _ _ "while" a).mono
              (fun x h => by rw [h, addresses_node]; exact List.mem_cons_self _ _)
          · refine declares_on_success (P := fun x => x = ("while", a))
              (Q := fun x => x.2 ∈ addresses right ∨ x = ("while_end", a))
              ((Declares.write_text_label _ _ "while" a).then_quiet (compile_expr_quiet _ _))
              (fun s2 => ?_) ?_ ?_ ?_
            · refine declares_on_success (P := fun x => x.2 ∈ addresses right)
                (Q := fun x => x = ("while_end", a))
                (Declares.after_quiet (Quiet.write_cmds _ _ _ _ _) ((ihr.1 hnr).1 _))
                (fun s3 => Declares.write_cmd_label _ _ _ "while_end" a) ?_
                (fun x h => Or.inl h) (fun x h => Or.inr h)
              rintro x h rfl
              exact har h
            · rintro x rfl (h | h)
              · exact har h
              · simp at h
            · rintro x rfl
              rw [addresses_node]
              exact List.mem_cons_self _ _
            · rintro x (h | rfl)
              · rw [addresses_node]
                simp only [List.mem_cons, List.mem_append]
                tauto
              · rw [addresses_node]
                exact List.mem_cons_self _ _

theorem compile_stmt_declares (n : ast_node) (hn : (addresses n).Nodup) (st : State) :
    Declares (fun x => x.2 ∈ addresses n) st (compile_stmt n st).2 :=
  ((compile_stmt_if_while_declares n).1 hn).1 st

theorem compile_define_body_declares (root define : ast_node)
    (hn : (addresses define.right).Nodup) (st : State) :
    Declares (fun x => x.2 ∈ addresses define.right) st
      (compile_define_body root define st).2 := by
  unfold compile_define_body
  split
  · exact .of_quiet _ (Quiet.quiet_refl _)
  · split
    · exact .of_quiet _ (Quiet.quiet_refl _)
    · refine quiet_then_declares (quiet_if_present (create_local_table_quiet _) st)
        (fun s1 => ?_)
      split
      · exact .of_quiet _ (Quiet.quiet_refl _)
      · rename_i ident _ _ _ _
        have hs := compile_stmt_declares define.right hn (LABEL s1 (.name ident))
        split <;> rename_i heq <;> rw [heq] at hs
        · exact Declares.after_quiet (Quiet.quiet_write _ [.label (.name ident)] rfl) hs
        · exact (Declares.after_quiet (Quiet.quiet_write _ [.label (.name ident)] rfl) hs).then_quiet
            (Quiet.quiet_set_local_scope _ .null)
      · exact .of_quiet _ (Quiet.quiet_refl _)

theorem compile_define_declares (n : ast_node) :
    (addresses n).Nodup → ∀ st, Declares (fun x => x.2 ∈ addresses n) st
      (compile_define n st).2 := by
  induction n with
  | nullptr => exact fun _ st => .of_quiet _ (Quiet.quiet_refl _)
  | node a d left right ihl _ =>
    intro hn st
    rw [addresses_node, List.nodup_cons, List.nodup_append] at hn
    obtain ⟨ha, hnl, hnr, hlr⟩ := hn
    rw [compile_define_node]
    refine declares_on_success (P := fun x => x.2 ∈ addresses left)
      (Q := fun x => x.2 ∈ addresses right) (declares_if_present (ihl hnl) st) (fun s1 => ?_)
      (fun x h1 h2 => hlr h1 h2) (fun x h => by simp [h]) (fun x h => by simp [h])
    split
    · exact .of_quiet _ (Quiet.quiet_refl _)
    · exact .of_quiet _ (Quiet.quiet_refl _)
    · rename_i da dleft ba bd bl br hx
      rw [addresses_node, List.nodup_cons, List.nodup_append] at hnr
      refine (Declares.after_quiet (Quiet.quiet_set_local_scope _ _)
        (compile_define_body_declares _
          (.node da (.keyword AST_DEFINE) dleft (.node ba bd bl br)) hnr.2.2.1 _)).mono
        (fun x h => ?_)
      simp only [ast_node.right] at h
      rw [addresses_node da]
      simp only [List.mem_cons, List.mem_append]
      tauto
    · exact .of_quiet _ (Quiet.quiet_refl _)

theorem Declares.nodup_file {P : String × Nat → Prop} {st st1 : State} (h : Declares P st st1)
    (h0 : st.file = []) : (declared_labels st1.file).Nodup := by
  obtain ⟨o, e, n, _⟩ := h
  rw [e, h0, List.nil_append]
  exact n

/-! ## Synthesized labels are declared once -/

/-- Claim C12. When the nodes of the syntax tree have pairwise distinct
addresses, no synthesized label (`if_fail`, `if_end`, `while`, `while_end`
followed by the address of its node) is declared twice in the output of
`compile_tree`, whether the compilation succeeds or not. -/
theorem label_uniqueness (tree : ast_node) (h : (addresses tree).Nodup) :
    (declared_labels (compile_tree tree).2).Nodup := by
  cases tree with
  | nullptr => exact List.nodup_nil
  | node a d l r =>
    simp only [compile_tree]
    rcases hR0 : create_func_table (.node a d l r) [] with ⟨s0, ft⟩
    have h1 := create_global_table_quiet (.node a d l r) (initial_state ft)
    rcases hR1 : create_global_table (.node a d l r) (initial_state ft) with ⟨s1, st1⟩
    rw [hR1] at h1
    have h2 := compile_define_declares (.node a d l r) h
      (st1.write (preamble st1.global_scope.shift))
    rcases hR2 : compile_define (.node a d l r)
      (st1.write (preamble st1.global_scope.shift)) with ⟨s2, st3⟩
    rw [hR2] at h2
    have hg : (declared_labels st1.file).Nodup :=
      (Declares.of_quiet (fun _ => False) h1).nodup_file rfl
    have hd : (declared_labels st3.file).Nodup :=
      (Declares.after_quiet (h1.quiet_write_right (preamble st1.global_scope.shift) rfl) h2).nodup_file
        rfl
    cases hD : dump_func_table ft <;> cases s0 <;> cases s1 <;> cases s2 <;>
      simp only [hR1, hR2, hD] <;> first | exact List.nodup_nil | exact hg | exact hd

/-- Claim C12 at the program with an `if` nested in a `while` and a sibling
`if`: five labels are declared, each once. -/
theorem label_uniqueness_witness :
    (addresses sample_branch_program).Nodup ∧
      declared_labels (compile_tree sample_branch_program).2 =
        [("while", 11), ("if_fail", 14), ("if_end", 14), ("while_end", 11), ("if_fail", 21)] ∧
      (declared_labels (compile_tree sample_branch_program).2).Nodup :=
  ⟨by decide, by decide, label_uniqueness sample_branch_program (by decide)⟩

theorem scope_table_find_scalar_entries (items : List ast_node) (name : String) :
    ∀ base shift, (∀ p ∈ items, ast_ident p ≠ some name) →
      scope_table_find { entries := scalar_entries items base, shift := shift } name = none := by
  induction items with
  | nil => intro base shift _; rfl
  | cons p ps ih =>
    intro base shift h
    have hp := h p (List.mem_cons_self _ _)
    have ht := ih (base + 1) shift (fun q hq => h q (List.mem_cons_of_mem _ hq))
    simp only [scope_table_find, scalar_entries, List.find?_cons] at ht ⊢
    simp [hp, ht]

theorem param_entries_append (xs : List ast_node) (p : ast_node) (base : Int) :
    param_entries (xs ++ [p]) base =
      param_entries xs base ++
        [{ ident := ast_ident p, node := p, shift := base + frame_size xs }] := by
  induction xs generalizing base with
  | nil => simp [param_entries, frame_size]
  | cons x xs ih =>
    have e : base + declared_size x + frame_size xs = base + frame_size (x :: xs) := by
      simp only [frame_size, List.map_cons, List.sum_cons]; omega
    simp [param_entries, ih, e]

theorem frame_size_append (xs : List ast_node) (p : ast_node) :
    frame_size (xs ++ [p]) = frame_size xs + declared_size p := by
  simp [frame_size]

theorem param_entries_scalars (xs : List ast_node) (h : ∀ p ∈ xs, p.right = .nullptr) :
    ∀ base, param_entries xs base = scalar_entries xs base := by
  induction xs with
  | nil => intro base; rfl
  | cons x xs ih =>
    intro base
    have hx : declared_size x = 1 := by
      simp [declared_size, h x (List.mem_cons_self _ _)]
    simp [param_entries, scalar_entries, hx, ih (fun p hp => h p (List.mem_cons_of_mem _ hp))]

theorem frame_size_scalars (xs : List ast_node) (h : ∀ p ∈ xs, p.right = .nullptr) :
    frame_size xs = xs.length := by
  induction xs with
  | nil => rfl
  | cons x xs ih =>
    have hx : declared_size x = 1 := by
      simp [declared_size, h x (List.mem_cons_self _ _)]
    simp only [frame_size, List.map_cons, List.sum_cons, hx, List.length_cons] at ih ⊢
    rw [ih (fun p hp => h p (List.mem_cons_of_mem _ hp))]
    push_cast; omega

theorem scope_table_find_param_entries (items : List ast_node) (name : String) :
    ∀ base shift, (∀ p ∈ items, ast_ident p ≠ some name) →
      scope_table_find { entries := param_entries items base, shift := shift } name = none := by
  induction items with
  | nil => intro base shift _; rfl
  | cons p ps ih =>
    intro base shift h
    have hp := h p (List.mem_cons_self _ _)
    have ht := ih (base + declared_size p) shift (fun q hq => h q (List.mem_cons_of_mem _ hq))
    simp only [scope_table_find, param_entries, List.find?_cons] at ht ⊢
    simp [hp, ht]

theorem find_variable_number_index (a : Nat) (name : String) (l : ast_node) (ra : Nat)
    (v : double) (rl rr : ast_node) (st : State) (memory : Bool) :
    find_variable (.node a (.ident name) l (.node ra (.number v) rl rr)) st memory =
      lookup_variable name memory
        (st.write [.cmd .PUSH (some (number_str v)), .cmd .POP (some (.reg SHIFT_REG))]) := by
  simp [find_variable, find_variable_body, compile_shift_body, ast_ident, compile_expr_node,
    keyword, on_success, ast_node.right, CMD_eq_write]

/-- Declaring a variable with `create_variable` appends one entry at the current
frame size, which grows by the size of the variable. -/
theorem create_variable_declares {a : Nat} {name : String} {l r : ast_node} {st st1 : State}
    {text : Arg}
    (h : create_variable (.node a (.ident name) l r) st = (.found text, st1)) :
    ∃ loc out, st.local_table = some loc ∧
      st1 = (st.set_local
        { entries := loc.entries ++
            [{ ident := some name, node := .node a (.ident name) l r, shift := loc.shift }],
          shift := loc.shift + declared_size (.node a (.ident name) l r) }).write out := by
  cases r with
  | nullptr =>
    obtain ⟨loc, hl, rfl⟩ := create_variable_scalar h
    exact ⟨loc, _, hl, rfl⟩
  | node ra rd rl rr =>
    simp only [create_variable] at h
    cases rd with
    | number v =>
      simp only [find_variable_number_index] at h
      split at h
      · simp at h
      · simp at h
      · rename_i s1 hlk
        obtain ⟨rfl, hg, loc, hl, hn⟩ := lookup_variable_eq_nullptr hlk
        simp only [State.write_global, State.write_local_table] at hg hl
        refine ⟨loc, [.cmd .PUSH (some (number_str v)), .cmd .POP (some (.reg SHIFT_REG)),
          .cmd .PUSH (some (number_str v)), .cmd .POP (some (.reg SHIFT_REG))], hl, ?_⟩
        have hadd : scope_table_add loc (.node a (.ident name) l (.node ra (.number v) rl rr)) =
            some ({ ident := some name, node := .node a (.ident name) l (.node ra (.number v) rl rr),
                    shift := loc.shift },
              { entries := loc.entries ++
                  [{ ident := some name,
                     node := .node a (.ident name) l (.node ra (.number v) rl rr),
                     shift := loc.shift }],
                shift := loc.shift + v.to_int }) := by
          simp [scope_table_add, hn]
        simp only [declare_variable, ast_node.right, State.write_local_table, hl, hadd,
          find_variable_number_index, State.write_set_local, State.write_write] at h
        have hstate := congrArg Prod.snd h
        rw [lookup_variable_state] at hstate
        simpa [declared_size] using hstate.symm
    | ident s =>
      simp only [declare_variable, ast_node.right] at h
      split at h <;> simp at h
    | keyword k =>
      simp only [declare_variable, ast_node.right] at h
      split at h <;> simp at h

/-- A successful `create_local_table` appends the formal parameters to the
local scope table, in order, each at the frame size that the ones before it
left. -/
theorem create_local_table_entries (params : ast_node) :
    ∀ st st1, create_local_table params st = (.success, st1) →
      ∃ loc out, st.local_table = some loc ∧
        st1 = (st.set_local
          { entries := loc.entries ++ param_entries (chain_items params) loc.shift,
            shift := loc.shift + frame_size (chain_items params) }).write out := by
  induction params with
  | nullptr => intro st st1 h; simp [create_local_table] at h
  | node a d left right ihl _ =>
    intro st st1 h
    rw [create_local_table] at h
    split at h
    · simp at h
    · obtain ⟨s1, h1, h2⟩ := on_success_eq_success.1 h
      clear h
      split at h2
      · simp at h2
      · rename_i hid
        obtain ⟨text, s2, hcv, h3⟩ := on_found_eq_success.1 h2
        simp only [Prod.mk.injEq, true_and] at h3
        subst h3
        cases right with
        | nullptr => simp [create_variable] at hcv
        | node ra rd rl rr =>
          cases rd with
          | number v => simp [not_ident] at hid
          | keyword k => simp [not_ident] at hid
          | ident name =>
            obtain ⟨loc1, out1, hl1, rfl⟩ := create_variable_declares hcv
            rcases if_present_eq_success.1 h1 with ⟨hnull, rfl⟩ | ⟨-, hleft⟩
            · subst hnull
              refine ⟨loc1, out1, hl1, ?_⟩
              simp [chain_items, param_entries, frame_size, ast_ident]
            · obtain ⟨loc, out, hl, rfl⟩ := ihl st s1 hleft
              have hl3 := State.local_table_set_local
                { entries := loc.entries ++ param_entries (chain_items left) loc.shift,
                  shift := loc.shift + frame_size (chain_items left) } hl
              simp only [State.write_local_table, hl3, Option.some.injEq] at hl1
              subst hl1
              refine ⟨loc, out ++ out1, hl, ?_⟩
              simp only [State.write_set_local, State.set_local_set_local, State.write_write,
                chain_items, param_entries_append, frame_size_append, ast_ident,
                List.append_assoc]
              congr 3
              omega

theorem param_entries_getElem? (xs : List ast_node) (base : Int) (i : Nat) (p : ast_node)
    (h : xs[i]? = some p) :
    (param_entries xs base)[i]? =
      some { ident := ast_ident p, node := p, shift := base + frame_size (xs.take i) } := by
  induction xs generalizing base i with
  | nil => simp at h
  | cons x xs ih =>
    cases i with
    | zero =>
      simp only [List.getElem?_cons_zero, Option.some.injEq] at h
      simp [param_entries, frame_size, h]
    | succ j =>
      simp only [List.getElem?_cons_succ] at h
      simp only [param_entries, List.getElem?_cons_succ, ih (base + declared_size x) j h,
        List.take_succ_cons, frame_size, List.map_cons, List.sum_cons, Option.some.injEq,
        var_info.mk.injEq, true_and]
      omega

/-! ## One local scope per function -/

/-- Counterexample to claim C19.  The formal parameters `(a[3], b)` are
accepted by `create_local_table`: starting from the fresh local scope table,
`a` is bound at offset 0 and `b` at offset 3, and the frame size is 4, not 2.
So the program `f(a[3], b) { return b; }` compiles with `EXIT_SUCCESS` and reads
`b` from `[bx + 3 + hx]`. -/
theorem indexed_parameter_offsets :
    create_local_table sample_indexed_params fresh_state =
      (.success,
        { file :=
            [.cmd .PUSH (some (.number 3)), .cmd .POP (some (.reg .hx)),
             .cmd .PUSH (some (.number 3)), .cmd .POP (some (.reg .hx)),
             .cmd .PUSH (some (.number 0)), .cmd .POP (some (.reg .hx)),
             .cmd .PUSH (some (.number 0)), .cmd .POP (some (.reg .hx))],
          local_scope := .own
            { entries :=
                [{ ident := some "a", node := mk_indexed 64 "a" (mk_number 66 3), shift := 0 },
                 { ident := some "b", node := mk_ident 65 "b", shift := 3 }],
              shift := 4 },
          global_scope := { entries := [], shift := 0 }, func := [] }) ∧
    compile_tree sample_indexed_param_program =
      (.EXIT_SUCCESS,
        [.cmd .PUSH (some (.number 0)), .cmd .PUSH (some (.reg .bx)), .cmd .ADD none,
         .cmd .POP (some (.reg .bx)), .cmd .CALL (some (.name "main")), .cmd .HLT none,
         .cmd .PUSH (some (.number 3)), .cmd .POP (some (.reg .hx)),
         .cmd .PUSH (some (.number 3)), .cmd .POP (some (.reg .hx)),
         .cmd .PUSH (some (.number 0)), .cmd .POP (some (.reg .hx)),
         .cmd .PUSH (some (.number 0)), .cmd .POP (some (.reg .hx)),
         .label (.name "f"),
         .cmd .PUSH (some (.number 0)), .cmd .POP (some (.reg .hx)),
         .cmd .PUSH (some (.memory .bx 3 .hx)),
         .cmd .POP (some (.reg .ax)), .cmd .RET none]) := by
  decide

/-- Claim C19, amended in the offsets.  A function definition, once the
definitions before it are compiled and its parameters are declared, has its
body compiled in a local scope table that holds exactly its parameters, in
order, with the frame size equal to the sum of their sizes, whatever the local
scope was before; the global scope table and the function table are the ones
the definition started with, and afterwards `table->local` is null.  The
offset of a parameter is the sum of the sizes of the parameters before it,
where a parameter written with a number literal as its index has the size of
that number and any other the size 1: so `k` scalar parameters are at the
offsets 0, 1, ..., `k - 1`, with the frame size `k`.  In such a scope, reading
a scalar that is neither a parameter nor a global variable is a syntax error
at the reference. -/
theorem local_scope_per_function :
    (∀ (a : Nat) (d : node_data) (left : ast_node) (da fa na : Nat) (ident : String)
      (nl nr params : ast_node) (ba : Nat) (bd : node_data) (bl br : ast_node)
      (st s0 s1 : State),
      if_present left (compile_define left) st = (.success, s0) →
      if_present params (create_local_table params)
        { s0 with local_scope := .own { entries := [], shift := 0 } } = (.success, s1) →
      s1.local_table = some
        { entries := param_entries (chain_items params) 0,
          shift := frame_size (chain_items params) } ∧
      s1.global_scope = s0.global_scope ∧ s1.func = s0.func ∧
      compile_define (.node a d left (.node da (.keyword AST_DEFINE)
          (.node fa (.keyword AST_FUNC) (.node na (.ident ident) nl nr) params)
          (.node ba bd bl br))) st =
        match compile_stmt (.node ba bd bl br) (LABEL s1 (.name ident)) with
        | (.fault f, s2) => (.fault f, s2)
        | (error, s2) => (error, { s2 with local_scope := .null })) ∧
    (∀ (items : List ast_node) (i : Nat) (p : ast_node), items[i]? = some p →
      (param_entries items 0)[i]? =
        some { ident := ast_ident p, node := p, shift := frame_size (items.take i) }) ∧
    (∀ (items : List ast_node), (∀ p ∈ items, p.right = .nullptr) →
      frame_size items = items.length ∧
      ∀ (i : Nat) (p : ast_node), items[i]? = some p →
        (param_entries items 0)[i]? = some { ident := ast_ident p, node := p, shift := i }) ∧
    (∀ (items : List ast_node) (shift : Int) (name : String) (a : Nat) (l : ast_node)
      (st : State),
      st.local_table = some { entries := param_entries items 0, shift := shift } →
      (∀ p ∈ items, ast_ident p ≠ some name) →
      scope_table_find st.global_scope name = none →
      (compile_expr (.node a (.ident name) l .nullptr) st).1 =
        .syntax_error (.node a (.ident name) l .nullptr)) := by
  refine ⟨?_, ?_, ?_, ?_⟩
  · intro a d left da fa na ident nl nr params ba bd bl br st s0 s1 hleft hlocal
    have hstate : s1.local_table = some
        { entries := param_entries (chain_items params) 0,
          shift := frame_size (chain_items params) } ∧
        s1.global_scope = s0.global_scope ∧ s1.func = s0.func := by
      cases params with
      | nullptr =>
        simp only [if_present, Prod.mk.injEq, true_and] at hlocal
        subst hlocal
        simp [State.local_table, chain_items, param_entries, frame_size]
      | node pa pd pl pr =>
        simp only [if_present] at hlocal
        obtain ⟨loc, out, hl, hs⟩ := create_local_table_entries _ _ _ hlocal
        simp only [State.local_table, Option.some.injEq] at hl
        subst hl
        subst hs
        simp [State.local_table, State.set_local, State.write]
    refine ⟨hstate.1, hstate.2.1, hstate.2.2, ?_⟩
    rw [compile_define_node, hleft]
    simp only [on_success, compile_define_body, ast_node.left, ast_node.right, keyword,
      ne_eq, not_true_eq_false, if_false, hlocal]
  · intro items i p hp
    simpa using param_entries_getElem? items 0 i p hp
  · intro items hsc
    refine ⟨frame_size_scalars items hsc, fun i p hp => ?_⟩
    rw [param_entries_scalars items hsc 0]
    simpa using scalar_entries_getElem? items 0 i p hp
  · intro items shift name a l st hl hn hg
    rw [compile_expr_node]
    simp only [keyword, reduceCtorEq, if_false]
    simp [find_variable_scalar, lookup_variable_write,
      lookup_variable_unbound true hg hl (scope_table_find_param_entries items name 0 shift hn)]

/-- Claim C19, amended, at the second function of
`f() { x = 1; y = 2; return y; }  g(p) { z = 3; return z; }`, whose body starts
from the scope holding `p` alone; at the parameters `(a[3], b)`, where `b` is
at offset 3, and `(a, b)`, where it is at offset 1; and at the read of `x` in a
function that does not assign it. -/
theorem local_scope_per_function_witness :
    ((compile_define sample_two_frames_program.left
          ((global_pass sample_two_frames_program).write (preamble 0))).2.local_scope = .null ∧
      ∃ s1, s1.local_table = some
          { entries := [{ ident := some "p", node := mk_ident 34 "p", shift := 0 }],
            shift := 1 } ∧
        define_pass sample_two_frames_program =
          match compile_stmt sample_two_frames_program.right.right
              (LABEL s1 (.name "g")) with
          | (.fault f, s2) => (.fault f, s2)
          | (error, s2) => (error, { s2 with local_scope := .null })) ∧
    (param_entries (chain_items sample_indexed_params) 0)[1]? =
      some { ident := some "b", node := mk_ident 65 "b", shift := 3 } ∧
    (frame_size (chain_items sample_params) = 2 ∧
      (param_entries (chain_items sample_params) 0)[1]? =
        some { ident := some "b", node := mk_ident 65 "b", shift := 1 }) ∧
    (compile_expr (mk_ident 42 "x")
        { file := [], local_scope := .own { entries := [], shift := 0 },
          global_scope := { entries := [], shift := 0 }, func := [] }).1 =
      .syntax_error (mk_ident 42 "x") ∧
    (compile_tree sample_foreign_read_program).1 = .EXIT_FAILURE ∧
    (compile_tree sample_two_frames_program).1 = .EXIT_SUCCESS := by
  refine ⟨⟨by decide, ?_⟩, ?_, ?_, ?_, by decide, by decide⟩
  · obtain ⟨h1, _, _, h4⟩ := local_scope_per_function.1 1 (.keyword AST_STMT)
      sample_two_frames_program.left 30 31 32 "g" .nullptr .nullptr
      (mk_keyword 33 AST_PARAM .nullptr (mk_ident 34 "p")) 44 (.keyword AST_STMT)
      (mk_assign 36 "z" 3) (mk_keyword 45 AST_RETURN .nullptr (mk_ident 46 "z"))
      ((global_pass sample_two_frames_program).write (preamble 0))
      (compile_define sample_two_frames_program.left
        ((global_pass sample_two_frames_program).write (preamble 0))).2
      (create_local_table (mk_keyword 33 AST_PARAM .nullptr (mk_ident 34 "p"))
        { (compile_define sample_two_frames_program.left
            ((global_pass sample_two_frames_program).write (preamble 0))).2 with
          local_scope := .own { entries := [], shift := 0 } }).2
      (by decide) (by decide)
    exact ⟨_, h1, h4⟩
  · exact local_scope_per_function.2.1 (chain_items sample_indexed_params) 1 (mk_ident 65 "b")
      (by decide)
  · obtain ⟨h1, h2⟩ := local_scope_per_function.2.2.1 (chain_items sample_params) (by decide)
    exact ⟨h1, h2 1 (mk_ident 65 "b") (by decide)⟩
  · exact local_scope_per_function.2.2.2 [] 0 "x" 42 .nullptr _ rfl (by simp) rfl

/-! ## Label references in the output -/

section
variable {P : String × Nat → Prop}

theorem referenced_labels_append (a b : List Line) :
    referenced_labels (a ++ b) = referenced_labels a ++ referenced_labels b := by
  induction a with
  | nil => rfl
  | cons l rest ih =>
    cases l with
    | cmd op arg =>
      cases arg with
      | none => simpa [referenced_labels] using ih
      | some x => cases x <;> simpa [referenced_labels] using ih
    | write s => simpa [referenced_labels] using ih
    | label x => simpa [referenced_labels] using ih

theorem Refers.refers_refl (st : State) : Refers P st st :=
  ⟨[], by simp, fun x hx => by cases hx⟩

theorem Refers.refers_trans {a b c : State} (h1 : Refers P a b) (h2 : Refers P b c) : Refers P a c := by
  obtain ⟨o1, e1, q1⟩ := h1
  obtain ⟨o2, e2, q2⟩ := h2
  refine ⟨o1 ++ o2, by rw [e2, e1, List.append_assoc], fun x hx => ?_⟩
  rw [referenced_labels_append, List.mem_append] at hx
  exact hx.elim (q1 x) (q2 x)

theorem Refers.refers_mono {Q : String × Nat → Prop} {a b : State} (h : Refers P a b)
    (hPQ : ∀ x, P x → Q x) : Refers Q a b := by
  obtain ⟨o, e, m⟩ := h
  exact ⟨o, e, fun x hx => hPQ x (m x hx)⟩

theorem Refers.refers_write (st : State) (o : List Line) (h : referenced_labels o = []) :
    Refers P st (st.write o) :=
  ⟨o, rfl, by rw [h]; intro x hx; cases hx⟩

theorem Refers.write_plain (st : State) (op : Op) (x : Arg) (h : x.plain = true) :
    Refers P st (st.write [.cmd op (some x)]) :=
  Refers.refers_write _ _ (by cases x <;> first | rfl | simp [Arg.plain] at h)

theorem Refers.refers_set_local (st : State) (t : scope_table) : Refers P st (st.set_local t) :=
  ⟨[], by simp [State.set_local_file], fun x hx => by cases hx⟩

theorem Refers.refers_set_local_scope (st : State) (p : local_ptr) :
    Refers P st { st with local_scope := p } := ⟨[], by simp, fun x hx => by cases hx⟩

theorem Refers.refers_write_right {st st1 : State} (h : Refers P st st1) (o : List Line)
    (ho : referenced_labels o = []) : Refers P st (st1.write o) :=
  h.refers_trans (Refers.refers_write _ _ ho)

theorem refers_on_success {st : State} {r : Status × State} {k : State → Status × State}
    (hr : Refers P st r.2) (hk : ∀ s, Refers P s (k s).2) : Refers P st (on_success r k).2 := by
  obtain ⟨s, st1⟩ := r
  cases s
  · exact hr.refers_trans (hk st1)
  · exact hr
  · exact hr

theorem refers_on_found {st : State} {r : Lookup × State} {root : ast_node}
    {k : Arg → State → Status × State}
    (hr : Refers P st r.2) (hk : ∀ a s, Refers P s (k a s).2) : Refers P st (on_found r root k).2 := by
  obtain ⟨s, st1⟩ := r
  cases s
  · exact hr.refers_trans (hk _ st1)
  · exact hr
  · exact hr

theorem refers_if_present {child : ast_node} {f : State → Status × State}
    (hf : ∀ s, Refers P s (f s).2) (st : State) : Refers P st (if_present child f st).2 := by
  cases child
  · exact Refers.refers_refl _
  · exact hf st

theorem refers_on_found_plain {st : State} {r : Lookup × State} {root : ast_node}
    {k : Arg → State → Status × State}
    (hr : Refers P st r.2) (hx : ∀ a, r.1 = .found a → a.plain = true)
    (hk : ∀ a s, a.plain = true → Refers P s (k a s).2) :
    Refers P st (on_found r root k).2 := by
  obtain ⟨s, st1⟩ := r
  cases s
  · exact hr.refers_trans (hk _ st1 (hx _ rfl))
  · exact hr
  · exact hr

theorem lookup_variable_plain {name : String} {memory : Bool} {st : State} {x : Arg}
    (h : (lookup_variable name memory st).1 = .found x) : x.plain = true := by
  unfold lookup_variable at h
  repeat' split at h
  all_goals simp only [Lookup.found.injEq, reduceCtorEq] at h
  all_goals subst h
  · unfold global_variable; split <;> rfl
  · unfold local_variable; split <;> rfl

theorem find_variable_body_plain {index : State → Status × State} {vnode : ast_node}
    {st : State} {memory : Bool} {x : Arg}
    (h : (find_variable_body index vnode st memory).1 = .found x) : x.plain = true := by
  unfold find_variable_body at h
  repeat' split at h
  all_goals first | exact lookup_variable_plain h | simp at h

theorem find_variable_plain {vnode : ast_node} {st : State} {memory : Bool} {x : Arg}
    (h : (find_variable vnode st memory).1 = .found x) : x.plain = true :=
  find_variable_body_plain h

theorem declare_variable_plain {vnode : ast_node} {st : State} {x : Arg}
    (h : (declare_variable vnode st).1 = .found x) : x.plain = true := by
  unfold declare_variable at h
  repeat' split at h
  all_goals first | exact find_variable_plain h | simp at h

theorem get_variable_found_plain {vnode : ast_node} {var : var_info} {text : Arg} {st : State}
    {x : Arg} (ht : text.plain = true)
    (h : (get_variable_found vnode var text st).1 = .found x) : x.plain = true := by
  unfold get_variable_found at h
  repeat' split at h
  all_goals simp only [Lookup.found.injEq, reduceCtorEq] at h
  subst h
  exact ht

theorem get_variable_plain {vnode : ast_node} {st : State} {x : Arg}
    (h : (get_variable vnode st).1 = .found x) : x.plain = true := by
  unfold get_variable at h
  repeat' split at h
  · exact get_variable_found_plain (by unfold global_variable; split <;> rfl) h
  · simp at h
  · exact get_variable_found_plain (by unfold local_variable; split <;> rfl) h
  · exact declare_variable_plain h
  · simp at h

theorem compile_shift_body_refers {index : State → Status × State}
    (h : ∀ s, Refers P s (index s).2) (vnode : ast_node) (st : State) :
    Refers P st (compile_shift_body index vnode st).2 := by
  unfold compile_shift_body
  split
  · exact Refers.refers_refl _
  · split
    · refine Refers.refers_trans (Refers.refers_write _ _ ?_) (Refers.refers_write _ _ ?_) <;> rfl
    · exact refers_on_success (h st) (fun s => Refers.refers_write _ _ rfl)

theorem find_variable_body_refers {index : State → Status × State}
    (h : ∀ s, Refers P s (index s).2) (vnode : ast_node) (st : State) (memory : Bool) :
    Refers P st (find_variable_body index vnode st memory).2 := by
  have hs := compile_shift_body_refers (P := P) h vnode st
  unfold find_variable_body
  split
  · exact Refers.refers_refl _
  · split <;> rename_i heq <;> rw [heq] at hs
    · exact hs
    · exact hs
    · split
      · rw [lookup_variable_state]; exact hs
      · exact hs

theorem compile_call_body_refers {params : State → Int → Status × State}
    (h : ∀ s n, Refers P s (params s n).2) (root : ast_node) (st : State) :
    Refers P st (compile_call_body params root st).2 := by
  unfold compile_call_body
  split
  · exact Refers.refers_refl _
  · split
    · exact Refers.refers_refl _
    · split
      · exact Refers.refers_refl _
      · exact Refers.refers_refl _
      · split
        · exact Refers.refers_refl _
        · refine refers_on_success (refers_if_present (fun s => h s _) st) (fun s => ?_)
          split
          · exact Refers.refers_refl _
          · exact (Refers.refers_set_local _ _).refers_trans
              (Refers.refers_write _ _ (call_sequence_referenced _ _))

theorem compile_expr_param_refers (n : ast_node) :
    (∀ st, Refers P st (compile_expr n st).2) ∧ (∀ st k, Refers P st (compile_param n st k).2) := by
  induction n with
  | nullptr => exact ⟨fun st => Refers.refers_refl _, fun st k => Refers.refers_refl _⟩
  | node a d left right ihl ihr =>
    constructor
    · intro st
      rw [compile_expr_node]
      split
      · exact compile_call_body_refers ihr.2 _ _
      · cases d with
        | number v => exact Refers.write_plain _ _ _ (number_str_plain v)
        | ident name =>
          have := find_variable_body_refers (P := P) ihr.1 (.node a (.ident name) left right) st true
          simp only [find_variable, ast_node.right]
          split <;> rename_i heq <;> simp only [heq] at this ⊢
          · exact this.refers_trans (Refers.write_plain _ _ _ (find_variable_body_plain (by rw [heq])))
          · exact this
          · exact this
        | keyword k =>
          refine refers_on_success (refers_if_present ihl.1 st) (fun s1 => ?_)
          refine refers_on_success (refers_if_present ihr.1 s1) (fun s2 => ?_)
          split
          · exact Refers.refers_write _ _ rfl
          · exact Refers.refers_refl _
    · intro st k
      rw [compile_param_node]
      refine refers_on_success (refers_if_present (fun s => ihl.2 s _) st) (fun s1 => ?_)
      refine refers_on_success (ihr.1 s1) (fun s2 => ?_)
      split
      · exact Refers.refers_refl _
      · exact (Refers.refers_set_local _ _).refers_trans (Refers.refers_write _ _ rfl)

theorem compile_expr_refers (n : ast_node) (st : State) : Refers P st (compile_expr n st).2 :=
  (compile_expr_param_refers n).1 st

theorem compile_param_refers (n : ast_node) (st : State) (k : Int) :
    Refers P st (compile_param n st k).2 :=
  (compile_expr_param_refers n).2 st k

theorem compile_shift_refers (vnode : ast_node) (st : State) :
    Refers P st (compile_shift vnode st).2 :=
  compile_shift_body_refers (compile_expr_refers _) vnode st

theorem find_variable_refers (vnode : ast_node) (st : State) (memory : Bool) :
    Refers P st (find_variable vnode st memory).2 :=
  find_variable_body_refers (compile_expr_refers _) vnode st memory

theorem compile_call_refers (root : ast_node) (st : State) : Refers P st (compile_call root st).2 :=
  compile_call_body_refers (compile_param_refers _) root st

theorem declare_variable_refers (vnode : ast_node) (st : State) :
    Refers P st (declare_variable vnode st).2 := by
  unfold declare_variable
  split
  · exact Refers.refers_refl _
  · exact Refers.refers_refl _
  · split
    · exact Refers.refers_refl _
    · split
      · exact (Refers.refers_set_local _ _).refers_trans (find_variable_refers _ _ _)
      · exact Refers.refers_refl _

theorem get_variable_found_refers (vnode : ast_node) (var : var_info) (text : Arg) (st : State) :
    Refers P st (get_variable_found vnode var text st).2 := by
  have hs := compile_shift_refers (P := P) vnode st
  unfold get_variable_found
  split <;> rename_i heq <;> rw [heq] at hs
  · split <;> exact hs
  · exact hs
  · exact hs

theorem get_variable_refers (vnode : ast_node) (st : State) :
    Refers P st (get_variable vnode st).2 := by
  unfold get_variable
  split
  · split
    · exact get_variable_found_refers _ _ _ _
    · split
      · exact Refers.refers_refl _
      · split
        · exact get_variable_found_refers _ _ _ _
        · exact declare_variable_refers _ _
  · exact Refers.refers_refl _

theorem create_variable_refers (vnode : ast_node) (st : State) :
    Refers P st (create_variable vnode st).2 := by
  have hs := find_variable_refers (P := P) vnode st true
  unfold create_variable
  split
  · exact Refers.refers_refl _
  · split <;> rename_i heq <;> rw [heq] at hs
    · exact hs
    · exact hs
    · exact hs.refers_trans (declare_variable_refers _ _)

theorem compile_assign_refers (root : ast_node) (st : State) :
    Refers P st (compile_assign root st).2 := by
  unfold compile_assign
  split
  · exact Refers.refers_refl _
  · split
    · exact Refers.refers_refl _
    · refine refers_on_success (compile_expr_refers _ _) (fun s => ?_)
      split
      · exact Refers.refers_refl _
      · exact refers_on_found_plain (get_variable_refers _ _) (fun a => get_variable_plain)
          (fun a s2 ha => Refers.write_plain _ _ _ ha)

theorem compile_return_refers (root : ast_node) (st : State) :
    Refers P st (compile_return root st).2 := by
  unfold compile_return
  split
  · exact Refers.refers_refl _
  · split
    · exact Refers.refers_refl _
    · split
      · exact Refers.refers_refl _
      · exact refers_on_success (compile_expr_refers _ _)
          (fun s => by refine Refers.refers_trans (Refers.refers_write _ _ ?_) (Refers.refers_write _ _ ?_) <;> rfl)

theorem compile_show_refers (root : ast_node) (st : State) :
    Refers P st (compile_show root st).2 := by
  unfold compile_show
  split
  · exact Refers.refers_refl _
  · split
    · exact Refers.refers_refl _
    · refine refers_on_found_plain (find_variable_refers _ _ _)
        (fun a => find_variable_plain) (fun a s ha => ?_)
      rename_i x1 x2 left right h
      have hs := compile_expr_refers (P := P) right (CMD .PUSH (some a) s)
      split <;> rename_i heq <;> rw [heq] at hs
      · exact Refers.refers_trans (Refers.write_plain _ _ _ ha) hs
      · exact Refers.refers_write_right (Refers.refers_trans (Refers.write_plain _ _ _ ha) hs) _ rfl

theorem create_local_table_refers (n : ast_node) :
    ∀ st, Refers P st (create_local_table n st).2 := by
  induction n with
  | nullptr => exact fun st => Refers.refers_refl _
  | node a d left right ihl _ =>
    intro st
    rw [create_local_table_node]
    split
    · exact Refers.refers_refl _
    · refine refers_on_success (refers_if_present ihl st) (fun s1 => ?_)
      split
      · exact Refers.refers_refl _
      · exact refers_on_found (create_variable_refers _ _) (fun _ s2 => Refers.refers_refl _)

theorem create_global_table_refers (n : ast_node) :
    ∀ st, Refers P st (create_global_table n st).2 := by
  induction n with
  | nullptr => exact fun st => Refers.refers_refl _
  | node a d left right ihl _ =>
    intro st
    rw [create_global_table_node]
    split
    · exact Refers.refers_refl _
    · refine refers_on_success (refers_if_present ihl st) (fun s1 => ?_)
      split
      · exact Refers.refers_refl _
      · exact compile_assign_refers _ _
      · exact Refers.refers_refl _

end

theorem Refers.write_id (st : State) (o : List Line) (A : List Nat)
    (h : ∀ x ∈ referenced_labels o, x.2 ∈ A) :
    Refers (fun x => x.2 ∈ A) st (st.write o) :=
  ⟨o, rfl, h⟩

theorem Refers.refers_out {P : String × Nat → Prop} {st st1 : State} {code : List Line}
    (h : Refers P st st1) (hf : st1.file = st.file ++ code) :
    ∀ x ∈ referenced_labels code, P x := by
  obtain ⟨o, e, m⟩ := h
  rw [e, List.append_cancel_left_eq] at hf
  rw [← hf]
  exact m

/-- Every statement compiler refers only to synthesized labels of nodes of the
tree it was given, whatever the outcome. -/
theorem compile_stmt_if_while_refers (n : ast_node) :
    ((∀ st, Refers (fun x => x.2 ∈ addresses n) st (compile_stmt n st).2) ∧
      (∀ st, Refers (fun x => x.2 ∈ addresses n) st (compile_if n st).2) ∧
      (∀ st, Refers (fun x => x.2 ∈ addresses n) st (compile_while n st).2)) ∧
    (∀ st, Refers (fun x => x.2 ∈ addresses n.left) st (compile_stmt n.left st).2) ∧
    (∀ st, Refers (fun x => x.2 ∈ addresses n.right) st (compile_stmt n.right st).2) := by
  induction n with
  | nullptr =>
    exact ⟨⟨fun st => Refers.refers_refl _, fun st => Refers.refers_refl _, fun st => Refers.refers_refl _⟩,
      fun st => Refers.refers_refl _, fun st => Refers.refers_refl _⟩
  | node a d left right ihl ihr =>
    have hl : ∀ x : String × Nat, x.2 ∈ addresses left →
        x.2 ∈ addresses (.node a d left right) := by
      intro x h; rw [addresses_node]; simp [h]
    have hr : ∀ x : String × Nat, x.2 ∈ addresses right →
        x.2 ∈ addresses (.node a d left right) := by
      intro x h; rw [addresses_node]; simp [h]
    have hrl : ∀ x : String × Nat, x.2 ∈ addresses right.left →
        x.2 ∈ addresses (.node a d left right) := by
      intro x h
      refine hr x ?_
      cases right with
      | nullptr => exact h
      | node ra rd rl rr => rw [addresses_node]; simp only [ast_node.left] at h; simp [h]
    have hrr : ∀ x : String × Nat, x.2 ∈ addresses right.right →
        x.2 ∈ addresses (.node a d left right) := by
      intro x h
      refine hr x ?_
      cases right with
      | nullptr => exact h
      | node ra rd rl rr => rw [addresses_node]; simp only [ast_node.right] at h; simp [h]
    have ha : ∀ (o : List Line) (s : State),
        (∀ x ∈ referenced_labels o, x.2 = a) →
        Refers (fun x => x.2 ∈ addresses (.node a d left right)) s (s.write o) := by
      intro o s h
      exact Refers.write_id _ _ _ (fun x hx => by rw [h x hx, addresses_node]; simp)
    refine ⟨⟨?_, ?_, ?_⟩, ihl.1.1, ihr.1.1⟩
    · intro st
      rw [compile_stmt_node]
      split
      · exact Refers.refers_refl _
      · refine refers_on_success ((refers_if_present ihl.1.1 st).refers_mono hl) (fun s1 => ?_)
        split
        · exact Refers.refers_refl _
        · exact compile_assign_refers _ _
        · exact (ihr.1.2.1 _).refers_mono hr
        · exact (ihr.1.2.2 _).refers_mono hr
        · exact compile_show_refers _ _
        · exact refers_on_success (compile_call_refers _ _) (fun s => Refers.refers_write _ _ rfl)
        · exact refers_on_success (compile_expr_refers _ _) (fun s => Refers.refers_write _ _ rfl)
        · exact compile_return_refers _ _
        · exact Refers.refers_refl _
        · exact Refers.refers_refl _
    · intro st
      rw [compile_if_node]
      simp only [CMD_eq_write, LABEL_eq_write, WRITE_eq_write, State.write_write]
      split
      · exact Refers.refers_refl _
      · refine refers_on_success
          (Refers.refers_trans (Refers.refers_write _ _ ?_) (compile_expr_refers _ _)) (fun s1 => ?_)
        · rfl
        split
        · exact ha _ _ (by simp [referenced_labels])
        · exact ha _ _ (by simp [referenced_labels])
        · refine refers_on_success
            (Refers.refers_trans (ha _ _ (by simp [referenced_labels])) ((ihr.2.1 _).refers_mono hrl))
            (fun s3 => ?_)
          split
          · exact ha _ _ (by simp [referenced_labels])
          · exact refers_on_success
              (Refers.refers_trans (ha _ _ (by simp [referenced_labels])) ((ihr.2.2 _).refers_mono hrr))
              (fun s4 => ha _ _ (by simp [referenced_labels]))
    · intro st
      rw [compile_while_node]
      simp only [CMD_eq_write, LABEL_eq_write, WRITE_eq_write, State.write_write]
      split
      · exact Refers.refers_refl _
      · split
        · exact Refers.refers_write _ _ rfl
        · split
          · exact ha _ _ (by simp [referenced_labels])
          · refine refers_on_success
              (Refers.refers_trans (ha _ _ (by simp [referenced_labels])) (compile_expr_refers _ _))
              (fun s2 => ?_)
            exact refers_on_success
              (Refers.refers_trans (ha _ _ (by simp [referenced_labels])) ((ihr.1.1 _).refers_mono hr))
              (fun s3 => ha _ _ (by simp [referenced_labels]))

theorem compile_stmt_refers (n : ast_node) (st : State) :
    Refers (fun x => x.2 ∈ addresses n) st (compile_stmt n st).2 :=
  (compile_stmt_if_while_refers n).1.1 st

theorem Quiet.quiet_out {st st1 : State} {code : List Line} (h : Quiet st st1)
    (hf : st1.file = st.file ++ code) : declared_labels code = [] := by
  obtain ⟨o, e, q⟩ := h
  rw [e, List.append_cancel_left_eq] at hf
  rw [← hf]
  exact q

theorem Declares.out {P : String × Nat → Prop} {st st1 : State} {code : List Line}
    (h : Declares P st st1) (hf : st1.file = st.file ++ code) :
    (declared_labels code).Nodup ∧ ∀ x ∈ declared_labels code, P x := by
  obtain ⟨o, e, n, m⟩ := h
  rw [e, List.append_cancel_left_eq] at hf
  rw [← hf]
  exact ⟨n, m⟩

theorem if_without_else_labels (a : Nat) (code_c code_t : List Line) (A : List Nat)
    (hc : declared_labels code_c = []) (ht : ∀ x ∈ declared_labels code_t, x.2 ∈ A)
    (ha : a ∉ A) :
    (declared_labels (if_without_else a code_c code_t)).count ("if_fail", a) = 1 ∧
      ("if_end", a) ∉ declared_labels (if_without_else a code_c code_t) := by
  have e : declared_labels (if_without_else a code_c code_t) =
      declared_labels code_t ++ [("if_fail", a)] := by
    simp [if_without_else, declared_labels_append, declared_labels, hc]
  rw [e]
  constructor
  · rw [List.count_append, List.count_eq_zero.2 (fun hm => ha (ht _ hm))]
    simp
  · intro hm
    rw [List.mem_append] at hm
    rcases hm with hm | hm
    · exact ha (ht _ hm)
    · simp at hm

theorem if_with_else_labels (a : Nat) (code_c code_t code_e : List Line) (A B : List Nat)
    (hc : declared_labels code_c = []) (ht : ∀ x ∈ declared_labels code_t, x.2 ∈ A)
    (he : ∀ x ∈ declared_labels code_e, x.2 ∈ B) (ha : a ∉ A) (hb : a ∉ B) :
    (declared_labels (if_with_else a code_c code_t code_e)).count ("if_fail", a) = 1 ∧
      (declared_labels (if_with_else a code_c code_t code_e)).count ("if_end", a) = 1 := by
  have e : declared_labels (if_with_else a code_c code_t code_e) =
      declared_labels code_t ++ [("if_fail", a)] ++ declared_labels code_e ++
        [("if_end", a)] := by
    simp [if_with_else, declared_labels_append, declared_labels, hc]
  rw [e]
  constructor
  · rw [List.count_append, List.count_append, List.count_append,
      List.count_eq_zero.2 (fun hm => ha (ht _ hm)),
      List.count_eq_zero.2 (fun hm => hb (he _ hm))]
    simp
  · rw [List.count_append, List.count_append, List.count_append,
      List.count_eq_zero.2 (fun hm => ha (ht _ hm)),
      List.count_eq_zero.2 (fun hm => hb (he _ hm))]
    simp

theorem if_without_else_references (a : Nat) (code_c code_t : List Line) (A : List Nat)
    (hc : ∀ x ∈ referenced_labels code_c, False)
    (ht : ∀ x ∈ referenced_labels code_t, x.2 ∈ A) (ha : a ∉ A) :
    ("if_end", a) ∉ referenced_labels (if_without_else a code_c code_t) := by
  have e : referenced_labels (if_without_else a code_c code_t) =
      referenced_labels code_c ++ [("if_fail", a)] ++ referenced_labels code_t := by
    simp [if_without_else, referenced_labels_append, referenced_labels]
  rw [e]
  intro hm
  rw [List.mem_append, List.mem_append] at hm
  rcases hm with (hm | hm) | hm
  · exact hc _ hm
  · simp at hm
  · exact ha (ht _ hm)

/-! ## The lowering of `if` -/

/-- Claim C18. When `compile_if` succeeds on an `If` node at address `a` with
condition `c`, then-branch `t` and else-branch `e`, what it appends to the
output is the comment line `; IF` followed by: the code of `c`, `PUSH 0`,
`JE if_fail.a`, the code of `t`, and then either the label `if_fail.a` (no
else-branch) or `JMP if_end.a`, the label `if_fail.a`, the code of `e` and the
label `if_end.a`.  When the nodes of the statement have distinct addresses,
each label jumped to is declared exactly once in these lines, and `if_end.a`
is neither declared nor referred to when there is no else-branch. -/
theorem if_lowering (a : Nat) (d : node_data) (c decision : ast_node) (st st1 : State)
    (h : compile_if (.node a d c decision) st = (.success, st1)) :
    ∃ s1 s2 code_c code_t,
      compile_expr c (WRITE st "; IF") = (.success, s1) ∧
      s1.file = st.file ++ .write "; IF" :: code_c ∧
      compile_stmt decision.left
          (CMD .JE (some (.id "if_fail" a)) (CMD .PUSH (some (.number 0)) s1)) =
        (.success, s2) ∧
      s2.file = s1.file ++
        [.cmd .PUSH (some (.number 0)), .cmd .JE (some (.id "if_fail" a))] ++ code_t ∧
      (decision.right = .nullptr →
        st1 = LABEL s2 (.id "if_fail" a) ∧
        st1.file = st.file ++ .write "; IF" :: if_without_else a code_c code_t ∧
        ((addresses (.node a d c decision)).Nodup →
          (declared_labels (if_without_else a code_c code_t)).count ("if_fail", a) = 1 ∧
          ("if_end", a) ∉ declared_labels (if_without_else a code_c code_t) ∧
          ("if_end", a) ∉ referenced_labels (if_without_else a code_c code_t))) ∧
      (decision.right ≠ .nullptr →
        ∃ s3 code_e,
          compile_stmt decision.right
              (LABEL (CMD .JMP (some (.id "if_end" a)) s2) (.id "if_fail" a)) =
            (.success, s3) ∧
          s3.file = s2.file ++
            [.cmd .JMP (some (.id "if_end" a)), .label (.id "if_fail" a)] ++ code_e ∧
          st1 = LABEL s3 (.id "if_end" a) ∧
          st1.file = st.file ++ .write "; IF" :: if_with_else a code_c code_t code_e ∧
          ((addresses (.node a d c decision)).Nodup →
            (declared_labels (if_with_else a code_c code_t code_e)).count ("if_fail", a) = 1 ∧
            (declared_labels (if_with_else a code_c code_t code_e)).count ("if_end", a) = 1)) := by
  rw [compile_if_node] at h
  simp only [CMD_eq_write, LABEL_eq_write, WRITE_eq_write, State.write_write] at h ⊢
  split at h
  · simp at h
  · obtain ⟨s1, h1, h2⟩ := on_success_eq_success.1 h
    have q1 := compile_expr_quiet c (st.write [.write "; IF"])
    rw [h1] at q1
    obtain ⟨code_c, e1⟩ := (compile_expr_step c (st.write [.write "; IF"])).file
    rw [h1] at e1
    have hc := q1.quiet_out e1.symm
    have r1 := compile_expr_refers (P := fun _ => False) c (st.write [.write "; IF"])
    rw [h1] at r1
    have hcr := r1.refers_out e1.symm
    split at h2
    · simp at h2
    · simp at h2
    · rename_i da dd ta td tl tr dright hk
      obtain ⟨s2, h3, h4⟩ := on_success_eq_success.1 h2
      obtain ⟨code_t, e2⟩ := (compile_stmt_step (.node ta td tl tr) (s1.write
        ([.cmd .PUSH (some (.number 0))] ++ [.cmd .JE (some (.id "if_fail" a))]))).file
      rw [h3] at e2
      have ht : (addresses (.node ta td tl tr)).Nodup →
          ∀ x ∈ declared_labels code_t, x.2 ∈ addresses (.node ta td tl tr) := by
        intro hn
        have q2 := compile_stmt_declares (.node ta td tl tr) hn (s1.write
          ([.cmd .PUSH (some (.number 0))] ++ [.cmd .JE (some (.id "if_fail" a))]))
        rw [h3] at q2
        exact (q2.out e2.symm).2
      have hnd : (addresses (.node a d c (.node da dd (.node ta td tl tr) dright))).Nodup →
          (addresses (.node ta td tl tr)).Nodup ∧ (addresses dright).Nodup ∧
          a ∉ addresses (.node ta td tl tr) ∧ a ∉ addresses dright := by
        intro hn
        rw [addresses_node a d, addresses_node da dd, List.nodup_cons, List.nodup_append,
          List.nodup_cons, List.nodup_append] at hn
        obtain ⟨hn1, _, ⟨_, hn2, hn3, _⟩, _⟩ := hn
        simp only [List.mem_append, List.mem_cons, not_or] at hn1
        exact ⟨hn2, hn3, hn1.2.2.1, hn1.2.2.2⟩
      refine ⟨s1, s2, code_c, code_t, h1, ?_, h3, ?_, ?_, ?_⟩
      · rw [← e1]; simp
      · rw [← e2]; simp
      · intro hr
        simp only [ast_node.right] at hr
        subst hr
        simp only [Prod.mk.injEq, true_and] at h4
        refine ⟨h4.symm, ?_, fun hn => ?_⟩
        · rw [← h4, State.write_file, ← e2, State.write_file, ← e1]
          simp [if_without_else]
        · obtain ⟨hn2, _, hat, _⟩ := hnd hn
          have r2 := compile_stmt_refers (.node ta td tl tr) (s1.write
            ([.cmd .PUSH (some (.number 0))] ++ [.cmd .JE (some (.id "if_fail" a))]))
          rw [h3] at r2
          obtain ⟨hl1, hl2⟩ := if_without_else_labels a code_c code_t _ hc (ht hn2) hat
          exact ⟨hl1, hl2, if_without_else_references a code_c code_t _ hcr (r2.refers_out e2.symm) hat⟩
      · intro hr
        split at h4
        · exact absurd rfl hr
        · rename_i ea ed el er
          obtain ⟨s3, h5, h6⟩ := on_success_eq_success.1 h4
          obtain ⟨code_e, e3⟩ := (compile_stmt_step (.node ea ed el er) (s2.write
            ([.cmd .JMP (some (.id "if_end" a))] ++ [.label (.id "if_fail" a)]))).file
          rw [h5] at e3
          simp only [Prod.mk.injEq, true_and] at h6
          refine ⟨s3, code_e, h5, ?_, h6.symm, ?_, fun hn => ?_⟩
          · rw [← e3]; simp
          · rw [← h6, State.write_file, ← e3, State.write_file, ← e2, State.write_file, ← e1]
            simp [if_with_else]
          · obtain ⟨hn2, hn3, hat, hae⟩ := hnd hn
            have q3 := compile_stmt_declares (.node ea ed el er) hn3 (s2.write
              ([.cmd .JMP (some (.id "if_end" a))] ++ [.label (.id "if_fail" a)]))
            rw [h5] at q3
            exact if_with_else_labels a code_c code_t code_e _ _ hc (ht hn2)
              (q3.out e3.symm).2 hat hae

/-- Claim C18 at `if (q) { q = 1; }` and at `if (q) { q = 1; } else { q = 2; }`. -/
theorem if_lowering_witness :
    (∃ code_c code_t, (compile_if sample_if sample_state).2.file =
        sample_state.file ++ .write "; IF" :: if_without_else 180 code_c code_t ∧
      (declared_labels (if_without_else 180 code_c code_t)).count ("if_fail", 180) = 1 ∧
      ("if_end", 180) ∉ declared_labels (if_without_else 180 code_c code_t) ∧
      ("if_end", 180) ∉ referenced_labels (if_without_else 180 code_c code_t)) ∧
    ∃ code_c code_t code_e, (compile_if sample_if_else sample_state).2.file =
        sample_state.file ++ .write "; IF" :: if_with_else 190 code_c code_t code_e ∧
      (declared_labels (if_with_else 190 code_c code_t code_e)).count ("if_fail", 190) = 1 ∧
      (declared_labels (if_with_else 190 code_c code_t code_e)).count ("if_end", 190) = 1 := by
  constructor
  · obtain ⟨s1, s2, code_c, code_t, _, _, _, _, h1, _⟩ :=
      if_lowering 180 (.keyword AST_IF) (mk_ident 181 "q") sample_decision sample_state
        (compile_if sample_if sample_state).2 rfl
    obtain ⟨_, hf, hl⟩ := h1 rfl
    exact ⟨code_c, code_t, hf, hl (by decide)⟩
  · obtain ⟨s1, s2, code_c, code_t, _, _, _, _, _, h2⟩ :=
      if_lowering 190 (.keyword AST_IF) (mk_ident 191 "q") sample_if_else.right sample_state
        (compile_if sample_if_else sample_state).2 rfl
    obtain ⟨s3, code_e, _, _, _, hf, hl⟩ := h2 (by decide)
    exact ⟨code_c, code_t, code_e, hf, hl (by decide)⟩

/-! ## Scope accounting at a call site -/

/-- Claim C21, which the code does not meet for every frame size.  When
`compile_call` succeeds on a call, in a local scope table `loc` of frame size
`S = loc.shift`: the arguments were staged with one slot reserved per argument,
the state after the call differs from the one before only by the lines
written, so the local scope table is `loc` again (same entries, same frame
size), and the lines written end with `PUSH bx; PUSH s; ADD; POP bx;
CALL callee; PUSH ax; PUSH bx; PUSH s; SUB; POP bx`, where both times `s` is
the text that `number_str` writes for `S`.  The same holds for the calls inside
the arguments, as every expression that compiles leaves the state as it was,
lines apart.  But `s` is not always `S`: after
`a[500000] = 0; b[500001] = 0; x = 7;` the frame size is 1000002, and the call
`g(x)` restores the scope table and writes the code of the argument,
`POP [bx + 1000002 + hx]`, and then the tail with `PUSH 1e+06` in both
adjustments. -/
theorem call_restores_scope :
    (∀ root st st1, compile_call root st = (.success, st1) →
      ∃ loc func out, st.local_table = some loc ∧
        find_function root.left st.func = .found func ∧
        if_present root.right
            (fun s => compile_param root.right s ((func.n_params : Int) - 1)) st =
          (.success, (st.set_local (add_params (count_params root.right) loc)).write out) ∧
        st1.local_table = some loc ∧ st1.local_scope = st.local_scope ∧
        st1.global_scope = st.global_scope ∧ st1.func = st.func ∧
        st1.file = st.file ++ out ++
          [.cmd .PUSH (some (.reg .bx)), .cmd .PUSH (some (number_str (.of_int loc.shift))),
           .cmd .ADD none,
           .cmd .POP (some (.reg .bx)), .cmd .CALL (some (.name func.ident)),
           .cmd .PUSH (some (.reg .ax)), .cmd .PUSH (some (.reg .bx)),
           .cmd .PUSH (some (number_str (.of_int loc.shift))), .cmd .SUB none,
           .cmd .POP (some (.reg .bx))]) ∧
    (∀ e st st1, compile_expr e st = (.success, st1) →
      st1.local_scope = st.local_scope ∧ st1.global_scope = st.global_scope ∧
        st1.func = st.func) ∧
    ((compile_stmt sample_large_frame_program.left.right.right.left fresh_state).2.local_scope =
        .own sample_large_scope ∧
      sample_large_scope.shift = 1000002 ∧
      compile_call sample_large_call sample_large_state =
        (.success, sample_large_state.write
          [.cmd .PUSH (some (.number 0)), .cmd .POP (some (.reg .hx)),
           .cmd .PUSH (some (.memory .bx 1000001 .hx)),
           .cmd .POP (some (.memory .bx 1000002 .hx)),
           .cmd .PUSH (some (.reg .bx)), .cmd .PUSH (some (.decimal false 1 6)), .cmd .ADD none,
           .cmd .POP (some (.reg .bx)), .cmd .CALL (some (.name "g")),
           .cmd .PUSH (some (.reg .ax)), .cmd .PUSH (some (.reg .bx)),
           .cmd .PUSH (some (.decimal false 1 6)), .cmd .SUB none,
           .cmd .POP (some (.reg .bx))]) ∧
      number_str (.of_int 1000002) ≠ .number 1000002) := by
  refine ⟨?_, ?_, by decide⟩
  · intro root st st1 h
    obtain ⟨loc, func, out, hl, -, hfind, -, hparam, rfl⟩ := compile_call_success h
    refine ⟨loc, func, out, hl, hfind, hparam, ?_, rfl, rfl, rfl, ?_⟩
    · simpa using hl
    · simp [call_sequence, LOCAL_REG, RETURN_REG]
  · intro e st st1 h
    obtain ⟨out, rfl⟩ := compile_expr_frame h
    exact ⟨rfl, rfl, rfl⟩

/-- Claim C21 at `f(1, f(1, 2))` in a scope of frame size 1: the outer call
adjusts the frame base by 1, and the inner call, compiled with the slot of the
first argument reserved, by 2. -/
theorem call_restores_scope_witness :
    (∃ out, (compile_call sample_nested_call sample_state).2.local_table = some sample_scope ∧
      (compile_call sample_nested_call sample_state).2.file = sample_state.file ++ out ++
        [.cmd .PUSH (some (.reg .bx)), .cmd .PUSH (some (.number 1)), .cmd .ADD none,
         .cmd .POP (some (.reg .bx)), .cmd .CALL (some (.name "f")),
         .cmd .PUSH (some (.reg .ax)), .cmd .PUSH (some (.reg .bx)),
         .cmd .PUSH (some (.number 1)), .cmd .SUB none, .cmd .POP (some (.reg .bx))]) ∧
    (∃ out, (compile_call sample_nested_call.right.right
          (sample_state.set_local (add_params 1 sample_scope))).2.local_table =
        some (add_params 1 sample_scope) ∧
      (compile_call sample_nested_call.right.right
          (sample_state.set_local (add_params 1 sample_scope))).2.file = sample_state.file ++ out ++
        [.cmd .PUSH (some (.reg .bx)), .cmd .PUSH (some (.number 2)), .cmd .ADD none,
         .cmd .POP (some (.reg .bx)), .cmd .CALL (some (.name "f")),
         .cmd .PUSH (some (.reg .ax)), .cmd .PUSH (some (.reg .bx)),
         .cmd .PUSH (some (.number 2)), .cmd .SUB none, .cmd .POP (some (.reg .bx))]) := by
  constructor
  · obtain ⟨loc, func, out, hl, hf, -, hl1, -, -, -, hfile⟩ :=
      call_restores_scope.1 sample_nested_call sample_state
        (compile_call sample_nested_call sample_state).2 rfl
    have e1 : loc = sample_scope := by
      have : some sample_scope = some loc := hl
      exact (Option.some.inj this).symm
    have e2 : func = { node := .nullptr, ident := "f", n_params := 2 } := by
      have : FuncLookup.found { node := .nullptr, ident := "f", n_params := 2 } =
          FuncLookup.found func := hf
      exact (FuncLookup.found.inj this).symm
    subst e1 e2
    exact ⟨out, hl1, hfile⟩
  · obtain ⟨loc, func, out, hl, hf, -, hl1, -, -, -, hfile⟩ :=
      call_restores_scope.1 sample_nested_call.right.right
        (sample_state.set_local (add_params 1 sample_scope))
        (compile_call sample_nested_call.right.right
          (sample_state.set_local (add_params 1 sample_scope))).2 rfl
    have e1 : loc = add_params 1 sample_scope := by
      have : some (add_params 1 sample_scope) = some loc := hl
      exact (Option.some.inj this).symm
    have e2 : func = { node := .nullptr, ident := "f", n_params := 2 } := by
      have : FuncLookup.found { node := .nullptr, ident := "f", n_params := 2 } =
          FuncLookup.found func := hf
      exact (FuncLookup.found.inj this).symm
    subst e1 e2
    exact ⟨out, hl1, hfile⟩

/-! ## What `compile_show` does with a failing expression -/

/-- Claim C22, which the code does not meet.  When the target of a `Show`
resolves and the expression to display returns a syntax error, `compile_show`
returns success and writes `SHW` after the lines of the failed expression; so
does `compile_stmt` on the statement `show q, y` with `y` bound nowhere. -/
theorem show_drops_expression_error :
    (∀ a left right st text st1 e st2, find_variable left st false = (.found text, st1) →
      compile_expr right (CMD .PUSH (some text) st1) = (.syntax_error e, st2) →
      compile_show (.node a (.keyword AST_SHOW) left right) st =
        (.success, CMD .SHW none st2)) ∧
    (compile_expr (mk_ident 243 "y")
        (sample_state.write [.cmd .PUSH (some (.number 0)), .cmd .POP (some (.reg .hx)),
          .cmd .PUSH (some (.address .bx 0 .hx))])).1 = .syntax_error (mk_ident 243 "y") ∧
    compile_stmt sample_show sample_state =
      (.success, sample_state.write
        [.cmd .PUSH (some (.number 0)), .cmd .POP (some (.reg .hx)),
         .cmd .PUSH (some (.address .bx 0 .hx)),
         .cmd .PUSH (some (.number 0)), .cmd .POP (some (.reg .hx)),
         .cmd .SHW none]) := by
  refine ⟨?_, by decide, by decide⟩
  intro a left right st text st1 e st2 hf he
  simp only [CMD_eq_write] at he
  simp [compile_show, keyword, on_found, hf, he]

/-- Claim C22 at `show q, y`. -/
theorem show_drops_expression_error_witness :
    compile_show (mk_keyword 241 AST_SHOW (mk_ident 242 "q") (mk_ident 243 "y")) sample_state =
      (.success, CMD .SHW none
        (compile_expr (mk_ident 243 "y")
          (CMD .PUSH (some (.address .bx 0 .hx))
            (find_variable (mk_ident 242 "q") sample_state false).2)).2) :=
  show_drops_expression_error.1 241 (mk_ident 242 "q") (mk_ident 243 "y") sample_state
    (.address .bx 0 .hx) (find_variable (mk_ident 242 "q") sample_state false).2
    (mk_ident 243 "y") _ (by decide) (by decide)

/-! ## The shift register at the staging of an argument -/

/-- Claim C23, which the code does not meet.  In
`main() { a[5] = 1; return g(a[2]); }  g(x) { return x; }` the argument is
staged by `POP [bx + 5 + hx]` directly after its code `PUSH 2; POP hx;
PUSH [bx + 0 + hx]`, so the shift register was last loaded with 2; and in
`main() { return g(7); }  g(x) { return x; }` the argument is staged by
`POP [bx + 0 + hx]` before any line has loaded the shift register. -/
theorem staging_keeps_last_shift :
    (compile_tree sample_array_argument_program =
        (.EXIT_SUCCESS,
          [.cmd .PUSH (some (.number 0)), .cmd .PUSH (some (.reg .bx)), .cmd .ADD none,
           .cmd .POP (some (.reg .bx)), .cmd .CALL (some (.name "main")), .cmd .HLT none,
           .label (.name "main"),
           .cmd .PUSH (some (.number 1)), .cmd .PUSH (some (.number 5)),
           .cmd .POP (some (.reg .hx)), .cmd .POP (some (.memory .bx 0 .hx)),
           .cmd .PUSH (some (.number 2)), .cmd .POP (some (.reg .hx)),
           .cmd .PUSH (some (.memory .bx 0 .hx))] ++
          .cmd .POP (some (.memory .bx 5 .hx)) ::
          (call_sequence 5 "g" ++
            [.cmd .POP (some (.reg .ax)), .cmd .RET none,
             .cmd .PUSH (some (.number 0)), .cmd .POP (some (.reg .hx)),
             .cmd .PUSH (some (.number 0)), .cmd .POP (some (.reg .hx)),
             .label (.name "g"),
             .cmd .PUSH (some (.number 0)), .cmd .POP (some (.reg .hx)),
             .cmd .PUSH (some (.memory .bx 0 .hx)),
             .cmd .POP (some (.reg .ax)), .cmd .RET none])) ∧
      last_shift_load
          [.cmd .PUSH (some (.number 0)), .cmd .PUSH (some (.reg .bx)), .cmd .ADD none,
           .cmd .POP (some (.reg .bx)), .cmd .CALL (some (.name "main")), .cmd .HLT none,
           .label (.name "main"),
           .cmd .PUSH (some (.number 1)), .cmd .PUSH (some (.number 5)),
           .cmd .POP (some (.reg .hx)), .cmd .POP (some (.memory .bx 0 .hx)),
           .cmd .PUSH (some (.number 2)), .cmd .POP (some (.reg .hx)),
           .cmd .PUSH (some (.memory .bx 0 .hx))] = some (some (.number 2))) ∧
    ((compile_tree sample_literal_argument_program).2 =
        [.cmd .PUSH (some (.number 0)), .cmd .PUSH (some (.reg .bx)), .cmd .ADD none,
         .cmd .POP (some (.reg .bx)), .cmd .CALL (some (.name "main")), .cmd .HLT none,
         .label (.name "main"), .cmd .PUSH (some (.number 7))] ++
        .cmd .POP (some (.memory .bx 0 .hx)) ::
        (call_sequence 0 "g" ++
          [.cmd .POP (some (.reg .ax)), .cmd .RET none,
           .cmd .PUSH (some (.number 0)), .cmd .POP (some (.reg .hx)),
           .cmd .PUSH (some (.number 0)), .cmd .POP (some (.reg .hx)),
           .label (.name "g"),
           .cmd .PUSH (some (.number 0)), .cmd .POP (some (.reg .hx)),
           .cmd .PUSH (some (.memory .bx 0 .hx)),
           .cmd .POP (some (.reg .ax)), .cmd .RET none]) ∧
      last_shift_load
          [.cmd .PUSH (some (.number 0)), .cmd .PUSH (some (.reg .bx)), .cmd .ADD none,
           .cmd .POP (some (.reg .bx)), .cmd .CALL (some (.name "main")), .cmd .HLT none,
           .label (.name "main"), .cmd .PUSH (some (.number 7))] = none) := by
  decide

/-! ## The lines before the label of a function -/

/-- Claim C24, which the code does not meet.  For `g(p) { return p; }`,
`compile_tree` writes `PUSH 0; POP hx` twice between the preamble and the
label `g`: declaring the formal parameter `p` runs `find_variable` twice, and
each run loads the shift register. -/
theorem parameters_write_before_label :
    compile_tree sample_entry_program =
      (.EXIT_SUCCESS,
        preamble 0 ++
        [.cmd .PUSH (some (.number 0)), .cmd .POP (some (.reg .hx)),
         .cmd .PUSH (some (.number 0)), .cmd .POP (some (.reg .hx)),
         .label (.name "g"),
         .cmd .PUSH (some (.number 0)), .cmd .POP (some (.reg .hx)),
         .cmd .PUSH (some (.memory .bx 0 .hx)),
         .cmd .POP (some (.reg .ax)), .cmd .RET none]) ∧
      (create_local_table (mk_keyword 33 AST_PARAM .nullptr (mk_ident 34 "p")) fresh_state).2.file =
        [.cmd .PUSH (some (.number 0)), .cmd .POP (some (.reg .hx)),
         .cmd .PUSH (some (.number 0)), .cmd .POP (some (.reg .hx))] := by
  decide

/-! ## Creating a variable that is bound already -/

theorem lookup_variable_bound {name : String} {st : State}
    (h : (scope_table_find st.global_scope name).isSome ∨
      ∃ loc, st.local_table = some loc ∧ (scope_table_find loc name).isSome)
    (memory : Bool) : ∃ text, lookup_variable name memory st = (.found text, st) := by
  unfold lookup_variable
  cases hg : scope_table_find st.global_scope name with
  | some var => exact ⟨_, rfl⟩
  | none =>
    rcases h with h | ⟨loc, hl, hn⟩
    · simp [hg] at h
    · cases hf : scope_table_find loc name with
      | some var => exact ⟨local_variable var memory, by simp [hl, hf]⟩
      | none => simp [hf] at hn

/-- Claim C25, as stated, fails: declaring the formal parameters `(a, a)` in a
fresh local scope returns the syntax error at the second `Param` node, and
`x = 1;  f(x) { return x; }`, whose parameter has the name of a global
variable, does not compile. -/
theorem repeated_parameter_rejected :
    (create_local_table sample_repeated_params fresh_state).1 =
        .syntax_error sample_repeated_params ∧
      (create_variable (mk_ident 253 "a")
        (create_local_table sample_repeated_params.left fresh_state).2).1 = .nullptr ∧
      (compile_tree sample_shadowing_program).1 = .EXIT_FAILURE := by
  decide

/-- Claim C25, amended.  For an identifier that is bound already, in the global
scope table or in the local one, `create_variable` never returns an operand;
for a scalar it returns the null pointer, having written `PUSH 0; POP hx` and
changed neither scope table, and `create_local_table` then returns the syntax
error at the `Param` node of that identifier. -/
theorem create_variable_rejects_bound (name : String) (st : State)
    (hbound : (scope_table_find st.global_scope name).isSome ∨
      ∃ loc, st.local_table = some loc ∧ (scope_table_find loc name).isSome) :
    (∀ vnode text, ast_ident vnode = some name → (create_variable vnode st).1 ≠ .found text) ∧
    (∀ a l, create_variable (.node a (.ident name) l .nullptr) st =
      (.nullptr, st.write [.cmd .PUSH (some (.number 0)), .cmd .POP (some (.reg .hx))])) ∧
    (∀ pa left a l st0, if_present left (create_local_table left) st0 = (.success, st) →
      create_local_table (.node pa (.keyword AST_PARAM) left (.node a (.ident name) l .nullptr))
          st0 =
        (.syntax_error (.node pa (.keyword AST_PARAM) left (.node a (.ident name) l .nullptr)),
          st.write [.cmd .PUSH (some (.number 0)), .cmd .POP (some (.reg .hx))])) := by
  have hscalar : ∀ a l, create_variable (.node a (.ident name) l .nullptr) st =
      (.nullptr, st.write [.cmd .PUSH (some (.number 0)), .cmd .POP (some (.reg .hx))]) := by
    intro a l
    obtain ⟨text, ht⟩ := lookup_variable_bound hbound true
    simp [create_variable, find_variable_scalar, lookup_variable_write, ht, SHIFT_REG]
  refine ⟨?_, hscalar, ?_⟩
  · intro vnode text hname
    cases vnode with
    | nullptr => simp [ast_ident] at hname
    | node a d l r =>
      cases d with
      | number v => simp [ast_ident] at hname
      | keyword k => simp [ast_ident] at hname
      | ident nm =>
        simp only [ast_ident, Option.some.injEq] at hname
        subst hname
        cases r with
        | nullptr => rw [hscalar]; simp
        | node ra rd rl rr =>
          cases rd with
          | number v =>
            obtain ⟨t, ht⟩ := lookup_variable_bound hbound true
            have he : compile_expr (.node ra (.number v) rl rr) st =
                (.success, CMD .PUSH (some (number_str v)) st) := by
              rw [compile_expr_node]; simp [keyword]
            simp [create_variable, find_variable, find_variable_body, compile_shift_body,
              ast_node.right, he, on_success, ast_ident, lookup_variable_write, ht]
          | ident s =>
            simp only [create_variable]
            split
            · simp
            · simp
            · simp [declare_variable, ast_node.right]
          | keyword k =>
            simp only [create_variable]
            split
            · simp
            · simp
            · simp [declare_variable, ast_node.right]
  · intro pa left a l st0 hleft
    rw [create_local_table_node]
    simp [keyword, hleft, on_success, not_ident, hscalar, on_found]

/-- Claim C25, amended, at the formal parameters `(a, a)`. -/
theorem create_variable_rejects_bound_witness :
    create_variable (mk_ident 253 "a")
        (create_local_table sample_repeated_params.left fresh_state).2 =
      (.nullptr, (create_local_table sample_repeated_params.left fresh_state).2.write
        [.cmd .PUSH (some (.number 0)), .cmd .POP (some (.reg .hx))]) ∧
    create_local_table sample_repeated_params fresh_state =
      (.syntax_error sample_repeated_params,
        (create_local_table sample_repeated_params.left fresh_state).2.write
          [.cmd .PUSH (some (.number 0)), .cmd .POP (some (.reg .hx))]) :=
  ⟨(create_variable_rejects_bound "a"
      (create_local_table sample_repeated_params.left fresh_state).2
      (Or.inr ⟨_, rfl, by decide⟩)).2.1 253 .nullptr,
   (create_variable_rejects_bound "a"
      (create_local_table sample_repeated_params.left fresh_state).2
      (Or.inr ⟨_, rfl, by decide⟩)).2.2 250 sample_repeated_params.left 253 .nullptr
      fresh_state rfl⟩

end AssertVM
